import Mathlib

/-!
# rastertopclm: raster to PCLm conversion

A shallow embedding of `filter/rastertopclm.cpp` (cups-filters) and the
properties of its strip planner, colour policy resolver, strip encoder
dispatch, row ingest and resource naming.

Conventions of the embedding

* `unsigned` values are natural numbers below `2 ^ 32`; every arithmetic
  operation that can leave that range is reduced modulo `UINT_MOD`.
* `int` values are integers; a conversion from an unsigned or `size_t`
  value to `int` goes through `toInt32` (two's complement).
* A byte buffer is a `List Nat` whose entries are bytes.
* A step whose behaviour is undefined in C++ (division by zero, indexing
  a vector out of range, copying past the end of a buffer, dereferencing
  a null handle) makes the embedded function return `none`.
-/

namespace Rastertopclm

/-! ## Machine integers -/

/-- Number of values of the C++ type `unsigned`. -/
def UINT_MOD : Nat := 2 ^ 32

/-- The value `std::numeric_limits<unsigned>::max()`. -/
def UINT_MAX : Nat := 2 ^ 32 - 1

/-- Conversion of a non-negative value to the 32-bit type `int`
(two's complement wrap-around). -/
def toInt32 (n : Nat) : Int :=
  if n % 2 ^ 32 < 2 ^ 31 then ((n % 2 ^ 32 : Nat) : Int)
  else ((n % 2 ^ 32 : Nat) : Int) - 2 ^ 32

/-- Conversion of an `int` to `unsigned`. -/
def toUnsigned (z : Int) : Nat := (z % 2 ^ 32).toNat

/-! ## Enumerations -/

/-- Compression method for providing data to PCLm streams
(`CompressionMethod`, lines 85-90). -/
inductive CompressionMethod where
  | DCT_DECODE
  | FLATE_DECODE
  | RLE_DECODE
  deriving DecidableEq, Repr

/-- Numeric value of a `CompressionMethod` enumerator. -/
def CompressionMethod.toNat : CompressionMethod → Nat
  | .DCT_DECODE => 0
  | .FLATE_DECODE => 1
  | .RLE_DECODE => 2

/-- Colour spaces of a raster page header (`cups_cspace_t` of
`cups/raster.h`); `other` stands for the ICC and device-N values. -/
inductive cups_cspace_t where
  | CUPS_CSPACE_W
  | CUPS_CSPACE_RGB
  | CUPS_CSPACE_RGBA
  | CUPS_CSPACE_K
  | CUPS_CSPACE_CMY
  | CUPS_CSPACE_YMC
  | CUPS_CSPACE_CMYK
  | CUPS_CSPACE_YMCK
  | CUPS_CSPACE_KCMY
  | CUPS_CSPACE_KCMYcm
  | CUPS_CSPACE_GMCK
  | CUPS_CSPACE_GMCS
  | CUPS_CSPACE_WHITE
  | CUPS_CSPACE_GOLD
  | CUPS_CSPACE_SILVER
  | CUPS_CSPACE_CIEXYZ
  | CUPS_CSPACE_CIELab
  | CUPS_CSPACE_RGBW
  | CUPS_CSPACE_SW
  | CUPS_CSPACE_SRGB
  | CUPS_CSPACE_ADOBERGB
  | other (code : Nat)
  deriving DecidableEq, Repr

/-- Colour space signature of an ICC profile (`cmsColorSpaceSignature`),
with the enumerators named at lines 47-71 of the source. -/
inductive cmsColorSpaceSignature where
  | cmsSigXYZData
  | cmsSigLuvData
  | cmsSigLabData
  | cmsSigYCbCrData
  | cmsSigYxyData
  | cmsSigRgbData
  | cmsSigHsvData
  | cmsSigHlsData
  | cmsSigCmyData
  | cmsSigGrayData
  | cmsSigCmykData
  | cmsSigNcolorData (n : Nat)
  deriving DecidableEq, Repr

/-- The colour conversion functions a `convertFunction` pointer can hold
(lines 146-185). -/
inductive convertFunction where
  | rgbToCmyk
  | whiteToCmyk
  | cmykToRgb
  | whiteToRgb
  | rgbToWhite
  | cmykToWhite
  | noColorConversion
  deriving DecidableEq, Repr

/-- The bit functions a `bitFunction` pointer can hold (lines 128-142). -/
inductive bitFunction where
  | invertBits
  | noBitConversion
  deriving DecidableEq, Repr

/-! ## State -/

/-- The fields of `struct pdf_info` (lines 259-302) read or written by the
functions embedded here.  A `PointerHolder<Buffer>` is an optional byte
list, `none` being the null holder. -/
structure pdf_info where
  pagecount : Nat
  width : Nat
  height : Nat
  line_bytes : Nat
  bpp : Nat
  bpc : Nat
  pclm_num_strips : Nat
  pclm_strip_height_preferred : Nat
  pclm_strip_height : List Nat
  pclm_strip_height_supported : List Nat
  pclm_compression_method_preferred : List CompressionMethod
  pclm_source_resolution_supported : List String
  pclm_source_resolution_default : String
  pclm_raster_back_side : String
  pclm_strip_data : List (Option (List Nat))
  render_intent : String
  color_space : cups_cspace_t
  deriving DecidableEq, Repr

/-- The constructor `pdf_info::pdf_info()` (lines 261-279). -/
def pdf_info.init : pdf_info where
  pagecount := 0
  width := 0
  height := 0
  line_bytes := 0
  bpp := 0
  bpc := 0
  pclm_num_strips := 0
  pclm_strip_height_preferred := 16
  pclm_strip_height := []
  pclm_strip_height_supported := [16]
  pclm_compression_method_preferred := []
  pclm_source_resolution_supported := []
  pclm_source_resolution_default := ""
  pclm_raster_back_side := ""
  pclm_strip_data := []
  render_intent := ""
  color_space := cups_cspace_t.CUPS_CSPACE_K

/-- The file-scope variables of lines 103-107.  The profile handle
`colorProfile` is represented by the signature `cmsGetColorSpace` returns
for it (`none` is the null handle); the two function pointers are
zero-initialised, hence `none`, until a `convertPdf_*` function sets them. -/
structure Globals where
  colorProfile : Option cmsColorSpaceSignature
  cm_disabled : Nat
  conversion_function : Option convertFunction
  bit_function : Option bitFunction
  deriving DecidableEq, Repr

/-- The file-scope variables at program start. -/
def Globals.init : Globals where
  colorProfile := none
  cm_disabled := 0
  conversion_function := none
  bit_function := none

/-! ## Strip planner (`prepare_pdf_page`, lines 576-585) -/

/-- The strip count of lines 576-577:
`height / preferred + (height % preferred ? 1 : 0)`, or `none` when the
preferred height is zero (division by zero). -/
def strip_count (height preferred : Nat) : Option Nat :=
  if preferred = 0 then none
  else some ((height / preferred + (if height % preferred ≠ 0 then 1 else 0)) % UINT_MOD)

/-- The loop of lines 580-585, run for `n` iterations: each strip takes
`preferred` rows if `preferred < height` and all remaining rows otherwise,
and `height` is decreased by that amount. -/
def strip_height_loop : Nat → Nat → Nat → List Nat
  | 0, _, _ => []
  | n + 1, preferred, height =>
    let h := if preferred < height then preferred else height
    h :: strip_height_loop n preferred ((height + UINT_MOD - h) % UINT_MOD)

/-- The method `std::vector::resize`: keep the first `n` elements, append
value-initialised elements up to length `n`. -/
def vector_resize {α : Type} (v : List α) (n : Nat) (d : α) : List α :=
  v.take n ++ List.replicate (n - v.length) d

/-! ## Double precision arithmetic -/

/-- Rounding of a rational to the nearest IEEE 754 binary64 value, ties to
even (53 significant bits).  The exponent range is not modelled: the
values rounded here are quotients and products of integers of at most 32
bits, far from overflow and from the subnormal range. -/
def roundDouble (x : ℚ) : ℚ :=
  if x = 0 then 0
  else
    let e : Int := Int.log 2 |x|
    let u : ℚ := (2 : ℚ) ^ (e - 52)
    let s : ℚ := |x| / u
    let f : Int := ⌊s⌋
    let r : ℚ := s - f
    let m : Int :=
      if r < 1 / 2 then f
      else if 1 / 2 < r then f + 1
      else if f % 2 = 0 then f else f + 1
    (if x < 0 then -1 else 1) * (m : ℚ) * u

/-- Conversion of a `double` to `unsigned`: truncation toward zero, defined
only when the truncated value is representable. -/
def doubleToUnsigned (x : ℚ) : Option Nat :=
  if -1 < x ∧ x < 2 ^ 32 then some (if x < 0 then 0 else ⌊x⌋.toNat) else none

/-! ## PDF colour conversion functions (lines 327-391) -/

/-- The function `modify_pdf_color` (lines 327-343).  `old_ncolor` is an
unsigned quotient and `new_ncolor` an `int` quotient, both converted to
`double` (exactly); the new `line_bytes` is the `double` product
`old_line_bytes * (new_ncolor / old_ncolor)`, each operation rounded,
converted to `unsigned`.  Undefined when an integer division is by zero,
when `old_ncolor` is zero (the quotient is then infinite or not a number,
which has no conversion to `unsigned`), or when the product does not fit
`unsigned`. -/
def modify_pdf_color (g : Globals) (info : pdf_info) (bpp bpc : Int)
    (fn : convertFunction) : Option (Globals × pdf_info) :=
  let old_bpp := info.bpp
  let old_bpc := info.bpc
  if old_bpc = 0 then none
  else
    let old_ncolor : ℚ := ((old_bpp / old_bpc : Nat) : ℚ)
    let old_line_bytes := info.line_bytes
    if bpc = 0 then none
    else
      let new_ncolor : ℚ := ((Int.tdiv bpp bpc : Int) : ℚ)
      if old_ncolor = 0 then none
      else
        match doubleToUnsigned
            (roundDouble ((old_line_bytes : ℚ) * roundDouble (new_ncolor / old_ncolor))) with
        | none => none
        | some lb =>
          some ({ g with conversion_function := some fn },
                { info with line_bytes := lb, bpp := toUnsigned bpp, bpc := toUnsigned bpc })

/-- The function `convertPdf_NoConversion` (lines 345-349). -/
def convertPdf_NoConversion (g : Globals) (info : pdf_info) : Option (Globals × pdf_info) :=
  some ({ g with conversion_function := some convertFunction.noColorConversion,
                 bit_function := some bitFunction.noBitConversion }, info)

/-- The function `convertPdf_Cmyk8ToWhite8` (lines 351-355). -/
def convertPdf_Cmyk8ToWhite8 (g : Globals) (info : pdf_info) : Option (Globals × pdf_info) :=
  (modify_pdf_color g info 8 8 convertFunction.cmykToWhite).map
    fun r => ({ r.1 with bit_function := some bitFunction.noBitConversion }, r.2)

/-- The function `convertPdf_Rgb8ToWhite8` (lines 357-361). -/
def convertPdf_Rgb8ToWhite8 (g : Globals) (info : pdf_info) : Option (Globals × pdf_info) :=
  (modify_pdf_color g info 8 8 convertFunction.rgbToWhite).map
    fun r => ({ r.1 with bit_function := some bitFunction.noBitConversion }, r.2)

/-- The function `convertPdf_Cmyk8ToRgb8` (lines 363-367). -/
def convertPdf_Cmyk8ToRgb8 (g : Globals) (info : pdf_info) : Option (Globals × pdf_info) :=
  (modify_pdf_color g info 24 8 convertFunction.cmykToRgb).map
    fun r => ({ r.1 with bit_function := some bitFunction.noBitConversion }, r.2)

/-- The function `convertPdf_White8ToRgb8` (lines 369-373). -/
def convertPdf_White8ToRgb8 (g : Globals) (info : pdf_info) : Option (Globals × pdf_info) :=
  (modify_pdf_color g info 24 8 convertFunction.whiteToRgb).map
    fun r => ({ r.1 with bit_function := some bitFunction.invertBits }, r.2)

/-- The function `convertPdf_Rgb8ToCmyk8` (lines 375-379). -/
def convertPdf_Rgb8ToCmyk8 (g : Globals) (info : pdf_info) : Option (Globals × pdf_info) :=
  (modify_pdf_color g info 32 8 convertFunction.rgbToCmyk).map
    fun r => ({ r.1 with bit_function := some bitFunction.noBitConversion }, r.2)

/-- The function `convertPdf_White8ToCmyk8` (lines 381-385). -/
def convertPdf_White8ToCmyk8 (g : Globals) (info : pdf_info) : Option (Globals × pdf_info) :=
  (modify_pdf_color g info 32 8 convertFunction.whiteToCmyk).map
    fun r => ({ r.1 with bit_function := some bitFunction.invertBits }, r.2)

/-- The function `convertPdf_InvertColors` (lines 387-391). -/
def convertPdf_InvertColors (g : Globals) (info : pdf_info) : Option (Globals × pdf_info) :=
  some ({ g with conversion_function := some convertFunction.noColorConversion,
                 bit_function := some bitFunction.invertBits }, info)

/-- The values a `pdfConvertFunction` pointer can hold: the eight
`convertPdf_*` functions. -/
inductive pdfConvertFunction where
  | NoConversion
  | Cmyk8ToWhite8
  | Rgb8ToWhite8
  | Cmyk8ToRgb8
  | White8ToRgb8
  | Rgb8ToCmyk8
  | White8ToCmyk8
  | InvertColors
  deriving DecidableEq, Repr

/-- Call through a `pdfConvertFunction` pointer. -/
def pdfConvertFunction.call (fn : pdfConvertFunction) (g : Globals) (info : pdf_info) :
    Option (Globals × pdf_info) :=
  match fn with
  | .NoConversion => convertPdf_NoConversion g info
  | .Cmyk8ToWhite8 => convertPdf_Cmyk8ToWhite8 g info
  | .Rgb8ToWhite8 => convertPdf_Rgb8ToWhite8 g info
  | .Cmyk8ToRgb8 => convertPdf_Cmyk8ToRgb8 g info
  | .White8ToRgb8 => convertPdf_White8ToRgb8 g info
  | .Rgb8ToCmyk8 => convertPdf_Rgb8ToCmyk8 g info
  | .White8ToCmyk8 => convertPdf_White8ToCmyk8 g info
  | .InvertColors => convertPdf_InvertColors g info

/-! ## Colour policy resolver and strip planner (`prepare_pdf_page`) -/

/-- Outcome of `prepare_pdf_page`: the file-scope variables, the page
record and the returned error flag. -/
structure PrepareResult where
  globals : Globals
  info : pdf_info
  error : Int
  deriving DecidableEq, Repr

/-- Lines 568-585 of `prepare_pdf_page`: register the raster information
in the page record and plan the strips.  The vector `pclm_strip_height` is
resized to the strip count and every one of its entries is then assigned
by the loop, which gives the list `strip_height_loop` builds. -/
def register_page (info : pdf_info) (width height bpl bpp bpc : Nat)
    (render_intent : String) (color_space : cups_cspace_t) : Option pdf_info :=
  match strip_count height info.pclm_strip_height_preferred with
  | none => none
  | some num_strips =>
    some { info with
      width := width, height := height, line_bytes := bpl, bpp := bpp, bpc := bpc,
      render_intent := render_intent, color_space := color_space,
      pclm_num_strips := num_strips,
      pclm_strip_height :=
        strip_height_loop num_strips info.pclm_strip_height_preferred height,
      pclm_strip_data := vector_resize info.pclm_strip_data num_strips none }

/-- The local variables of `prepare_pdf_page` after the profile switch:
the chosen function `fn`, the `error` flag, and the updated page record
and file-scope variables. -/
structure Selection where
  fn : pdfConvertFunction
  error : Int
  globals : Globals
  info : pdf_info
  deriving DecidableEq, Repr

/-- Lines 564-566 and 587-628 of `prepare_pdf_page`: `fn` starts as
`convertPdf_NoConversion`, becomes `convertPdf_InvertColors` for a
`CUPS_CSPACE_K` raster, and is then chosen by the switch over the profile
signature when `colorProfile` is not null. -/
def select_conversion (g : Globals) (info : pdf_info) (color_space : cups_cspace_t) :
    Selection :=
  let fn : pdfConvertFunction := .NoConversion
  -- Invert grayscale by default
  let fn : pdfConvertFunction :=
    if color_space = cups_cspace_t.CUPS_CSPACE_K then .InvertColors else fn
  match g.colorProfile with
  | none => ⟨fn, 0, g, info⟩
  | some cmsColorSpaceSignature.cmsSigGrayData =>
    let fn : pdfConvertFunction :=
      if color_space = cups_cspace_t.CUPS_CSPACE_CMYK then .Cmyk8ToWhite8
      else if color_space = cups_cspace_t.CUPS_CSPACE_RGB then .Rgb8ToWhite8
      else .InvertColors
    ⟨fn, 0, g, { info with color_space := cups_cspace_t.CUPS_CSPACE_K }⟩
  | some cmsColorSpaceSignature.cmsSigRgbData =>
    let fn : pdfConvertFunction :=
      if color_space = cups_cspace_t.CUPS_CSPACE_CMYK then .Cmyk8ToRgb8
      else if color_space = cups_cspace_t.CUPS_CSPACE_K then .White8ToRgb8
      else fn
    ⟨fn, 0, g, { info with color_space := cups_cspace_t.CUPS_CSPACE_RGB }⟩
  | some cmsColorSpaceSignature.cmsSigCmykData =>
    let fn : pdfConvertFunction :=
      if color_space = cups_cspace_t.CUPS_CSPACE_RGB then .Rgb8ToCmyk8
      else if color_space = cups_cspace_t.CUPS_CSPACE_K then .White8ToCmyk8
      else fn
    ⟨fn, 0, g, { info with color_space := cups_cspace_t.CUPS_CSPACE_CMYK }⟩
  | some _ =>
    -- "Unable to convert PDF from profile."
    ⟨fn, 1, { g with colorProfile := none }, info⟩

/-- The function `prepare_pdf_page` (lines 553-634): `register_page`, then
`select_conversion`, then the call `fn(info)` when no error was raised
(lines 630-631); the error flag is returned. -/
def prepare_pdf_page (g : Globals) (info : pdf_info) (width height bpl bpp bpc : Nat)
    (render_intent : String) (color_space : cups_cspace_t) : Option PrepareResult :=
  match register_page info width height bpl bpp bpc render_intent color_space with
  | none => none
  | some info =>
    let sel := select_conversion g info color_space
    if sel.error = 0 then
      (sel.fn.call sel.globals sel.info).map fun r => ⟨r.1, r.2, sel.error⟩
    else some ⟨sel.globals, sel.info, sel.error⟩

/-- First row of strip `i`: the total height of the strips above it. -/
def strip_start (heights : List Nat) (i : Nat) : Nat := (heights.take i).sum

/-- The fields of the page record that no `convertPdf_*` function touches. -/
def same_frame (a b : pdf_info) : Prop :=
  a.width = b.width ∧ a.height = b.height ∧ a.pclm_num_strips = b.pclm_num_strips ∧
  a.pclm_strip_height_preferred = b.pclm_strip_height_preferred ∧
  a.pclm_strip_height = b.pclm_strip_height ∧ a.pclm_strip_data = b.pclm_strip_data ∧
  a.color_space = b.color_space ∧
  a.pclm_compression_method_preferred = b.pclm_compression_method_preferred

/-! ## Strip encoder (`makePclmStrips`, lines 409-498) -/

/-- Colour spaces of the JPEG library (`J_COLOR_SPACE` of `jpeglib.h`). -/
inductive J_COLOR_SPACE where
  | JCS_UNKNOWN
  | JCS_GRAYSCALE
  | JCS_RGB
  | JCS_YCbCr
  | JCS_CMYK
  | JCS_YCCK
  deriving DecidableEq, Repr

/-- The qpdf pipelines `makePclmStrips` writes a strip through, with the
arguments they are constructed with.  The bytes a pipeline produces are
not modelled: an encoded stream records the pipeline and its input. -/
inductive Pipeline where
  | Pl_Flate
  | Pl_RunLength
  | Pl_DCT (width height components : Nat) (color_space : J_COLOR_SPACE)
  deriving DecidableEq, Repr

/-- Values stored in a stream dictionary. -/
inductive PdfValue where
  | null
  | name (s : String)
  | integer (n : Int)
  deriving DecidableEq, Repr

/-- Payload of a stream after `replaceStreamData`: what the pipeline
`pipeline` produced from the bytes `input`. -/
structure StreamData where
  pipeline : Pipeline
  input : List Nat
  deriving DecidableEq, Repr

/-- A `QPDFObjectHandle` as `makePclmStrips` produces them: either the
default-constructed, uninitialized handle, or a stream with its
dictionary, its data (`none` for a fresh stream), and the filter and
decode parameters given to `replaceStreamData`. -/
inductive QPDFObjectHandle where
  | uninitialized
  | stream (dict : List (String × PdfValue)) (data : Option StreamData)
      (filter : PdfValue) (decode_parms : PdfValue)
  deriving DecidableEq, Repr

/-- The method `QPDFObjectHandle::isInitialized`. -/
def QPDFObjectHandle.isInitialized : QPDFObjectHandle → Bool
  | .uninitialized => false
  | .stream _ _ _ _ => true

/-- The function `QPDFObjectHandle::newStream`: an empty stream. -/
def QPDFObjectHandle.newStream : QPDFObjectHandle :=
  .stream [] none .null .null

/-- The method `replaceDict` of a stream handle (`none` when the handle
is not a stream). -/
def QPDFObjectHandle.replaceDict (h : QPDFObjectHandle) (dict : List (String × PdfValue)) :
    Option QPDFObjectHandle :=
  match h with
  | .uninitialized => none
  | .stream _ data filter parms => some (.stream dict data filter parms)

/-- The method `replaceStreamData` of a stream handle (`none` when the
handle is not a stream). -/
def QPDFObjectHandle.replaceStreamData (h : QPDFObjectHandle) (data : StreamData)
    (filter decode_parms : PdfValue) : Option QPDFObjectHandle :=
  match h with
  | .uninitialized => none
  | .stream dict _ _ _ => some (.stream dict (some data) filter decode_parms)

/-- Assignment `dict[key] = value` on a `std::map`: replace the entry of
`key` or add it. -/
def map_set (dict : List (String × PdfValue)) (key : String) (value : PdfValue) :
    List (String × PdfValue) :=
  if dict.any (fun e => e.1 == key) then
    dict.map fun e => if e.1 == key then (key, value) else e
  else dict ++ [(key, value)]

/-- Lines 461-464: start from the front of the list and keep, at every
element, the greater of the current method and the element, compared as
enumeration values.  `none` when the list is empty (`front()` of an empty
vector). -/
def select_compression (compression_methods : List CompressionMethod) :
    Option CompressionMethod :=
  match compression_methods with
  | [] => none
  | front :: _ =>
    some (compression_methods.foldl
      (fun compression it => if compression.toNat > it.toNat then compression else it) front)

/-- A loop `for (i = 0; i < n; i ++)` whose body produces one value per
index and may be undefined: the values in index order, or `none` as soon
as one iteration is undefined. -/
def for_each_index {α : Type} (body : Nat → Option α) : Nat → Option (List α)
  | 0 => some []
  | n + 1 =>
    match for_each_index body n with
    | none => none
    | some acc =>
      match body n with
      | none => none
      | some x => some (acc ++ [x])

/-- The filter name `makePclmStrips` attaches to a stream compressed with
the given method (lines 478, 486, 494). -/
def filter_name : CompressionMethod → String
  | .FLATE_DECODE => "/FlateDecode"
  | .RLE_DECODE => "/RunLengthDecode"
  | .DCT_DECODE => "/DCTDecode"

/-- The filter recorded in a stream handle. -/
def QPDFObjectHandle.filter : QPDFObjectHandle → PdfValue
  | .uninitialized => .null
  | .stream _ _ filter _ => filter

/-- Body of the loop of lines 467-496 for strip `i`. -/
def encode_strip (compression : CompressionMethod) (dict : List (String × PdfValue))
    (components : Nat) (color_space : J_COLOR_SPACE) (width : Nat)
    (strip_data : List (Option (List Nat))) (strip_height : List Nat)
    (ret_i : QPDFObjectHandle) (i : Nat) : Option QPDFObjectHandle :=
  match strip_height[i]? with
  | none => none
  | some h =>
    let dict := map_set dict "/Height" (.integer h)
    match ret_i.replaceDict dict with
    | none => none
    | some ret_i =>
      match strip_data[i]? with
      | none => none
      | some none => none
      | some (some buf) =>
        if compression = .FLATE_DECODE then
          ret_i.replaceStreamData ⟨.Pl_Flate, buf⟩ (.name "/FlateDecode") .null
        else if compression = .RLE_DECODE then
          ret_i.replaceStreamData ⟨.Pl_RunLength, buf⟩ (.name "/RunLengthDecode") .null
        else if compression = .DCT_DECODE then
          ret_i.replaceStreamData ⟨.Pl_DCT width h components color_space, buf⟩
            (.name "/DCTDecode") .null
        else some ret_i

/-- The function `makePclmStrips` (lines 409-498). -/
def makePclmStrips (num_strips : Nat) (strip_data : List (Option (List Nat)))
    (compression_methods : List CompressionMethod) (width : Nat) (strip_height : List Nat)
    (cs : cups_cspace_t) (bpc : Nat) : Option (List QPDFObjectHandle) :=
  let ret : List QPDFObjectHandle := List.replicate num_strips QPDFObjectHandle.newStream
  -- Strip stream dictionary
  let dict : List (String × PdfValue) := []
  let dict := map_set dict "/Type" (.name "/XObject")
  let dict := map_set dict "/Subtype" (.name "/Image")
  let dict := map_set dict "/Width" (.integer width)
  let dict := map_set dict "/BitsPerComponent" (.integer bpc)
  let encode (dict : List (String × PdfValue)) (color_space : J_COLOR_SPACE)
      (components : Nat) : Option (List QPDFObjectHandle) :=
    match select_compression compression_methods with
    | none => none
    | some compression =>
      for_each_index
        (fun i =>
          encode_strip compression dict components color_space width strip_data strip_height
            (ret.getD i .uninitialized) i)
        num_strips
  match cs with
  | .CUPS_CSPACE_K | .CUPS_CSPACE_SW =>
    encode (map_set dict "/ColorSpace" (.name "/DeviceGray")) .JCS_GRAYSCALE 1
  | .CUPS_CSPACE_RGB | .CUPS_CSPACE_SRGB | .CUPS_CSPACE_ADOBERGB =>
    encode (map_set dict "/ColorSpace" (.name "/DeviceRGB")) .JCS_RGB 3
  | _ =>
    -- "Color space not supported."
    some (List.replicate num_strips .uninitialized)

/-! ## Strip buffers and row ingest (lines 649-651 and 699-714) -/

/-- The constructor `Buffer(size)`: a buffer of `size` bytes.  Its contents
are unspecified in C++; they are zero bytes here. -/
def Buffer_alloc (size : Nat) : List Nat := List.replicate size 0

/-- Lines 649-651 of `add_pdf_page`: every strip gets a fresh buffer of
`line_bytes * pclm_strip_height[i]` bytes, the product being computed in
`unsigned`. -/
def reserve_strips (info : pdf_info) : Option pdf_info :=
  (for_each_index
    (fun i =>
      if i < info.pclm_strip_data.length then
        match info.pclm_strip_height[i]? with
        | none => none
        | some h => some (some (Buffer_alloc ((info.line_bytes * h) % UINT_MOD)))
      else none)
    info.pclm_num_strips).map
    fun data => { info with
      pclm_strip_data := data ++ info.pclm_strip_data.drop info.pclm_num_strips }

/-- The function `pdf_set_line` (lines 699-714).  `strip_num * preferred`
never exceeds `line_n`, so the difference `line_strip` does not wrap.  The
`memcpy` overwrites `line_bytes` bytes of strip `strip_num` from offset
`line_strip * line_bytes` (an `unsigned` product) with the first
`line_bytes` bytes of `line`; it is undefined when the strip does not
exist, is null, or is too short, or when `line` is too short. -/
def pdf_set_line (info : pdf_info) (line_n : Nat) (line : List Nat) : Option pdf_info :=
  if line_n > info.height then
    -- "Bad line"
    some info
  else if info.pclm_strip_height_preferred = 0 then none
  else
    let strip_num := line_n / info.pclm_strip_height_preferred
    let line_strip := (line_n - strip_num * info.pclm_strip_height_preferred) % UINT_MOD
    let offset := (line_strip * info.line_bytes) % UINT_MOD
    match info.pclm_strip_data[strip_num]? with
    | none => none
    | some none => none
    | some (some buf) =>
      if offset + info.line_bytes ≤ buf.length ∧ info.line_bytes ≤ line.length then
        some { info with
          pclm_strip_data := info.pclm_strip_data.set strip_num
            (some (buf.take offset ++ line.take info.line_bytes ++
              buf.drop (offset + info.line_bytes))) }
      else none

/-- Lines 643-651 of `add_pdf_page` at program start (fresh `pdf_info`,
no colour profile): `prepare_pdf_page`, the size check
`height > UINT_MAX / line_bytes` ("Page too big", which ends the run), and
`reserve_strips`.  The result is the page record in which rows are
ingested; `none` when the run does not get there. -/
def opened_page (width height bpl bpp bpc : Nat) (color_space : cups_cspace_t) :
    Option pdf_info :=
  match prepare_pdf_page Globals.init pdf_info.init width height bpl bpp bpc "" color_space with
  | none => none
  | some r =>
    if r.info.line_bytes = 0 then none
    else if r.info.height > UINT_MAX / r.info.line_bytes then none
    else reserve_strips r.info

/-! ## Resource names (lines 219-248 and 514-519) -/

/-- The loop of `num_digits` (lines 228-232): count the divisions by ten
(truncating, as `/` on `int`) until `n` is zero. -/
def num_digits_loop (n : Int) (digits : Int) : Int :=
  if h : n = 0 then digits else num_digits_loop (n.tdiv 10) (digits + 1)
termination_by n.natAbs
decreasing_by
  have h1 : (n.tdiv 10).natAbs = n.natAbs / 10 := by
    rw [Int.natAbs_tdiv]; rfl
  have h2 : 0 < n.natAbs := Int.natAbs_pos.mpr h
  omega

/-- The function `num_digits` (lines 224-234). -/
def num_digits (n : Int) : Int :=
  if n = 0 then 1 else num_digits_loop n 0

/-- Decimal digits of a natural number, most significant first. -/
def decimal_digits (n : Nat) : List Char :=
  if n < 10 then [Nat.digitChar n]
  else decimal_digits (n / 10) ++ [Nat.digitChar (n % 10)]
termination_by n
decreasing_by omega

/-- The qpdf library function `QUtil::int_to_string`: the decimal
representation of an integer, with a leading minus sign when negative. -/
def int_to_string (n : Int) : String :=
  if n < 0 then "-" ++ String.mk (decimal_digits n.natAbs)
  else String.mk (decimal_digits n.natAbs)

/-- The function `int_to_fwstring` (lines 242-248). -/
def int_to_fwstring (n : Int) (width : Int) : String :=
  let num_zeroes := width - num_digits n
  let num_zeroes := if num_zeroes < 0 then 0 else num_zeroes
  String.mk (List.replicate num_zeroes.toNat '0') ++ int_to_string n

/-- The resource name of strip `i` in `finish_page` (lines 517-518 and
538-539): `"/Image" + int_to_fwstring(i, num_digits(pclm_num_strips - 1))`,
where `i` (a `size_t`) and the `unsigned` difference are converted to
`int`. -/
def image_name (pclm_num_strips i : Nat) : String :=
  "/Image" ++ int_to_fwstring (toInt32 i)
    (num_digits (toInt32 ((pclm_num_strips + UINT_MOD - 1) % UINT_MOD)))

/-- The `w`-digit decimal representation of `n` (of `n mod 10 ^ w`), zero
padded: the reference against which `int_to_fwstring` is compared. -/
def fixed_width_digits : Nat → Nat → List Char
  | 0, _ => []
  | w + 1, n => fixed_width_digits w (n / 10) ++ [Nat.digitChar (n % 10)]

/-! ## Bit and colour conversion of a row (lines 126-185 and 747-751) -/

/-- The function `invertBits` (lines 128-137): the first `pixels` bytes of
`src` are complemented in place (`*dst = ~*dst` on `unsigned char`); the
result is the buffer after the call.  Undefined when the buffer is
shorter than `pixels` bytes. -/
def invertBits (src : List Nat) (pixels : Nat) : Option (List Nat) :=
  if pixels ≤ src.length then
    some ((src.take pixels).map (fun b => 2 ^ 8 - 1 - b % 2 ^ 8) ++ src.drop pixels)
  else none

/-- The function `noBitConversion` (lines 139-142): the buffer is left as
it is. -/
def noBitConversion (src : List Nat) (_pixels : Nat) : Option (List Nat) :=
  some src

/-- Call through a `bitFunction` pointer. -/
def bitFunction.call : bitFunction → List Nat → Nat → Option (List Nat)
  | .invertBits => Rastertopclm.invertBits
  | .noBitConversion => Rastertopclm.noBitConversion

/-- The colour conversion routines of `cupsfilters/image.h` called at
lines 146-179.  Each takes the source bytes, the destination buffer and
the pixel count, and gives the destination buffer after the call. -/
structure cupsImage where
  RGBToCMYK : List Nat → List Nat → Nat → List Nat
  WhiteToCMYK : List Nat → List Nat → Nat → List Nat
  CMYKToRGB : List Nat → List Nat → Nat → List Nat
  WhiteToRGB : List Nat → List Nat → Nat → List Nat
  RGBToWhite : List Nat → List Nat → Nat → List Nat
  CMYKToWhite : List Nat → List Nat → Nat → List Nat

/-- Call through a `convertFunction` pointer (lines 146-185): the bytes
behind the returned pointer, which is `dst` after the library call for
the six converters and `src` itself for `noColorConversion`. -/
def convertFunction.call (img : cupsImage) :
    convertFunction → List Nat → List Nat → Nat → List Nat
  | .rgbToCmyk, src, dst, pixels => img.RGBToCMYK src dst pixels
  | .whiteToCmyk, src, dst, pixels => img.WhiteToCMYK src dst pixels
  | .cmykToRgb, src, dst, pixels => img.CMYKToRGB src dst pixels
  | .whiteToRgb, src, dst, pixels => img.WhiteToRGB src dst pixels
  | .rgbToWhite, src, dst, pixels => img.RGBToWhite src dst pixels
  | .cmykToWhite, src, dst, pixels => img.CMYKToWhite src dst pixels
  | .noColorConversion, src, _, _ => src

/-- Lines 747-751 of `convert_raster`, the conversion stage of a row (it
follows the byte-order step of lines 732-745): the row in `PixelBuffer`
goes through `bit_function(PixelBuffer, ptr, bpl)` and then
`conversion_function(PixelBuffer, buff, width)`, where `buff` has
`line_bytes` bytes; the result is the line handed to `pdf_set_line`.
Undefined when a function pointer is still null. -/
def convert_line (img : cupsImage) (g : Globals) (info : pdf_info) (PixelBuffer : List Nat)
    (bpl width : Nat) : Option (List Nat) :=
  let buff := Buffer_alloc info.line_bytes
  match g.bit_function with
  | none => none
  | some bit_function =>
    match bit_function.call PixelBuffer bpl with
    | none => none
    | some PixelBuffer =>
      match g.conversion_function with
      | none => none
      | some conversion_function => some (conversion_function.call img PixelBuffer buff width)

/-- A set of stand-in library routines that leave the destination buffer
as it is, for evaluating examples in which no library routine is
called. -/
def cupsImage.idle : cupsImage where
  RGBToCMYK := fun _ dst _ => dst
  WhiteToCMYK := fun _ dst _ => dst
  CMYKToRGB := fun _ dst _ => dst
  WhiteToRGB := fun _ dst _ => dst
  RGBToWhite := fun _ dst _ => dst
  CMYKToWhite := fun _ dst _ => dst

/-- Number of colour channels of a colour space: 1 for the gray spaces
and 3 for the RGB spaces as in `makePclmStrips` (lines 430-443), 4 for
CMYK, and the counts of `cups/raster.h` for the others (0 where the
header does not fix one). -/
def channel_count : cups_cspace_t → Nat
  | .CUPS_CSPACE_W | .CUPS_CSPACE_K | .CUPS_CSPACE_SW | .CUPS_CSPACE_WHITE
  | .CUPS_CSPACE_GOLD | .CUPS_CSPACE_SILVER => 1
  | .CUPS_CSPACE_RGB | .CUPS_CSPACE_SRGB | .CUPS_CSPACE_ADOBERGB | .CUPS_CSPACE_CMY
  | .CUPS_CSPACE_YMC | .CUPS_CSPACE_CIEXYZ | .CUPS_CSPACE_CIELab => 3
  | .CUPS_CSPACE_RGBA | .CUPS_CSPACE_CMYK | .CUPS_CSPACE_YMCK | .CUPS_CSPACE_KCMY
  | .CUPS_CSPACE_GMCK | .CUPS_CSPACE_GMCS | .CUPS_CSPACE_RGBW => 4
  | .CUPS_CSPACE_KCMYcm => 6
  | .other _ => 0

/-- The colour conversion function each `convertPdf_*` function installs
(lines 345-391). -/
def pdfConvertFunction.conversion : pdfConvertFunction → convertFunction
  | .NoConversion => .noColorConversion
  | .Cmyk8ToWhite8 => .cmykToWhite
  | .Rgb8ToWhite8 => .rgbToWhite
  | .Cmyk8ToRgb8 => .cmykToRgb
  | .White8ToRgb8 => .whiteToRgb
  | .Rgb8ToCmyk8 => .rgbToCmyk
  | .White8ToCmyk8 => .whiteToCmyk
  | .InvertColors => .noColorConversion

/-- The bit function each `convertPdf_*` function installs
(lines 345-391). -/
def pdfConvertFunction.bits : pdfConvertFunction → bitFunction
  | .White8ToRgb8 | .White8ToCmyk8 | .InvertColors => .invertBits
  | _ => .noBitConversion

/-- The bits per pixel and per colour a `convertPdf_*` function passes to
`modify_pdf_color`; `none` for the two functions that do not call it. -/
def pdfConvertFunction.depth : pdfConvertFunction → Option (Nat × Nat)
  | .NoConversion | .InvertColors => none
  | .Cmyk8ToWhite8 | .Rgb8ToWhite8 => some (8, 8)
  | .Cmyk8ToRgb8 | .White8ToRgb8 => some (24, 8)
  | .Rgb8ToCmyk8 | .White8ToCmyk8 => some (32, 8)

/-! ## Outcomes, the QPDF document and the page object -/

/-- How a call ends: it returns a value, it ends the process through
`die` (exit code 1), it leaves through a C++ exception, or its behaviour
is undefined. -/
inductive Outcome (α : Type) where
  | ok (a : α)
  | die (msg : String)
  | threw
  | undefined
  deriving DecidableEq, Repr

/-- A page object of the QPDF document as `add_pdf_page` builds it (lines
653-670): the `/MediaBox` array, the `/Resources /XObject` dictionary and
the data of the single stream of the `/Contents` array (`none` for the
fresh stream). -/
structure PageObject where
  MediaBox : Int × Int × Int × Int
  XObject : List (String × QPDFObjectHandle)
  Contents : Option String
  deriving DecidableEq, Repr

/-- The method `replaceKey` of a dictionary: replace the entry of `key`
or add it. -/
def replaceKey {α : Type} (dict : List (String × α)) (key : String) (value : α) :
    List (String × α) :=
  if dict.any (fun e => e.1 == key) then
    dict.map fun e => if e.1 == key then (key, value) else e
  else dict ++ [(key, value)]

/-- The whole of `struct pdf_info` (lines 259-302): the members embedded
in `pdf_info` together with the QPDF members.  `pdf` is the list of page
objects of the document, in page order; the handle `page` refers to one
of them by its index and is `none` while uninitialized; the `double`
members are rationals. -/
structure pdf_state where
  info : pdf_info
  pdf : List PageObject
  page : Option Nat
  page_data : Option (List Nat)
  page_width : ℚ
  page_height : ℚ
  deriving DecidableEq, Repr

/-- The constructor `pdf_info::pdf_info()` for the whole struct, followed
by `create_pdf_file` (lines 304-312), which makes `pdf` the empty
document. -/
def pdf_state.init : pdf_state where
  info := pdf_info.init
  pdf := []
  page := none
  page_data := none
  page_width := 0
  page_height := 0

/-- What the program needs from its host and from the qpdf library beyond
what is embedded: the byte order (`ARCH_IS_BIG_ENDIAN`), the colour
conversion routines, and `QUtil::double_to_string`, whose argument is
`none` for an infinite value. -/
structure Host where
  big_endian : Bool
  img : cupsImage
  double_to_string : Option ℚ → String

/-- Value of a decimal digit character. -/
def digit_value (c : Char) : Nat := c.toNat - '0'.toNat

/-- The characters `isspace` accepts in the C locale. -/
def is_space (c : Char) : Bool :=
  c = ' ' || c = '\t' || c = '\n' || c = '\x0b' || c = '\x0c' || c = '\r'

/-- The leading decimal digits of a character list, as a number, with the
count of digits consumed. -/
def leading_digits : List Char → Nat → Nat → Nat × Nat
  | [], acc, n => (acc, n)
  | c :: cs, acc, n =>
    if c.isDigit then leading_digits cs (acc * 10 + digit_value c) (n + 1) else (acc, n)

/-- The integer a C library conversion (`strtol` with base 10, on which
`atoi` and `std::stoi` rest) reads at the start of a string: leading white
space is skipped, an optional sign is read, then decimal digits.  `none`
when there is no digit to convert. -/
def parse_int (s : List Char) : Option Int :=
  let s := s.dropWhile is_space
  let (neg, s) :=
    match s with
    | '-' :: rest => (true, rest)
    | '+' :: rest => (false, rest)
    | _ => (false, s)
  let (value, count) := leading_digits s 0 0
  if count = 0 then none
  else some (if neg then -(value : Int) else (value : Int))

/-- The function `std::stoi`: the integer read by `parse_int`; it throws
(`none`) when no conversion can be performed or the value does not fit
`int`. -/
def stoi (s : String) : Option Int :=
  match parse_int s.data with
  | none => none
  | some v => if -2 ^ 31 ≤ v ∧ v < 2 ^ 31 then some v else none

/-- The function `atoi`: the integer read by `parse_int`, or 0 when no
conversion can be performed.  (The C standard leaves the result undefined
when the value does not fit `int`; the value is kept as it is here.) -/
def atoi (s : String) : Int :=
  (parse_int s.data).getD 0

/-- The expression `res.substr(0, res.size() - 3)` of line 527: the string
without its last three characters; when it has fewer than three, the
`size_t` difference wraps around and the whole string is taken. -/
def strip_dpi (res : String) : String :=
  if 3 ≤ res.length then String.mk (res.data.take (res.length - 3)) else res

/-- The loop of lines 530-541 from strip `i` on, for `n` more strips: the
text appended to the content stream.  `yAnchor` is decreased by the strip
height (in `unsigned`) before the strip is placed.  `none` when a strip
height is read past the end of the vector. -/
def place_strips (info : pdf_info) : Nat → Nat → Nat → Option String
  | 0, _, _ => some ""
  | n + 1, i, yAnchor =>
    match info.pclm_strip_height[i]? with
    | none => none
    | some h =>
      let yAnchor := (yAnchor + UINT_MOD - h) % UINT_MOD
      match place_strips info n (i + 1) yAnchor with
      | none => none
      | some rest =>
        some ("/P <</MCID 0>> BDC q\n" ++
          (int_to_string info.width ++ " 0 0 " ++ int_to_string h ++ " 0 " ++
            int_to_string yAnchor ++ " cm\n") ++
          (image_name info.pclm_num_strips i ++ " Do Q\n") ++ rest)

/-- Lines 514-519 of `finish_page` from strip `i` on, for `n` more
strips: every strip is added to the `XObject` dictionary under its
name. -/
def add_images (num_strips : Nat) (strips : List QPDFObjectHandle) :
    Nat → Nat → List (String × QPDFObjectHandle) → List (String × QPDFObjectHandle)
  | 0, _, dict => dict
  | n + 1, i, dict =>
    add_images num_strips strips n (i + 1)
      (replaceKey dict (image_name num_strips i) (strips.getD i .uninitialized))

/-- The function `finish_page` (lines 500-549).  It returns at once when
there is no strip or when a strip holder is null; it dies when a strip
stream is not initialized; it leaves through an exception when the page
handle is uninitialized or `std::stoi` cannot convert the default
resolution. -/
def finish_page (host : Host) (s : pdf_state) : Outcome pdf_state :=
  let info := s.info
  if info.pclm_num_strips = 0 then .ok s
  else if info.pclm_strip_data.any (fun p => p.isNone) then .ok s
  else
    match makePclmStrips info.pclm_num_strips info.pclm_strip_data
        info.pclm_compression_method_preferred info.width info.pclm_strip_height
        info.color_space info.bpc with
    | none => .undefined
    | some strips =>
      if (strips.take info.pclm_num_strips).any (fun h => !h.isInitialized) then
        .die "Unable to load strip data"
      else
        match s.page.bind (fun k => s.pdf[k]?.map fun pg => (k, pg)) with
        | none => .threw
        | some (k, pg) =>
          -- add it
          let xobject := add_images info.pclm_num_strips strips info.pclm_num_strips 0 pg.XObject
          -- draw it
          let res := info.pclm_source_resolution_default
          match stoi (strip_dpi res) with
          | none => .threw
          | some r =>
            let resolution_integer := toUnsigned r
            let d : Option ℚ :=
              if resolution_integer = 0 then none
              else some (roundDouble (72 / (resolution_integer : ℚ)))
            let content := host.double_to_string d ++ " 0 0 " ++ host.double_to_string d ++
              " 0 0 cm\n"
            match place_strips info info.pclm_num_strips 0 info.height with
            | none => .undefined
            | some placed =>
              let pg := { pg with XObject := xobject, Contents := some (content ++ placed) }
              -- bookkeeping
              .ok { s with
                pdf := s.pdf.set k pg
                page_data := none
                info := { info with pclm_strip_data := [] } }

/-! ## Opening and closing pages (`add_pdf_page`, `close_pdf_file`) -/

/-- Conversion of a `double` to `int`: truncation toward zero, defined
only when the truncated value is representable. -/
def doubleToInt (x : ℚ) : Option Int :=
  if -2 ^ 31 - 1 < x ∧ x < 2 ^ 31 then some (if x < 0 then -⌊-x⌋ else ⌊x⌋) else none

/-- The expression `((double)pixels / dpi) * DEFAULT_PDF_UNIT` of lines
664-665; `none` when `dpi` is zero and the quotient is infinite or not a
number. -/
def pdf_units (pixels dpi : Nat) : Option ℚ :=
  if dpi = 0 then none
  else some (roundDouble (roundDouble ((pixels : ℚ) / (dpi : ℚ)) * 72))

/-- The third and fourth argument of `makeIntegerBox` at line 670: the
`double` sum `page_width + 0.5` converted to `int`. -/
def box_extent (units : Option ℚ) : Option Int :=
  match units with
  | none => none
  | some u => doubleToInt (roundDouble (u + 1 / 2))

/-- The function `add_pdf_page` (lines 636-681).  The outcome `threw`
stands for the catch-all handler, which makes the function return 1; a
normal return is the value 0.  Allocation failure is not modelled. -/
def add_pdf_page (host : Host) (g : Globals) (s : pdf_state) (_pagen : Int)
    (width height : Nat) (bpp bpc bpl : Int) (render_intent : String)
    (color_space : cups_cspace_t) (xdpi ydpi : Nat) : Outcome (Globals × pdf_state) :=
  match finish_page host s with
  | .die msg => .die msg
  | .threw => .threw
  | .undefined => .undefined
  | .ok s =>
    match prepare_pdf_page g s.info width height (toUnsigned bpl) (toUnsigned bpp)
        (toUnsigned bpc) render_intent color_space with
    | none => .undefined
    | some r =>
      if r.info.line_bytes = 0 then .undefined
      else if r.info.height > UINT_MAX / r.info.line_bytes then .die "Page too big"
      else
        -- reserve space for PCLm strips
        match reserve_strips r.info with
        | none => .undefined
        | some info =>
          -- Convert to pdf units
          match pdf_units info.width xdpi, pdf_units info.height ydpi with
          | some page_width, some page_height =>
            -- box with dimensions rounded off to the nearest integer
            match box_extent (some page_width), box_extent (some page_height) with
            | some x2, some y2 =>
              let page : PageObject := { MediaBox := (0, 0, x2, y2), XObject := [], Contents := none }
              .ok (r.globals,
                { s with
                  info := info
                  page_width := page_width
                  page_height := page_height
                  pdf := s.pdf ++ [page]
                  page := some s.pdf.length })
            | _, _ => .undefined
          | _, _ => .undefined

/-- What `close_pdf_file` leaves behind: its return value and, when the
writer ran, the document handed to `QPDFWriter::write`. -/
structure CloseResult where
  ret : Int
  written : Option (List PageObject)
  deriving DecidableEq, Repr

/-- The function `close_pdf_file` (lines 683-697): `finish_page`, then the
writer on the whole document; an exception makes it return 1 with nothing
written. -/
def close_pdf_file (host : Host) (s : pdf_state) : Outcome CloseResult :=
  match finish_page host s with
  | .die msg => .die msg
  | .threw => .ok ⟨1, none⟩
  | .undefined => .undefined
  | .ok s => .ok ⟨0, some s.pdf⟩

/-! ## Row ingest of a page (`convert_raster`, lines 716-760) -/

/-- The library call `cupsRasterReadPixels(ras, PixelBuffer, bpl)`: the
next row of the page, if there is one left, is copied into the buffer.
Gives the buffer and the rows left. -/
def cupsRasterReadPixels (rows : List (List Nat)) (PixelBuffer : List Nat) (bpl : Nat) :
    List Nat × List (List Nat) :=
  match rows with
  | [] => (PixelBuffer, [])
  | row :: rest => (row.take bpl ++ PixelBuffer.drop (row.take bpl).length, rest)

/-- The loop of lines 738-743 over a buffer: each pair of adjacent bytes
is swapped.  On a buffer of odd length the last step reaches one byte
past its end, which is undefined. -/
def swap_pairs : List Nat → Option (List Nat)
  | [] => some []
  | [_] => none
  | a :: b :: rest => (swap_pairs rest).map fun r => b :: a :: r

/-- What `convert_raster` did: the page record (`none` once behaviour is
undefined), the row indices passed to `pdf_set_line` in call order, the
number of rows taken from the raster source, and the rows left in it. -/
structure ConvertResult where
  info : Option pdf_info
  calls : List Nat
  reads : Nat
  rest : List (List Nat)
  deriving DecidableEq, Repr

/-- The `do ... while (cur_line < height)` loop of `convert_raster` (lines
727-754), entered at the top of the body with `fuel` further iterations
allowed. -/
def convert_raster_loop (host : Host) (g : Globals) (width height bpl : Nat) :
    Nat → Nat → List Nat → List (List Nat) → pdf_info → List Nat → Nat → ConvertResult
  | fuel, cur_line, PixelBuffer, rows, info, calls, reads =>
    -- Read raster data...
    let (PixelBuffer, rest) := cupsRasterReadPixels rows PixelBuffer bpl
    let reads := reads + (rows.length - rest.length)
    let swapped : Option (List Nat) :=
      if !host.big_endian && info.bpc = 16 then swap_pairs PixelBuffer else some PixelBuffer
    match swapped with
    | none => ⟨none, calls, reads, rest⟩
    | some PixelBuffer =>
      -- perform bit operations if necessary
      match g.bit_function with
      | none => ⟨none, calls, reads, rest⟩
      | some bit_function =>
        match bit_function.call PixelBuffer bpl with
        | none => ⟨none, calls, reads, rest⟩
        | some PixelBuffer =>
          match g.conversion_function with
          | none => ⟨none, calls, reads, rest⟩
          | some conversion_function =>
            -- write lines and color convert when necessary
            let line := conversion_function.call host.img PixelBuffer
              (Buffer_alloc info.line_bytes) width
            let calls := calls ++ [cur_line]
            match pdf_set_line info cur_line line with
            | none => ⟨none, calls, reads, rest⟩
            | some info =>
              let cur_line := (cur_line + 1) % UINT_MOD
              if cur_line < height then
                match fuel with
                | 0 => ⟨none, calls, reads, rest⟩
                | fuel + 1 =>
                  convert_raster_loop host g width height bpl fuel cur_line PixelBuffer rest
                    info calls reads
              else ⟨some info, calls, reads, rest⟩

/-- The function `convert_raster` (lines 716-760) on the rows of one page.
The loop body runs at most `height` times after its first run, which is
the fuel given to the loop. -/
def convert_raster (host : Host) (g : Globals) (rows : List (List Nat))
    (width height : Nat) (_bpp : Int) (bpl : Nat) (info : pdf_info) : ConvertResult :=
  convert_raster_loop host g width height bpl height 0 (Buffer_alloc bpl) rows info [] 0

/-! ## Device attributes and the pipeline driver (`main`, lines 811-1010) -/

/-- State of the loop of `split_strings`: the vector built so far, the
token being collected and the push flag. -/
structure SplitState where
  vec : List String
  value : String
  push_flag : Bool
  deriving DecidableEq, Repr

/-- One iteration of the loop of `split_strings` (lines 200-213) on the
character `c`. -/
def split_step (delimiters : String) (st : SplitState) (c : Char) : SplitState :=
  let st : SplitState :=
    if st.push_flag && !st.value.data.isEmpty then
      { vec := st.vec ++ [st.value], value := "", push_flag := false }
    else st
  if delimiters.data.contains c then { st with push_flag := true }
  else { st with value := st.value ++ String.singleton c }

/-- The function `split_strings` (lines 193-217). -/
def split_strings (str : String) (delimiters : String) : List String :=
  let st := str.data.foldl (split_step delimiters) { vec := [], value := "", push_flag := false }
  if !st.value.data.isEmpty then st.vec ++ [st.value] else st.vec

/-- The values `ppdFindAttr` finds for the PCLm attributes of the PPD
file, `none` for an attribute that is absent. -/
structure PPD where
  cupsPclmStripHeightPreferred : Option String
  cupsPclmStripHeightSupported : Option String
  cupsPclmRasterBackSide : Option String
  cupsPclmSourceResolutionDefault : Option String
  cupsPclmSourceResolutionSupported : Option String
  cupsPclmCompressionMethodPreferred : Option String
  deriving DecidableEq, Repr

/-- Lines 949-957: a token of the compression attribute, in lower case,
is compared with the three recognised names. -/
def compression_of_token (token : String) : Option CompressionMethod :=
  let compression_method := String.mk (token.data.map Char.toLower)
  if compression_method = "flate" then some .FLATE_DECODE
  else if compression_method = "rle" then some .RLE_DECODE
  else if compression_method = "jpeg" then some .DCT_DECODE
  else none

/-- Lines 889-968 of `main`: the PCLm attributes of the PPD file are
stored in the page record. -/
def read_ppd_attributes (ppd : PPD) (pdf : pdf_info) : pdf_info :=
  let pdf : pdf_info :=
    match ppd.cupsPclmStripHeightPreferred with
    | some value => { pdf with pclm_strip_height_preferred := toUnsigned (atoi value) }
    | none => { pdf with pclm_strip_height_preferred := 16 }
  let pdf : pdf_info :=
    match ppd.cupsPclmStripHeightSupported with
    | some value =>
      { pdf with pclm_strip_height_supported :=
          (split_strings value ",").map fun v => toUnsigned (atoi v) }
    | none => pdf
  let pdf : pdf_info :=
    match ppd.cupsPclmRasterBackSide with
    | some value => { pdf with pclm_raster_back_side := value }
    | none => pdf
  let pdf : pdf_info :=
    match ppd.cupsPclmSourceResolutionDefault with
    | some value => { pdf with pclm_source_resolution_default := value }
    | none => pdf
  let pdf : pdf_info :=
    match ppd.cupsPclmSourceResolutionSupported with
    | some value => { pdf with pclm_source_resolution_supported := split_strings value "," }
    | none => pdf
  let pdf : pdf_info :=
    match ppd.cupsPclmCompressionMethodPreferred with
    | some value =>
      { pdf with pclm_compression_method_preferred :=
          pdf.pclm_compression_method_preferred ++
            (split_strings value ",").filterMap compression_of_token }
    | none => pdf
  -- If the compression methods is none of the above or is erreneous
  -- use FLATE as compression method and show a warning.
  if pdf.pclm_compression_method_preferred.isEmpty then
    { pdf with pclm_compression_method_preferred :=
        pdf.pclm_compression_method_preferred ++ [.FLATE_DECODE] }
  else pdf

/-- The fields of `cups_page_header2_t` that `main` reads. -/
structure cups_page_header2_t where
  cupsWidth : Nat
  cupsHeight : Nat
  cupsBitsPerPixel : Nat
  cupsBitsPerColor : Nat
  cupsBytesPerLine : Nat
  cupsRenderingIntent : String
  cupsColorSpace : cups_cspace_t
  HWResolution : Nat × Nat
  deriving DecidableEq, Repr

/-- A page of the raster stream: the header `cupsRasterReadHeader2`
delivers and the rows that follow it. -/
structure RasterPage where
  header : cups_page_header2_t
  rows : List (List Nat)
  deriving DecidableEq, Repr

/-- The page loop of `main` (lines 970-994), one iteration per header the
raster source delivers; `Page` is the page counter.  Gives the counter
and the state when the source is exhausted. -/
def page_loop (host : Host) :
    List RasterPage → Int → Globals → pdf_state → Outcome (Int × Globals × pdf_state)
  | [], Page, g, pdf => .ok (Page, g, pdf)
  | p :: rest, Page, g, pdf =>
    -- signed overflow of the page counter
    if Page + 1 ≥ 2 ^ 31 then .undefined
    else
      let Page := Page + 1
      let header := p.header
      -- Add a new page to PDF file
      match add_pdf_page host g pdf Page header.cupsWidth header.cupsHeight
          (toInt32 header.cupsBitsPerPixel) (toInt32 header.cupsBitsPerColor)
          (toInt32 header.cupsBytesPerLine) header.cupsRenderingIntent header.cupsColorSpace
          header.HWResolution.1 header.HWResolution.2 with
      | .die msg => .die msg
      | .threw => .die "Unable to start new PDF page"
      | .undefined => .undefined
      | .ok (g, pdf) =>
        -- Write the bit map into the PDF file
        let r := convert_raster host g p.rows header.cupsWidth header.cupsHeight
          (toInt32 header.cupsBitsPerPixel) (toUnsigned (toInt32 header.cupsBytesPerLine))
          pdf.info
        match r.info with
        | none => .undefined
        | some info => page_loop host rest Page g { pdf with info := info }

/-- How the process ends when `main` returns: the value returned (the
exit code) and the document the writer was run on, if it was. -/
structure ExitResult where
  code : Int
  written : Option (List PageObject)
  deriving DecidableEq, Repr

/-- The function `main` (lines 811-1010).  `argc` is the argument count,
`ppd` the PPD file `ppdOpenFile` opened (`none` when it could not),
`input_opened` tells whether the raster file could be opened, and `ras`
is the page stream. -/
def main (host : Host) (argc : Nat) (ppd : Option PPD) (input_opened : Bool)
    (ras : List RasterPage) : Outcome ExitResult :=
  if argc < 6 ∨ argc > 7 then .ok ⟨1, none⟩
  else
    let g : Globals := { Globals.init with cm_disabled := 1 }
    match ppd with
    | none => .ok ⟨1, none⟩
    | some ppd =>
      if argc = 7 ∧ !input_opened then .die "Unable to open PWG Raster file"
      else
        -- Process pages as needed...
        let Page : Int := 0
        -- Create PDF file
        let pdf := pdf_state.init
        -- Get PCLm attributes from PPD
        let pdf := { pdf with info := read_ppd_attributes ppd pdf.info }
        match page_loop host ras Page g pdf with
        | .die msg => .die msg
        | .threw => .threw
        | .undefined => .undefined
        | .ok (Page, _, pdf) =>
          match close_pdf_file host pdf with
          | .die msg => .die msg
          | .threw => .threw
          | .undefined => .undefined
          | .ok closed => .ok ⟨if Page = 0 then 1 else 0, closed.written⟩

/-- The exit code of the process: the value `main` returns, or 1 when the
run ended in `die`; `none` when it is not determined. -/
def exit_code {α : Type} (code : α → Int) : Outcome α → Option Int
  | .ok a => some (code a)
  | .die _ => some 1
  | .threw => none
  | .undefined => none

/-- A host for evaluating examples: little endian, with the idle
conversion routines and a fixed stand-in text for every
`QUtil::double_to_string` result. -/
def Host.little_endian : Host where
  big_endian := false
  img := cupsImage.idle
  double_to_string := fun _ => "1"

/-- A PPD file whose only PCLm attribute is the default source
resolution, `600dpi`; used in examples. -/
def PPD.plain : PPD := ⟨none, none, none, some "600dpi", none, none⟩

/-- A raster page of one gray pixel at 1 dpi; used in examples. -/
def RasterPage.gray_pixel : RasterPage :=
  ⟨⟨1, 1, 8, 8, 1, "", .CUPS_CSPACE_K, (1, 1)⟩, [[7]]⟩

/-- A raster page of one CMYK pixel at 1 dpi; used in examples. -/
def RasterPage.cmyk_pixel : RasterPage :=
  ⟨⟨1, 1, 32, 8, 4, "", .CUPS_CSPACE_CMYK, (1, 1)⟩, [[1, 2, 3, 4]]⟩

/-- The state in which `main` enters its page loop for a given PPD
file. -/
def pdf_state.configured (ppd : PPD) : pdf_state :=
  { pdf_state.init with info := read_ppd_attributes ppd pdf_state.init.info }

/-! ## Opened pages -/

/-- The page record of a page that `add_pdf_page` has opened: the strips
are planned for the page height with a preferred strip height that is not
zero, the whole page fits in `UINT_MAX` bytes, and every strip holder has
a buffer of `pclm_strip_height[i] * line_bytes` bytes. -/
def page_open (info : pdf_info) : Prop :=
  0 < info.pclm_strip_height_preferred ∧
  info.height < 2 ^ 32 ∧
  info.height * info.line_bytes ≤ UINT_MAX ∧
  info.pclm_num_strips = info.height / info.pclm_strip_height_preferred +
    (if info.height % info.pclm_strip_height_preferred ≠ 0 then 1 else 0) ∧
  info.pclm_strip_height = (List.range info.pclm_num_strips).map
    (fun i => min info.pclm_strip_height_preferred
      (info.height - i * info.pclm_strip_height_preferred)) ∧
  info.pclm_strip_data.map (Option.map List.length) =
    info.pclm_strip_height.map (fun h => some (h * info.line_bytes))

instance (info : pdf_info) : Decidable (page_open info) := by
  unfold page_open
  infer_instance

/-- A raster page header with a page height of zero and no rows; used in
examples. -/
def RasterPage.no_rows : RasterPage :=
  ⟨⟨1, 0, 8, 8, 1, "", .CUPS_CSPACE_K, (1, 1)⟩, []⟩

/-- A page of 20 rows of 4 gray pixels, opened with the default preferred
strip height of 16 rows (strips of 16 and 4 rows) and the default
resolution `600dpi`; used in examples. -/
def pdf_state.two_strips : pdf_state :=
  { info :=
      { read_ppd_attributes PPD.plain pdf_info.init with
        width := 4, height := 20, line_bytes := 4, bpp := 8, bpc := 8,
        pclm_num_strips := 2, pclm_strip_height := [16, 4],
        pclm_strip_data := [some (List.replicate 64 0), some (List.replicate 16 0)] }
    pdf := [{ MediaBox := (0, 0, 288, 1440), XObject := [], Contents := none }]
    page := some 0
    page_data := none
    page_width := 288
    page_height := 1440 }

/-! ## Option lists (`lookup_opt`, `src/filter/pdf.cxx` lines 481-503) -/

/-- Modelled from the spec: the type `opt_t` is declared in a header that
is not among the sources; `lookup_opt` reads its members `key`, `val` and
`next`.  An entry holds two C strings, either of which may be null
(`none`); the `next` pointers make the list, which is a Lean list here,
the null pointer being the empty list. -/
structure opt_t where
  key : Option String
  val : Option String
  deriving DecidableEq, Repr

/-- The `while (opt)` loop of `lookup_opt` (lines 493-500).  The test
`strcmp(opt->key, key) == 0` is equality of the two strings. -/
def lookup_opt_loop (key : String) : List opt_t → Option String
  | [] => none
  | opt :: next =>
    match opt.key, opt.val with
    | some k, some v => if k = key then some v else lookup_opt_loop key next
    | _, _ => lookup_opt_loop key next

/-- The function `lookup_opt` (lines 488-503); `none` is the null
pointer. -/
def lookup_opt (opt : List opt_t) (key : Option String) : Option String :=
  match opt, key with
  | [], _ => none
  | _, none => none
  | opt, some key => lookup_opt_loop key opt

/-- The result `lookup_opt` is described to have: the value of the first
entry, in list order, that has a key and a value and whose key is the
requested one; the reference `lookup_opt` is compared with. -/
def lookup_opt_first (opt : List opt_t) (key : Option String) : Option String :=
  match key with
  | none => none
  | some k =>
    match opt.find? (fun e => e.key.isSome && e.val.isSome && e.key == some k) with
    | none => none
    | some e => e.val

/-- The values the variable `yAnchor` of `finish_page` takes in the loop
of lines 530-541, from strip `i` on, for `n` more strips: at each strip
the strip height is subtracted, in `unsigned`, before the strip is placed.
`none` when a strip height is read past the end of the vector. -/
def strip_anchors (info : pdf_info) : Nat → Nat → Nat → Option (List Nat)
  | 0, _, _ => some []
  | n + 1, i, yAnchor =>
    match info.pclm_strip_height[i]? with
    | none => none
    | some h =>
      let yAnchor := (yAnchor + UINT_MOD - h) % UINT_MOD
      match strip_anchors info n (i + 1) yAnchor with
      | none => none
      | some rest => some (yAnchor :: rest)

/-- The pipeline the loop body of `makePclmStrips` constructs for a
compression method (lines 474, 482 and 490): `Pl_Flate`, `Pl_RunLength`,
or `Pl_DCT` with the strip's width and height, the channel count and the
JPEG colour space. -/
def strip_pipeline (compression : CompressionMethod) (width height components : Nat)
    (color_space : J_COLOR_SPACE) : Pipeline :=
  match compression with
  | .FLATE_DECODE => .Pl_Flate
  | .RLE_DECODE => .Pl_RunLength
  | .DCT_DECODE => .Pl_DCT width height components color_space

/-- The number a list of decimal digit characters stands for; used to
read resource names back. -/
def digits_value (l : List Char) : Nat :=
  l.foldl (fun acc c => acc * 10 + (c.toNat - '0'.toNat)) 0

/-- The integer a zero padded decimal string, as `int_to_fwstring` builds
it, stands for: leading zeros are dropped, then an optional minus sign is
read, then the digits. -/
def fwstring_value (l : List Char) : Int :=
  match l.dropWhile (fun c => c == '0') with
  | [] => 0
  | '-' :: rest => -(digits_value rest : Int)
  | c :: rest => (digits_value (c :: rest) : Int)

/-- A page of 32 rows of 100 gray pixels of 8 bits at 1 dpi, opened with
the default preferred strip height of 16 rows (two strips of 16 rows) and
the default resolution `600dpi`; used in examples. -/
def pdf_state.gray_100x32 : pdf_state :=
  { info :=
      { read_ppd_attributes PPD.plain pdf_info.init with
        width := 100, height := 32, line_bytes := 100, bpp := 8, bpc := 8,
        pclm_num_strips := 2, pclm_strip_height := [16, 16],
        pclm_strip_data := [some (List.replicate 1600 0), some (List.replicate 1600 0)] }
    pdf := [{ MediaBox := (0, 0, 7200, 2304), XObject := [], Contents := none }]
    page := some 0
    page_data := none
    page_width := 7200
    page_height := 2304 }

/-- A page description with 49 one-bit channels per pixel (`bpp` 49, `bpc`
1) and rows of 49 bytes (8 pixels); used in examples. -/
def pdf_info.wide_pixel : pdf_info :=
  { pdf_info.init with width := 8, height := 1, line_bytes := 49, bpp := 49, bpc := 1 }

/-! ## Byte order correction in `convert_raster` (lines 732-754) -/

/-- Lines 732-745 of `convert_raster`: where `ARCH_IS_BIG_ENDIAN` is zero
and `info->bpc == 16`, the loop of lines 738-743 swaps the byte pairs of
the row just read; otherwise the row stays as it was read. -/
def byte_order (host : Host) (info : pdf_info) (PixelBuffer : List Nat) : Option (List Nat) :=
  if !host.big_endian && info.bpc = 16 then swap_pairs PixelBuffer else some PixelBuffer

/-- Lines 747-754 of `convert_raster`: the rest of the loop body after the
byte order correction has left the row `swapped` (`none` when the
correction ran past the buffer): the bit function, the colour conversion,
`pdf_set_line`, and the loop test, which re-enters `convert_raster_loop`. -/
def convert_raster_tail (host : Host) (g : Globals) (width height bpl : Nat)
    (fuel cur_line : Nat) (rest : List (List Nat)) (info : pdf_info) (calls : List Nat)
    (reads : Nat) (swapped : Option (List Nat)) : ConvertResult :=
  match swapped with
  | none => ⟨none, calls, reads, rest⟩
  | some PixelBuffer =>
    -- perform bit operations if necessary
    match g.bit_function with
    | none => ⟨none, calls, reads, rest⟩
    | some bit_function =>
      match bit_function.call PixelBuffer bpl with
      | none => ⟨none, calls, reads, rest⟩
      | some PixelBuffer =>
        match g.conversion_function with
        | none => ⟨none, calls, reads, rest⟩
        | some conversion_function =>
          -- write lines and color convert when necessary
          let line := conversion_function.call host.img PixelBuffer
            (Buffer_alloc info.line_bytes) width
          let calls := calls ++ [cur_line]
          match pdf_set_line info cur_line line with
          | none => ⟨none, calls, reads, rest⟩
          | some info =>
            let cur_line := (cur_line + 1) % UINT_MOD
            if cur_line < height then
              match fuel with
              | 0 => ⟨none, calls, reads, rest⟩
              | fuel + 1 =>
                convert_raster_loop host g width height bpl fuel cur_line PixelBuffer rest
                  info calls reads
            else ⟨some info, calls, reads, rest⟩

/-! # Theorems -/

/-! ## Strip planner: properties -/

theorem strip_height_loop_length (n P H : Nat) : (strip_height_loop n P H).length = n := by
  induction n generalizing H with
  | zero => rfl
  | succ n ih => simp [strip_height_loop, ih]

theorem strip_height_loop_eq (n P H : Nat) (hH : H < 2 ^ 32) :
    strip_height_loop n P H = (List.range n).map fun i => min P (H - i * P) := by
  induction n generalizing H with
  | zero => rfl
  | succ n ih =>
    rw [strip_height_loop, List.range_succ_eq_map, List.map_cons, List.map_map]
    have hwrap : ∀ h, h ≤ H → (H + UINT_MOD - h) % UINT_MOD = H - h := by
      intro h hh
      have : H + UINT_MOD - h = (H - h) + UINT_MOD := by omega
      rw [this, Nat.add_mod_right, Nat.mod_eq_of_lt]
      unfold UINT_MOD; omega
    by_cases hlt : P < H
    · simp only [hlt, if_true]
      rw [hwrap P (le_of_lt hlt), ih (H - P) (by omega)]
      congr 1
      · simp; omega
      · apply List.map_congr_left
        intro i _
        simp only [Function.comp, Nat.succ_eq_add_one, Nat.add_mul, Nat.one_mul]
        congr 1; omega
    · simp only [hlt, if_false]
      rw [hwrap H le_rfl, ih (H - H) (by omega)]
      congr 1
      · simp; omega
      · apply List.map_congr_left
        intro i _
        simp only [Function.comp, Nat.succ_eq_add_one, Nat.add_mul, Nat.one_mul]
        have : H - (i * P + P) = 0 := by omega
        simp [this]

theorem sum_take_min (n i P H : Nat) :
    (((List.range n).map fun k => min P (H - k * P)).take i).sum = min (min i n * P) H := by
  rw [← List.map_take, List.take_range]
  generalize min i n = m
  induction m with
  | zero => simp
  | succ m ih =>
    rw [List.range_succ, List.map_append, List.sum_append, ih]
    simp only [List.map_cons, List.map_nil, List.sum_cons, List.sum_nil, Nat.add_zero, Nat.add_mul,
      Nat.one_mul]
    omega

theorem strip_count_facts (H P : Nat) (hP : 0 < P) :
    let N := H / P + (if H % P ≠ 0 then 1 else 0)
    H ≤ N * P ∧ (∀ i, i < N → i * P < H) ∧ N ≤ H ∧
      (0 < N → H - (N - 1) * P = if H % P = 0 then P else H % P) := by
  intro N
  have hdm : P * (H / P) + H % P = H := Nat.div_add_mod H P
  have hm : H % P < P := Nat.mod_lt H hP
  have hc : P * (H / P) = H / P * P := Nat.mul_comm _ _
  by_cases h0 : H % P = 0
  · have hN : N = H / P := by simp [N, h0]
    rw [hN]
    refine ⟨by omega, ?_, Nat.div_le_self H P, ?_⟩
    · intro i hi
      have : (i + 1) * P ≤ H / P * P := Nat.mul_le_mul_right P hi
      rw [Nat.add_mul] at this
      omega
    · intro hq
      simp only [h0, if_true]
      have : (H / P - 1 + 1) * P = H / P * P := by rw [Nat.sub_add_cancel hq]
      rw [Nat.add_mul] at this
      omega
  · have hN : N = H / P + 1 := by simp [N, h0]
    rw [hN]
    refine ⟨by rw [Nat.add_mul]; omega, ?_, ?_, ?_⟩
    · intro i hi
      have : i * P ≤ H / P * P := Nat.mul_le_mul_right P (by omega)
      omega
    · rcases Nat.eq_zero_or_pos (H / P) with hq | hq
      · omega
      · have : 2 * (H / P) ≤ P * (H / P) := Nat.mul_le_mul_right _ (by omega)
        omega
    · intro _
      simp only [h0, if_false, Nat.add_sub_cancel]
      omega

theorem strip_count_eq (H P : Nat) (hP : 0 < P) (hH : H < 2 ^ 32) :
    strip_count H P = some (H / P + (if H % P ≠ 0 then 1 else 0)) := by
  have h3 : H / P + (if H % P ≠ 0 then 1 else 0) ≤ H := (strip_count_facts H P hP).2.2.1
  unfold strip_count
  rw [if_neg (by omega), Nat.mod_eq_of_lt]
  unfold UINT_MOD
  omega

theorem strip_count_ceil (H P : Nat) (hP : 0 < P) :
    H / P + (if H % P ≠ 0 then 1 else 0) = ⌈(H : ℚ) / P⌉₊ := by
  have h1 : H ≤ (H / P + (if H % P ≠ 0 then 1 else 0)) * P := (strip_count_facts H P hP).1
  have h2 : ∀ i, i < H / P + (if H % P ≠ 0 then 1 else 0) → i * P < H :=
    (strip_count_facts H P hP).2.1
  generalize H / P + (if H % P ≠ 0 then 1 else 0) = N at h1 h2
  have hPq : (0 : ℚ) < P := by exact_mod_cast hP
  symm
  rcases Nat.eq_zero_or_pos N with hN | hN
  · subst hN
    have : H = 0 := by omega
    subst this
    simp
  · rw [Nat.ceil_eq_iff (by omega)]
    constructor
    · rw [lt_div_iff₀ hPq]
      have := h2 (N - 1) (by omega)
      exact_mod_cast this
    · rw [div_le_iff₀ hPq]
      exact_mod_cast h1

/-! ## Frame lemmas for the colour functions -/

theorem modify_pdf_color_eq_some {g : Globals} {info : pdf_info} {bpp bpc : Int}
    {fn : convertFunction} {r : Globals × pdf_info}
    (h : modify_pdf_color g info bpp bpc fn = some r) :
    ∃ lb, r = ({ g with conversion_function := some fn },
               { info with line_bytes := lb, bpp := toUnsigned bpp, bpc := toUnsigned bpc }) := by
  unfold modify_pdf_color at h
  simp only at h
  split at h
  · exact absurd h (by simp)
  · split at h
    · exact absurd h (by simp)
    · split at h
      · exact absurd h (by simp)
      · split at h
        · exact absurd h (by simp)
        · rename_i lb _
          exact ⟨lb, (Option.some.inj h).symm⟩

theorem modify_pdf_color_frame {g : Globals} {info : pdf_info} {bpp bpc : Int}
    {fn : convertFunction} {r : Globals × pdf_info}
    (h : modify_pdf_color g info bpp bpc fn = some r) :
    same_frame r.2 info ∧ r.1.colorProfile = g.colorProfile := by
  obtain ⟨lb, rfl⟩ := modify_pdf_color_eq_some h
  simp [same_frame]

theorem convertPdf_call_frame {fn : pdfConvertFunction} {g : Globals} {info : pdf_info}
    {r : Globals × pdf_info} (h : fn.call g info = some r) :
    same_frame r.2 info ∧ r.1.colorProfile = g.colorProfile := by
  cases fn
  case NoConversion =>
    simp only [pdfConvertFunction.call, convertPdf_NoConversion, Option.some.injEq] at h
    subst h; simp [same_frame]
  case InvertColors =>
    simp only [pdfConvertFunction.call, convertPdf_InvertColors, Option.some.injEq] at h
    subst h; simp [same_frame]
  all_goals
    simp only [pdfConvertFunction.call, convertPdf_Cmyk8ToWhite8, convertPdf_Rgb8ToWhite8,
      convertPdf_Cmyk8ToRgb8, convertPdf_White8ToRgb8, convertPdf_Rgb8ToCmyk8,
      convertPdf_White8ToCmyk8, Option.map_eq_some'] at h
    obtain ⟨a, ha, rfl⟩ := h
    have h2 := modify_pdf_color_frame ha
    exact h2

theorem select_conversion_frame (g : Globals) (info : pdf_info) (cs : cups_cspace_t) :
    (select_conversion g info cs).info.width = info.width ∧
    (select_conversion g info cs).info.height = info.height ∧
    (select_conversion g info cs).info.line_bytes = info.line_bytes ∧
    (select_conversion g info cs).info.bpp = info.bpp ∧
    (select_conversion g info cs).info.bpc = info.bpc ∧
    (select_conversion g info cs).info.pclm_num_strips = info.pclm_num_strips ∧
    (select_conversion g info cs).info.pclm_strip_height_preferred =
      info.pclm_strip_height_preferred ∧
    (select_conversion g info cs).info.pclm_strip_height = info.pclm_strip_height ∧
    (select_conversion g info cs).info.pclm_strip_data = info.pclm_strip_data := by
  unfold select_conversion
  cases g.colorProfile with
  | none => simp
  | some c => cases c <;> simp

/-- Whatever colour policy is chosen, the page record `prepare_pdf_page`
returns carries the strip plan of `register_page`. -/
theorem prepare_pdf_page_plan {g : Globals} {info : pdf_info} {width height bpl bpp bpc : Nat}
    {render_intent : String} {color_space : cups_cspace_t} {r : PrepareResult}
    (h : prepare_pdf_page g info width height bpl bpp bpc render_intent color_space = some r) :
    ∃ p, register_page info width height bpl bpp bpc render_intent color_space = some p ∧
      r.info.width = p.width ∧ r.info.height = p.height ∧
      r.info.pclm_num_strips = p.pclm_num_strips ∧
      r.info.pclm_strip_height_preferred = p.pclm_strip_height_preferred ∧
      r.info.pclm_strip_height = p.pclm_strip_height ∧
      r.info.pclm_strip_data = p.pclm_strip_data := by
  unfold prepare_pdf_page at h
  split at h
  · exact absurd h (by simp)
  · rename_i p hp
    refine ⟨p, hp, ?_⟩
    obtain ⟨s1, s2, -, -, -, s3, s4, s5, s6⟩ := select_conversion_frame g p color_space
    simp only at h
    split_ifs at h
    · simp only [Option.map_eq_some'] at h
      obtain ⟨a, ha, rfl⟩ := h
      obtain ⟨⟨a1, a2, a3, a4, a5, a6, -, -⟩, -⟩ := convertPdf_call_frame ha
      exact ⟨a1.trans s1, a2.trans s2, a3.trans s3, a4.trans s4, a5.trans s5, a6.trans s6⟩
    · simp only [Option.some.injEq] at h
      subst h
      exact ⟨s1, s2, s3, s4, s5, s6⟩

/-! ## The strip plan of a page -/

theorem register_page_eq (info : pdf_info) (width height bpl bpp bpc : Nat)
    (render_intent : String) (color_space : cups_cspace_t)
    (hP : 0 < info.pclm_strip_height_preferred) (hH : height < 2 ^ 32) :
    ∃ p, register_page info width height bpl bpp bpc render_intent color_space = some p ∧
      p.width = width ∧ p.height = height ∧ p.line_bytes = bpl ∧ p.bpp = bpp ∧ p.bpc = bpc ∧
      p.color_space = color_space ∧
      p.pclm_strip_height_preferred = info.pclm_strip_height_preferred ∧
      p.pclm_num_strips = height / info.pclm_strip_height_preferred +
        (if height % info.pclm_strip_height_preferred ≠ 0 then 1 else 0) ∧
      p.pclm_strip_height = (List.range p.pclm_num_strips).map
        (fun i => min info.pclm_strip_height_preferred
          (height - i * info.pclm_strip_height_preferred)) ∧
      p.pclm_strip_data = vector_resize info.pclm_strip_data p.pclm_num_strips none := by
  unfold register_page
  rw [strip_count_eq height _ hP hH]
  exact ⟨_, rfl, rfl, rfl, rfl, rfl, rfl, rfl, rfl, rfl, strip_height_loop_eq _ _ _ hH, rfl⟩

/-- C1: for every page height `H` and preferred strip height `P > 0`,
`prepare_pdf_page` sets the strip count to `ceil (H / P)`, the strip
heights sum to `H`, every strip but the last has height `P`, the last has
height `H mod P` (or `P` when `P` divides `H`), and every row of `[0, H)`
lies in exactly one strip, the strips being stacked top to bottom.  When no
colour profile is active the function always returns. -/
theorem prepare_pdf_page_strip_plan (g : Globals) (info : pdf_info)
    (width height bpl bpp bpc : Nat) (render_intent : String) (color_space : cups_cspace_t)
    (hP : 0 < info.pclm_strip_height_preferred) (hH : height < 2 ^ 32) :
    (g.colorProfile = none →
      ∃ r, prepare_pdf_page g info width height bpl bpp bpc render_intent color_space
        = some r) ∧
    ∀ r, prepare_pdf_page g info width height bpl bpp bpc render_intent color_space = some r →
      r.info.height = height ∧
      r.info.pclm_num_strips = ⌈(height : ℚ) / info.pclm_strip_height_preferred⌉₊ ∧
      r.info.pclm_strip_height.length = r.info.pclm_num_strips ∧
      r.info.pclm_strip_height.sum = height ∧
      (∀ i, i + 1 < r.info.pclm_num_strips →
        r.info.pclm_strip_height[i]? = some info.pclm_strip_height_preferred) ∧
      (0 < r.info.pclm_num_strips →
        r.info.pclm_strip_height[r.info.pclm_num_strips - 1]? =
          some (if height % info.pclm_strip_height_preferred = 0
                then info.pclm_strip_height_preferred
                else height % info.pclm_strip_height_preferred)) ∧
      (∀ row, row < height →
        ∃! i, i < r.info.pclm_num_strips ∧
          strip_start r.info.pclm_strip_height i ≤ row ∧
          row < strip_start r.info.pclm_strip_height (i + 1)) := by
  obtain ⟨p, hp, -, p2, -, -, -, -, -, p3, p4, -⟩ :=
    register_page_eq info width height bpl bpp bpc render_intent color_space hP hH
  constructor
  · intro hg
    unfold prepare_pdf_page
    rw [hp]
    simp only [select_conversion, hg]
    split_ifs <;> simp [pdfConvertFunction.call, convertPdf_InvertColors, convertPdf_NoConversion]
  · intro r hr
    obtain ⟨q, hq, -, q2, q3, -, q5, -⟩ := prepare_pdf_page_plan hr
    rw [hp] at hq
    obtain rfl := Option.some.inj hq
    generalize info.pclm_strip_height_preferred = P at *
    obtain ⟨f1, f2, -, f4⟩ := strip_count_facts height P hP
    rw [← p3] at f1 f2 f4
    have hceil := strip_count_ceil height P hP
    rw [← p3] at hceil
    rw [q2, q3, q5, p2, p4, ← hceil]
    generalize p.pclm_num_strips = N at *
    have hstart : ∀ i, i ≤ N →
        strip_start ((List.range N).map fun i => min P (height - i * P)) i = min (i * P) height := by
      intro i hi
      unfold strip_start
      rw [sum_take_min, Nat.min_eq_left hi]
    refine ⟨rfl, rfl, by simp, ?_, ?_, ?_, ?_⟩
    · have := hstart N le_rfl
      unfold strip_start at this
      rw [List.take_of_length_le (by simp)] at this
      rw [this]
      omega
    · intro i hi
      have := f2 (i + 1) hi
      rw [Nat.add_mul] at this
      rw [List.getElem?_map, List.getElem?_range (by omega)]
      simp only [Option.map_some', Option.some.injEq]
      omega
    · intro hN
      rw [List.getElem?_map, List.getElem?_range (by omega)]
      simp only [Option.map_some', Option.some.injEq]
      rw [f4 hN]
      have hmod := Nat.mod_lt height hP
      split_ifs <;> omega
    · intro row hrow
      have hi : row / P < N := by
        rw [Nat.div_lt_iff_lt_mul hP]; omega
      refine ⟨row / P, ⟨hi, ?_, ?_⟩, ?_⟩
      · rw [hstart _ (le_of_lt hi)]
        have := Nat.div_mul_le_self row P
        omega
      · rw [hstart _ hi]
        have h1 := Nat.div_add_mod row P
        have h2 := Nat.mod_lt row hP
        have h3 : (row / P + 1) * P = P * (row / P) + P := by ring
        simp only [Nat.succ_eq_add_one]
        omega
      · rintro j ⟨hj, h1, h2⟩
        rw [hstart _ (le_of_lt hj)] at h1
        rw [hstart _ hj] at h2
        have := f2 j hj
        symm
        apply Nat.div_eq_of_lt_le
        · omega
        · simp only [Nat.succ_eq_add_one] at h2 ⊢
          omega

/-- Witness for `prepare_pdf_page_strip_plan`: a 20-row page with the
default preferred strip height of 16 rows. -/
theorem prepare_pdf_page_strip_plan_witness :
    (0 < pdf_info.init.pclm_strip_height_preferred ∧ 20 < 2 ^ 32) ∧
    ∃ r, prepare_pdf_page Globals.init pdf_info.init 100 20 100 8 8 ""
        cups_cspace_t.CUPS_CSPACE_K = some r ∧
      r.info.pclm_num_strips = ⌈((20 : Nat) : ℚ) / pdf_info.init.pclm_strip_height_preferred⌉₊ ∧
      r.info.pclm_strip_height.sum = 20 := by
  have h := prepare_pdf_page_strip_plan Globals.init pdf_info.init 100 20 100 8 8 ""
    cups_cspace_t.CUPS_CSPACE_K (by decide) (by decide)
  obtain ⟨r, hr⟩ := h.1 rfl
  exact ⟨⟨by decide, by decide⟩, r, hr, (h.2 r hr).2.1, (h.2 r hr).2.2.2.1⟩

/-! ## Strip encoder: choice of the compression method -/

theorem for_each_index_some {α : Type} (body : Nat → Option α) (n : Nat) (l : List α)
    (h : for_each_index body n = some l) :
    l.length = n ∧ ∀ i, i < n → body i = l[i]? := by
  induction n generalizing l with
  | zero =>
    simp only [for_each_index, Option.some.injEq] at h
    subst h
    exact ⟨rfl, fun i hi => absurd hi (Nat.not_lt_zero i)⟩
  | succ n ih =>
    rw [for_each_index] at h
    split at h
    · exact absurd h (by simp)
    · rename_i acc hacc
      split at h
      · exact absurd h (by simp)
      · rename_i x hx
        obtain ⟨h1, h2⟩ := ih acc hacc
        simp only [Option.some.injEq] at h
        subst h
        refine ⟨by simp [h1], ?_⟩
        intro i hi
        rcases Nat.lt_succ_iff_lt_or_eq.mp hi with hlt | heq
        · rw [List.getElem?_append_left (by omega)]
          exact h2 i hlt
        · subst heq
          rw [hx, List.getElem?_append_right (by omega)]
          simp [h1]

theorem for_each_index_defined {α : Type} (body : Nat → Option α) (n : Nat)
    (h : ∀ i, i < n → ∃ x, body i = some x) : ∃ l, for_each_index body n = some l := by
  induction n with
  | zero => exact ⟨[], rfl⟩
  | succ n ih =>
    obtain ⟨acc, hacc⟩ := ih (fun i hi => h i (Nat.lt_succ_of_lt hi))
    obtain ⟨x, hx⟩ := h n (Nat.lt_succ_self n)
    exact ⟨acc ++ [x], by rw [for_each_index, hacc, hx]⟩

theorem foldl_greater (l : List CompressionMethod) (c : CompressionMethod) :
    let m := l.foldl (fun compression it =>
      if compression.toNat > it.toNat then compression else it) c
    (m = c ∨ m ∈ l) ∧ c.toNat ≤ m.toNat ∧ ∀ x ∈ l, x.toNat ≤ m.toNat := by
  induction l generalizing c with
  | nil => simp
  | cons a t ih =>
    simp only [List.foldl_cons]
    by_cases hgt : c.toNat > a.toNat
    · simp only [hgt, if_true]
      obtain ⟨h1, h2, h3⟩ := ih c
      refine ⟨?_, h2, ?_⟩
      · rcases h1 with h | h
        · exact Or.inl h
        · exact Or.inr (List.mem_cons_of_mem _ h)
      · intro x hx
        rcases List.mem_cons.mp hx with rfl | hx
        · omega
        · exact h3 x hx
    · simp only [hgt, if_false]
      obtain ⟨h1, h2, h3⟩ := ih a
      refine ⟨?_, by omega, ?_⟩
      · rcases h1 with h | h
        · exact Or.inr (by rw [h]; exact List.mem_cons_self _ _)
        · exact Or.inr (List.mem_cons_of_mem _ h)
      · intro x hx
        rcases List.mem_cons.mp hx with rfl | hx
        · exact h2
        · exact h3 x hx

theorem select_compression_greatest (l : List CompressionMethod) (hne : l ≠ []) :
    ∃ m, select_compression l = some m ∧ m ∈ l ∧ ∀ x ∈ l, x.toNat ≤ m.toNat := by
  cases l with
  | nil => exact absurd rfl hne
  | cons a t =>
    obtain ⟨h1, -, h3⟩ := foldl_greater (a :: t) a
    refine ⟨_, rfl, ?_, h3⟩
    rcases h1 with h | h
    · rw [h]; exact List.mem_cons_self _ _
    · exact h

theorem encode_strip_filter {compression : CompressionMethod} {dict : List (String × PdfValue)}
    {components : Nat} {color_space : J_COLOR_SPACE} {width : Nat}
    {strip_data : List (Option (List Nat))} {strip_height : List Nat}
    {ret_i s : QPDFObjectHandle} {i : Nat}
    (h : encode_strip compression dict components color_space width strip_data strip_height
      ret_i i = some s) :
    s.isInitialized = true ∧ s.filter = .name (filter_name compression) := by
  unfold encode_strip at h
  split at h
  · exact absurd h (by simp)
  · simp only at h
    split at h
    · exact absurd h (by simp)
    · rename_i r hr
      cases ret_i with
      | uninitialized => simp [QPDFObjectHandle.replaceDict] at hr
      | stream d dt f pm =>
        simp only [QPDFObjectHandle.replaceDict, Option.some.injEq] at hr
        subst hr
        split at h
        · exact absurd h (by simp)
        · exact absurd h (by simp)
        · cases compression <;>
            simp [QPDFObjectHandle.replaceStreamData] at h <;>
            subst h <;>
            simp [QPDFObjectHandle.isInitialized, QPDFObjectHandle.filter, filter_name]

/-- C2 (counterexample): with run-length, deflate and discrete-cosine all
offered, `makePclmStrips` does not select discrete-cosine: the method kept
by lines 461-464 is `RLE_DECODE`, and both strips of the page are written
through the run-length pipeline with filter `/RunLengthDecode`. -/
theorem makePclmStrips_all_offered_not_dct :
    select_compression [.DCT_DECODE, .FLATE_DECODE, .RLE_DECODE] = some .RLE_DECODE ∧
    (makePclmStrips 2 [some [1, 2], some [3, 4]] [.DCT_DECODE, .FLATE_DECODE, .RLE_DECODE]
        2 [1, 1] .CUPS_CSPACE_K 8).map (List.map QPDFObjectHandle.filter)
      = some [.name "/RunLengthDecode", .name "/RunLengthDecode"] ∧
    ¬ ((makePclmStrips 2 [some [1, 2], some [3, 4]] [.DCT_DECODE, .FLATE_DECODE, .RLE_DECODE]
        2 [1, 1] .CUPS_CSPACE_K 8).map (List.map QPDFObjectHandle.filter)
      = some [.name "/DCTDecode", .name "/DCTDecode"]) := by
  decide

/-- C2 (amended): for every non-empty list of offered methods and every
well-formed strip list, `makePclmStrips` returns one handle per strip, and
one single method `m` is used for all of them: every initialized handle
carries the filter of `m` (and all handles are initialized when the colour
space is gray or RGB).  `m` is an offered method of greatest enumeration
value, the order being `DCT_DECODE < FLATE_DECODE < RLE_DECODE`; so
run-length is selected whenever it is offered, in whatever position. -/
theorem makePclmStrips_single_method (num_strips : Nat) (strip_data : List (Option (List Nat)))
    (compression_methods : List CompressionMethod) (width : Nat) (strip_height : List Nat)
    (cs : cups_cspace_t) (bpc : Nat)
    (hne : compression_methods ≠ [])
    (hh : num_strips ≤ strip_height.length)
    (hd : ∀ i, i < num_strips → ∃ buf, strip_data[i]? = some (some buf)) :
    ∃ m strips,
      m ∈ compression_methods ∧ (∀ x ∈ compression_methods, x.toNat ≤ m.toNat) ∧
      (CompressionMethod.RLE_DECODE ∈ compression_methods → m = .RLE_DECODE) ∧
      makePclmStrips num_strips strip_data compression_methods width strip_height cs bpc
        = some strips ∧
      strips.length = num_strips ∧
      (∀ s ∈ strips, s.isInitialized = true → s.filter = .name (filter_name m)) ∧
      (cs ∈ [cups_cspace_t.CUPS_CSPACE_K, .CUPS_CSPACE_SW, .CUPS_CSPACE_RGB,
             .CUPS_CSPACE_SRGB, .CUPS_CSPACE_ADOBERGB] →
        ∀ s ∈ strips, s.isInitialized = true) := by
  obtain ⟨m, hm, hmem, hmax⟩ := select_compression_greatest compression_methods hne
  have hrle : CompressionMethod.RLE_DECODE ∈ compression_methods → m = .RLE_DECODE := by
    intro h
    have := hmax _ h
    cases m <;> simp [CompressionMethod.toNat] at this ⊢
  have henc : ∀ (dict : List (String × PdfValue)) (jcs : J_COLOR_SPACE) (comp : Nat),
      ∃ strips, for_each_index
        (fun i => encode_strip m dict comp jcs width strip_data strip_height
          ((List.replicate num_strips QPDFObjectHandle.newStream).getD i .uninitialized) i)
        num_strips = some strips ∧ strips.length = num_strips ∧
        ∀ s ∈ strips, s.isInitialized = true ∧ s.filter = .name (filter_name m) := by
    intro dict jcs comp
    have hdef : ∀ i, i < num_strips → ∃ x, encode_strip m dict comp jcs width strip_data
        strip_height ((List.replicate num_strips QPDFObjectHandle.newStream).getD i
          .uninitialized) i = some x := by
      intro i hi
      obtain ⟨buf, hbuf⟩ := hd i hi
      have hlt : i < strip_height.length := by omega
      have hret : (List.replicate num_strips QPDFObjectHandle.newStream).getD i .uninitialized
          = QPDFObjectHandle.newStream := by
        simp [List.getD, List.getElem?_replicate, hi]
      rw [hret]
      unfold encode_strip
      rw [List.getElem?_eq_getElem hlt, hbuf]
      cases m <;> simp [QPDFObjectHandle.newStream, QPDFObjectHandle.replaceDict,
        QPDFObjectHandle.replaceStreamData]
    obtain ⟨strips, hs⟩ := for_each_index_defined _ _ hdef
    obtain ⟨hlen, hidx⟩ := for_each_index_some _ _ _ hs
    refine ⟨strips, hs, hlen, ?_⟩
    intro s hsm
    obtain ⟨i, hi, hget⟩ := List.getElem_of_mem hsm
    have h1 := hidx i (by omega)
    rw [List.getElem?_eq_getElem hi, hget] at h1
    exact encode_strip_filter h1
  have hun : ∀ s ∈ List.replicate num_strips QPDFObjectHandle.uninitialized,
      s.isInitialized = true → s.filter = .name (filter_name m) := by
    intro s hs hinit
    rw [(List.mem_replicate.mp hs).2] at hinit
    simp [QPDFObjectHandle.isInitialized] at hinit
  unfold makePclmStrips
  simp only [hm]
  cases cs
  case CUPS_CSPACE_K =>
    obtain ⟨strips, h1, h2, h3⟩ := henc _ .JCS_GRAYSCALE 1
    exact ⟨m, strips, hmem, hmax, hrle, h1, h2, fun s hs _ => (h3 s hs).2,
      fun _ s hs => (h3 s hs).1⟩
  case CUPS_CSPACE_SW =>
    obtain ⟨strips, h1, h2, h3⟩ := henc _ .JCS_GRAYSCALE 1
    exact ⟨m, strips, hmem, hmax, hrle, h1, h2, fun s hs _ => (h3 s hs).2,
      fun _ s hs => (h3 s hs).1⟩
  case CUPS_CSPACE_RGB =>
    obtain ⟨strips, h1, h2, h3⟩ := henc _ .JCS_RGB 3
    exact ⟨m, strips, hmem, hmax, hrle, h1, h2, fun s hs _ => (h3 s hs).2,
      fun _ s hs => (h3 s hs).1⟩
  case CUPS_CSPACE_SRGB =>
    obtain ⟨strips, h1, h2, h3⟩ := henc _ .JCS_RGB 3
    exact ⟨m, strips, hmem, hmax, hrle, h1, h2, fun s hs _ => (h3 s hs).2,
      fun _ s hs => (h3 s hs).1⟩
  case CUPS_CSPACE_ADOBERGB =>
    obtain ⟨strips, h1, h2, h3⟩ := henc _ .JCS_RGB 3
    exact ⟨m, strips, hmem, hmax, hrle, h1, h2, fun s hs _ => (h3 s hs).2,
      fun _ s hs => (h3 s hs).1⟩
  all_goals
    exact ⟨m, _, hmem, hmax, hrle, rfl, List.length_replicate _ _, hun,
      fun hc => absurd hc (by simp)⟩

/-- Witness for `makePclmStrips_single_method`: two gray strips with all
three methods offered, discrete-cosine first. -/
theorem makePclmStrips_single_method_witness :
    ∃ m strips,
      m ∈ [CompressionMethod.DCT_DECODE, .FLATE_DECODE, .RLE_DECODE] ∧
      (∀ x ∈ [CompressionMethod.DCT_DECODE, .FLATE_DECODE, .RLE_DECODE],
        x.toNat ≤ m.toNat) ∧
      (CompressionMethod.RLE_DECODE ∈ [CompressionMethod.DCT_DECODE, .FLATE_DECODE, .RLE_DECODE]
        → m = .RLE_DECODE) ∧
      makePclmStrips 2 [some [1, 2], some [3, 4]] [.DCT_DECODE, .FLATE_DECODE, .RLE_DECODE]
        2 [1, 1] .CUPS_CSPACE_K 8 = some strips ∧
      strips.length = 2 ∧
      (∀ s ∈ strips, s.isInitialized = true → s.filter = .name (filter_name m)) ∧
      (cups_cspace_t.CUPS_CSPACE_K ∈ [cups_cspace_t.CUPS_CSPACE_K, .CUPS_CSPACE_SW,
          .CUPS_CSPACE_RGB, .CUPS_CSPACE_SRGB, .CUPS_CSPACE_ADOBERGB] →
        ∀ s ∈ strips, s.isInitialized = true) :=
  makePclmStrips_single_method 2 [some [1, 2], some [3, 4]]
    [.DCT_DECODE, .FLATE_DECODE, .RLE_DECODE] 2 [1, 1] .CUPS_CSPACE_K 8
    (by decide) (by decide)
    (by
      intro i hi
      rcases i with _ | _ | i
      · exact ⟨[1, 2], rfl⟩
      · exact ⟨[3, 4], rfl⟩
      · omega)

/-! ## Row ingest at and beyond the page height -/

/-- C3 (failing input): on a freshly opened 4 x 20 gray page with 16-row
strips, `pdf_set_line` with row index 20, the page height, is not a no-op:
the guard `line_n > height` lets it pass, strip 1 (4 rows, 16 bytes) is
indexed and the copy starts at byte offset 16, past the end of its buffer.
Row index 21 is the first one the guard rejects, leaving the page
unchanged.  On a page of height 0, row index 0 indexes a strip that does
not exist. -/
theorem pdf_set_line_at_height_not_ignored :
    (opened_page 4 20 4 8 8 .CUPS_CSPACE_K).isSome = true ∧
    (opened_page 4 20 4 8 8 .CUPS_CSPACE_K).bind (fun info => pdf_set_line info 20 [1, 2, 3, 4])
      = none ∧
    (opened_page 4 20 4 8 8 .CUPS_CSPACE_K).bind (fun info => pdf_set_line info 21 [1, 2, 3, 4])
      = opened_page 4 20 4 8 8 .CUPS_CSPACE_K ∧
    (opened_page 4 0 4 8 8 .CUPS_CSPACE_K).isSome = true ∧
    (opened_page 4 0 4 8 8 .CUPS_CSPACE_K).bind (fun info => pdf_set_line info 0 [1, 2, 3, 4])
      = none := by
  decide

/-- Every row index strictly beyond the page height is ignored by
`pdf_set_line`: the page record, strip buffers included, is returned
unchanged. -/
theorem pdf_set_line_beyond_height (info : pdf_info) (line_n : Nat) (line : List Nat)
    (h : info.height < line_n) : pdf_set_line info line_n line = some info := by
  unfold pdf_set_line
  rw [if_pos h]

/-! ## Resource names -/

theorem decimal_digits_lt_ten (n : Nat) (h : n < 10) : decimal_digits n = [Nat.digitChar n] := by
  rw [decimal_digits, if_pos h]

theorem decimal_digits_ge_ten (n : Nat) (h : ¬ n < 10) :
    decimal_digits n = decimal_digits (n / 10) ++ [Nat.digitChar (n % 10)] := by
  rw [decimal_digits, if_neg h]

theorem decimal_digits_length_pos (n : Nat) : 0 < (decimal_digits n).length := by
  by_cases h : n < 10
  · rw [decimal_digits_lt_ten n h]; simp
  · rw [decimal_digits_ge_ten n h]; simp

theorem lt_pow_decimal_digits_length (n : Nat) : n < 10 ^ (decimal_digits n).length := by
  induction n using Nat.strong_induction_on with
  | _ n ih =>
    by_cases h : n < 10
    · rw [decimal_digits_lt_ten n h]; simpa using h
    · rw [decimal_digits_ge_ten n h, List.length_append, List.length_singleton, Nat.pow_succ]
      have := ih (n / 10) (by omega)
      omega

theorem num_digits_loop_natCast (n : Nat) (hn : 0 < n) (d : Int) :
    num_digits_loop (n : Int) d = d + (decimal_digits n).length := by
  induction n using Nat.strong_induction_on generalizing d with
  | _ n ih =>
    have hne : (n : Int) ≠ 0 := by exact_mod_cast (Nat.pos_iff_ne_zero.mp hn)
    have hdiv : (n : Int).tdiv 10 = ((n / 10 : Nat) : Int) := by
      rw [Int.tdiv_eq_ediv (by exact_mod_cast Nat.zero_le n) (by decide)]; norm_cast
    rw [num_digits_loop, dif_neg hne, hdiv]
    by_cases h : n < 10
    · have h0 : n / 10 = 0 := by omega
      rw [h0, decimal_digits_lt_ten n h, num_digits_loop]
      simp
    · rw [ih (n / 10) (by omega) (by omega), decimal_digits_ge_ten n h]
      simp only [List.length_append, List.length_singleton]
      push_cast
      ring

theorem num_digits_natCast (n : Nat) : num_digits (n : Int) = (decimal_digits n).length := by
  unfold num_digits
  rcases Nat.eq_zero_or_pos n with h | h
  · subst h
    rw [decimal_digits_lt_ten 0 (by decide)]
    simp
  · have hne : (n : Int) ≠ 0 := by exact_mod_cast (Nat.pos_iff_ne_zero.mp h)
    rw [if_neg hne, num_digits_loop_natCast n h]
    simp

theorem fixed_width_digits_length (w n : Nat) : (fixed_width_digits w n).length = w := by
  induction w generalizing n with
  | zero => rfl
  | succ w ih => simp [fixed_width_digits, ih]

theorem fixed_width_digits_zero (w : Nat) : fixed_width_digits w 0 = List.replicate w '0' := by
  induction w with
  | zero => rfl
  | succ w ih =>
    rw [fixed_width_digits, ih, List.replicate_succ']
    rfl

theorem pad_decimal_digits (w n : Nat) (hn : n < 10 ^ (w + 1)) :
    List.replicate (w + 1 - (decimal_digits n).length) '0' ++ decimal_digits n
      = fixed_width_digits (w + 1) n := by
  induction w generalizing n with
  | zero =>
    have h : n < 10 := by simpa using hn
    rw [decimal_digits_lt_ten n h]
    simp [fixed_width_digits, Nat.mod_eq_of_lt h]
  | succ w ih =>
    rw [fixed_width_digits]
    by_cases h : n < 10
    · have h0 : n / 10 = 0 := by omega
      rw [decimal_digits_lt_ten n h, h0, fixed_width_digits_zero, Nat.mod_eq_of_lt h]
      simp
    · have hlt : n / 10 < 10 ^ (w + 1) := by
        rw [Nat.pow_succ] at hn
        omega
      rw [decimal_digits_ge_ten n h, ← ih (n / 10) hlt]
      simp only [List.length_append, List.length_singleton, List.append_assoc]
      congr 2
      omega

theorem digitChar_lt_digitChar (a b : Nat) (hab : a < b) (hb : b < 10) :
    Nat.digitChar a < Nat.digitChar b := by
  interval_cases b <;> interval_cases a <;> decide

theorem lex_append_of_eq_length (a b x y : List Char)
    (h : List.Lex (fun c d : Char => c < d) a b) (hlen : a.length = b.length) :
    List.Lex (fun c d : Char => c < d) (a ++ x) (b ++ y) := by
  induction h with
  | nil => simp at hlen
  | cons _ ih => exact List.Lex.cons (ih (by simpa using hlen))
  | rel hab => exact List.Lex.rel hab

theorem fixed_width_digits_lt (w a b : Nat) (hab : a < b) (hb : b < 10 ^ w) :
    List.Lex (fun c d : Char => c < d) (fixed_width_digits w a) (fixed_width_digits w b) := by
  induction w generalizing a b with
  | zero => simp at hb; omega
  | succ w ih =>
    rw [fixed_width_digits, fixed_width_digits]
    rcases Nat.lt_or_ge (a / 10) (b / 10) with hlt | hge
    · apply lex_append_of_eq_length
      · exact ih _ _ hlt (by rw [Nat.pow_succ] at hb; omega)
      · rw [fixed_width_digits_length, fixed_width_digits_length]
    · have heq : a / 10 = b / 10 := by omega
      rw [heq]
      apply List.Lex.append_left
      have hmod : a % 10 < b % 10 := by omega
      exact List.Lex.rel (digitChar_lt_digitChar _ _ hmod (Nat.mod_lt _ (by decide)))

theorem toInt32_of_lt (n : Nat) (h : n < 2 ^ 31) : toInt32 n = (n : Int) := by
  unfold toInt32
  have h1 : n % 2 ^ 32 = n := Nat.mod_eq_of_lt (by omega)
  rw [h1, if_pos h]

theorem int_to_fwstring_natCast (n w : Nat) (hn : n < 10 ^ (w + 1)) :
    int_to_fwstring (n : Int) ((w + 1 : Nat) : Int) = String.mk (fixed_width_digits (w + 1) n) := by
  have hlen := lt_pow_decimal_digits_length n
  unfold int_to_fwstring int_to_string
  rw [num_digits_natCast, if_neg (by omega), Int.natAbs_ofNat]
  have hz : (if ((w + 1 : Nat) : Int) - ((decimal_digits n).length : Int) < 0 then (0 : Int)
      else ((w + 1 : Nat) : Int) - ((decimal_digits n).length : Int)).toNat
      = w + 1 - (decimal_digits n).length := by
    split_ifs <;> omega
  simp only [hz]
  rw [← pad_decimal_digits w n hn]
  rfl

/-- The name of strip `i` is `/Image` followed by the zero-padded decimal
digits of `i`, as long as the strip count fits the type `int`. -/
theorem image_name_eq (N i : Nat) (hN : N ≤ 2 ^ 31) (hi : i < N) :
    ∃ w, (image_name N i).data = "/Image".data ++ fixed_width_digits (w + 1) i ∧
      (decimal_digits (N - 1)).length = w + 1 := by
  obtain ⟨w, hw⟩ : ∃ w, (decimal_digits (N - 1)).length = w + 1 :=
    ⟨(decimal_digits (N - 1)).length - 1, by have := decimal_digits_length_pos (N - 1); omega⟩
  refine ⟨w, ?_, hw⟩
  have h1 : (N + UINT_MOD - 1) % UINT_MOD = N - 1 := by
    unfold UINT_MOD
    have : N + 2 ^ 32 - 1 = (N - 1) + 2 ^ 32 := by omega
    rw [this, Nat.add_mod_right, Nat.mod_eq_of_lt (by omega)]
  have hlt := lt_pow_decimal_digits_length (N - 1)
  rw [hw] at hlt
  unfold image_name
  rw [h1, toInt32_of_lt i (by omega), toInt32_of_lt (N - 1) (by omega), num_digits_natCast, hw,
    int_to_fwstring_natCast i w (by omega)]
  rfl

theorem num_digits_min_int : num_digits (-2147483648) = 10 := by
  unfold num_digits
  rw [if_neg (by decide)]
  iterate 10 rw [num_digits_loop, dif_neg (by decide)]
  rw [num_digits_loop, dif_pos (by decide)]
  rfl

theorem decimal_digits_two_pow_31 :
    decimal_digits 2147483648 = ['2', '1', '4', '7', '4', '8', '3', '6', '4', '8'] := by
  iterate 9 rw [decimal_digits_ge_ten _ (by decide)]
  rw [decimal_digits_lt_ten _ (by decide)]
  rfl

theorem decimal_digits_two_pow_31_sub_one :
    decimal_digits 2147483647 = ['2', '1', '4', '7', '4', '8', '3', '6', '4', '7'] := by
  iterate 9 rw [decimal_digits_ge_ten _ (by decide)]
  rw [decimal_digits_lt_ten _ (by decide)]
  rfl

theorem num_digits_max_int : num_digits 2147483647 = 10 := by
  have := num_digits_natCast 2147483647
  rw [decimal_digits_two_pow_31_sub_one] at this
  exact this

/-- C4 (counterexample): with `2 ^ 31 + 1` strips the names of the
adjacent strips `2 ^ 31 - 1` and `2 ^ 31` are out of order: the index
`2 ^ 31` does not fit the `int` parameter of `int_to_fwstring` and is
printed with a minus sign, which sorts before every digit. -/
theorem image_name_order_fails_beyond_int :
    2 ^ 31 - 1 < 2 ^ 31 ∧ 2 ^ 31 < 2 ^ 31 + 1 ∧ 2 ^ 31 + 1 ≤ UINT_MAX ∧
    image_name (2 ^ 31 + 1) (2 ^ 31 - 1) = "/Image2147483647" ∧
    image_name (2 ^ 31 + 1) (2 ^ 31) = "/Image-2147483648" ∧
    ¬ List.Lex (fun c d : Char => c < d)
        (image_name (2 ^ 31 + 1) (2 ^ 31 - 1)).data (image_name (2 ^ 31 + 1) (2 ^ 31)).data := by
  have hw : toInt32 ((2 ^ 31 + 1 + UINT_MOD - 1) % UINT_MOD) = -2147483648 := by decide
  have h1 : image_name (2 ^ 31 + 1) (2 ^ 31 - 1) = "/Image2147483647" := by
    have hi : toInt32 (2 ^ 31 - 1) = 2147483647 := by decide
    unfold image_name int_to_fwstring int_to_string
    rw [hw, hi, num_digits_min_int, num_digits_max_int]
    simp only [Int.reduceSub, Int.reduceLT, if_false, Int.toNat_zero, List.replicate_zero,
      Int.reduceAbs, Int.natAbs_ofNat]
    rw [decimal_digits_two_pow_31_sub_one]
    decide
  have h2 : image_name (2 ^ 31 + 1) (2 ^ 31) = "/Image-2147483648" := by
    have hi : toInt32 (2 ^ 31) = -2147483648 := by decide
    unfold image_name int_to_fwstring int_to_string
    rw [hw, hi, num_digits_min_int]
    simp only [Int.reduceSub, Int.reduceLT, if_false, if_true, Int.toNat_zero, List.replicate_zero,
      Int.reduceNeg]
    rw [show Int.natAbs (-2147483648) = 2147483648 from rfl, decimal_digits_two_pow_31]
    decide
  refine ⟨by decide, by decide, by decide, h1, h2, ?_⟩
  rw [h1, h2]
  decide

/-- C4 (amended): for every strip count `N` with `1 ≤ N ≤ 2 ^ 31` (in
particular every `N` from 1 to 1000), the names
`"/Image" + int_to_fwstring(i, num_digits(N - 1))` that `finish_page`
generates for `i = 0 .. N - 1` are strictly increasing in lexicographic
order of their characters as `i` increases, hence pairwise distinct. -/
theorem image_name_strictly_increasing (N i j : Nat) (hN : N ≤ 2 ^ 31)
    (hij : i < j) (hj : j < N) :
    List.Lex (fun c d : Char => c < d) (image_name N i).data (image_name N j).data ∧
    image_name N i ≠ image_name N j := by
  obtain ⟨w, hi, hw⟩ := image_name_eq N i hN (by omega)
  obtain ⟨w2, hj2, hw2⟩ := image_name_eq N j hN hj
  have hww : w2 = w := by omega
  rw [hww] at hj2
  have hlt := lt_pow_decimal_digits_length (N - 1)
  rw [hw] at hlt
  have hlex : List.Lex (fun c d : Char => c < d) (image_name N i).data (image_name N j).data := by
    rw [hi, hj2]
    exact List.Lex.append_left _ (fixed_width_digits_lt (w + 1) i j hij (by omega)) _
  refine ⟨hlex, ?_⟩
  intro heq
  rw [heq] at hlex
  exact (List.Lex.isAsymm.aux _ _ _ hlex hlex)

/-- Witness for `image_name_strictly_increasing`: strips 99 and 100 of a
page of 1000 strips. -/
theorem image_name_strictly_increasing_witness :
    (1000 ≤ 2 ^ 31 ∧ 99 < 100 ∧ 100 < 1000) ∧
    List.Lex (fun c d : Char => c < d) (image_name 1000 99).data (image_name 1000 100).data ∧
    image_name 1000 99 ≠ image_name 1000 100 :=
  ⟨⟨by decide, by decide, by decide⟩,
    image_name_strictly_increasing 1000 99 100 (by decide) (by decide) (by decide)⟩

/-! ## Double precision rounding -/

/-- For a positive argument `roundDouble` returns an integer multiple of
the unit `2 ^ (e - 52)`, the multiplier lying between the floor and the
ceiling of the scaled argument. -/
theorem roundDouble_pos_spec (x : ℚ) (hx : 0 < x) :
    ∃ m : Int, roundDouble x = (m : ℚ) * (2 : ℚ) ^ (Int.log 2 x - 52) ∧
      ⌊x / (2 : ℚ) ^ (Int.log 2 x - 52)⌋ ≤ m ∧ m ≤ ⌈x / (2 : ℚ) ^ (Int.log 2 x - 52)⌉ := by
  unfold roundDouble
  rw [if_neg (ne_of_gt hx), abs_of_pos hx]
  simp only [if_neg (not_lt.mpr (le_of_lt hx)), one_mul]
  generalize x / (2 : ℚ) ^ (Int.log 2 x - 52) = s
  have hfl : (⌊s⌋ : ℚ) ≤ s := Int.floor_le s
  have hup : s - ⌊s⌋ ≠ 0 → ⌊s⌋ + 1 ≤ ⌈s⌉ := by
    intro h
    have : (⌊s⌋ : ℚ) < s := lt_of_le_of_ne hfl (fun e => h (by rw [e]; ring))
    have := Int.lt_ceil.mpr this
    omega
  split_ifs with h1 h2 h3
  · exact ⟨_, rfl, le_rfl, Int.floor_le_ceil s⟩
  · exact ⟨_, rfl, by omega, hup (by intro e; rw [e] at h2; norm_num at h2)⟩
  · exact ⟨_, rfl, le_rfl, Int.floor_le_ceil s⟩
  · refine ⟨_, rfl, by omega, hup ?_⟩
    intro e
    rw [e] at h1
    norm_num at h1

theorem roundDouble_zero : roundDouble 0 = 0 := by
  unfold roundDouble
  rw [if_pos rfl]

theorem two_zpow_pos (z : Int) : (0 : ℚ) < (2 : ℚ) ^ z := zpow_pos (by norm_num) z

/-- Values with at most 53 significant bits are not changed by rounding. -/
theorem roundDouble_exact (k : Nat) (j : Int) (hk : k < 2 ^ 53) :
    roundDouble ((k : ℚ) * (2 : ℚ) ^ j) = (k : ℚ) * (2 : ℚ) ^ j := by
  rcases Nat.eq_zero_or_pos k with h0 | hpos
  · subst h0; simp [roundDouble_zero]
  · have hx : (0 : ℚ) < (k : ℚ) * (2 : ℚ) ^ j :=
      mul_pos (by exact_mod_cast hpos) (two_zpow_pos j)
    obtain ⟨m, hm, h1, h2⟩ := roundDouble_pos_spec _ hx
    generalize hx' : (k : ℚ) * (2 : ℚ) ^ j = x at *
    generalize he : Int.log 2 x = e at *
    -- the exponent of `x` is below `53 + j`
    have hlt : x < ((2 : ℕ) : ℚ) ^ (53 + j) := by
      rw [← hx', zpow_add₀ (by norm_num)]
      apply mul_lt_mul_of_pos_right _ (by exact_mod_cast two_zpow_pos j)
      have : ((k : ℕ) : ℚ) < ((2 ^ 53 : ℕ) : ℚ) := by exact_mod_cast hk
      have h53 : ((2 : ℕ) : ℚ) ^ (53 : Int) = ((2 ^ 53 : ℕ) : ℚ) := by norm_num
      rw [h53]
      exact this
    have hel : e < 53 + j := by
      rw [← he]; exact (Int.lt_zpow_iff_log_lt (by norm_num) hx).mp hlt
    -- hence the scaled argument is a natural number
    obtain ⟨d, hd⟩ : ∃ d : Nat, (d : Int) = j - (e - 52) := ⟨(j - (e - 52)).toNat, by omega⟩
    have hs : x / (2 : ℚ) ^ (e - 52) = ((k * 2 ^ d : Nat) : ℚ) := by
      rw [← hx', mul_div_assoc, ← zpow_sub₀ (by norm_num), ← hd]
      push_cast
      rw [zpow_natCast]
    rw [hs] at h1 h2
    simp only [Int.floor_natCast, Int.ceil_natCast] at h1 h2
    have hmk : m = ((k * 2 ^ d : Nat) : Int) := le_antisymm h2 h1
    rw [hm, hmk]
    have : (((k * 2 ^ d : Nat) : Int) : ℚ) = ((k * 2 ^ d : Nat) : ℚ) := by norm_cast
    rw [this, ← hs]
    field_simp

/-- Rounding does not cross an integer below `2 ^ 53` from below. -/
theorem roundDouble_le_natCast (x : ℚ) (M : Nat) (hx : 0 ≤ x) (hM : M < 2 ^ 53)
    (hxM : x ≤ M) : roundDouble x ≤ M := by
  rcases eq_or_lt_of_le hx with h0 | hpos
  · rw [← h0, roundDouble_zero]; exact_mod_cast Nat.zero_le M
  · obtain ⟨m, hm, -, h2⟩ := roundDouble_pos_spec _ hpos
    generalize he : Int.log 2 x = e at *
    have hlt : x < ((2 : ℕ) : ℚ) ^ (53 : Int) := by
      have : ((M : ℕ) : ℚ) < ((2 ^ 53 : ℕ) : ℚ) := by exact_mod_cast hM
      have h53 : ((2 : ℕ) : ℚ) ^ (53 : Int) = ((2 ^ 53 : ℕ) : ℚ) := by norm_num
      rw [h53]
      exact lt_of_le_of_lt hxM this
    have hel : e < 53 := by
      rw [← he]; exact (Int.lt_zpow_iff_log_lt (by norm_num) hpos).mp hlt
    obtain ⟨d, hd⟩ : ∃ d : Nat, (d : Int) = 52 - e := ⟨(52 - e).toNat, by omega⟩
    have hu : (2 : ℚ) ^ (e - 52) = 1 / (2 : ℚ) ^ d := by
      have : e - 52 = -(d : Int) := by omega
      rw [this, zpow_neg, zpow_natCast, one_div]
    have hpow : (0 : ℚ) < (2 : ℚ) ^ d := pow_pos (by norm_num) d
    have hs : x / (2 : ℚ) ^ (e - 52) ≤ ((M * 2 ^ d : Nat) : ℚ) := by
      rw [hu, div_div_eq_mul_div, div_one]
      push_cast
      exact mul_le_mul_of_nonneg_right hxM (le_of_lt hpow)
    have hm2 : m ≤ ((M * 2 ^ d : Nat) : Int) := le_trans h2 (Int.ceil_le.mpr (by exact_mod_cast hs))
    rw [hm, hu]
    have : (m : ℚ) ≤ ((M * 2 ^ d : Nat) : ℚ) := by exact_mod_cast hm2
    rw [mul_one_div, div_le_iff₀ hpow]
    push_cast at this
    exact this

theorem roundDouble_nonneg (x : ℚ) (hx : 0 ≤ x) : 0 ≤ roundDouble x := by
  rcases eq_or_lt_of_le hx with h0 | hpos
  · rw [← h0, roundDouble_zero]
  · obtain ⟨m, hm, h1, -⟩ := roundDouble_pos_spec _ hpos
    rw [hm]
    have hs : 0 ≤ x / (2 : ℚ) ^ (Int.log 2 x - 52) := div_nonneg hx (le_of_lt (two_zpow_pos _))
    have : (0 : Int) ≤ m := le_trans (Int.floor_nonneg.mpr hs) h1
    exact mul_nonneg (by exact_mod_cast this) (le_of_lt (two_zpow_pos _))

/-! ## Colour policy: definedness and the installed policy -/

theorem register_page_defined (info : pdf_info) (width height bpl bpp bpc : Nat)
    (render_intent : String) (color_space : cups_cspace_t)
    (hP : 0 < info.pclm_strip_height_preferred) :
    ∃ p, register_page info width height bpl bpp bpc render_intent color_space = some p ∧
      p.width = width ∧ p.height = height ∧ p.line_bytes = bpl ∧ p.bpp = bpp ∧ p.bpc = bpc ∧
      p.color_space = color_space := by
  unfold register_page strip_count
  rw [if_neg (by omega)]
  exact ⟨_, rfl, rfl, rfl, rfl, rfl, rfl, rfl⟩

/-- When `modify_pdf_color` is called with a positive old bits-per-colour
not above the old bits-per-pixel, and the new channel count `c` times the
old row length fits `unsigned`, it returns, and the new row length is at
most `c` times the old one. -/
theorem modify_pdf_color_defined (g : Globals) (info : pdf_info) (bpp bpc : Int)
    (fn : convertFunction) (c : Nat)
    (hbpc : 0 < info.bpc) (hbpp : info.bpc ≤ info.bpp) (hnew : bpc ≠ 0)
    (hc : Int.tdiv bpp bpc = (c : Int)) (hc53 : c < 2 ^ 53)
    (hfit : c * info.line_bytes < 2 ^ 32) :
    ∃ lb, modify_pdf_color g info bpp bpc fn =
        some ({ g with conversion_function := some fn },
              { info with line_bytes := lb, bpp := toUnsigned bpp, bpc := toUnsigned bpc }) ∧
      lb ≤ c * info.line_bytes := by
  have hold : 1 ≤ info.bpp / info.bpc := (Nat.one_le_div_iff hbpc).mpr hbpp
  have holdq : (1 : ℚ) ≤ ((info.bpp / info.bpc : Nat) : ℚ) := by exact_mod_cast hold
  have hold0 : ((info.bpp / info.bpc : Nat) : ℚ) ≠ 0 := by linarith
  have hcq : (0 : ℚ) ≤ (c : ℚ) := by exact_mod_cast Nat.zero_le c
  have hratio0 : (0 : ℚ) ≤ (c : ℚ) / ((info.bpp / info.bpc : Nat) : ℚ) :=
    div_nonneg hcq (by linarith)
  have hratio1 : (c : ℚ) / ((info.bpp / info.bpc : Nat) : ℚ) ≤ (c : ℚ) :=
    div_le_self hcq holdq
  have hr0 := roundDouble_nonneg _ hratio0
  have hr1 := roundDouble_le_natCast _ c hratio0 hc53 hratio1
  have hlbq : (0 : ℚ) ≤ (info.line_bytes : ℚ) := by exact_mod_cast Nat.zero_le _
  have hp0 : (0 : ℚ) ≤ (info.line_bytes : ℚ) *
      roundDouble ((c : ℚ) / ((info.bpp / info.bpc : Nat) : ℚ)) := mul_nonneg hlbq hr0
  have hp1 : (info.line_bytes : ℚ) * roundDouble ((c : ℚ) / ((info.bpp / info.bpc : Nat) : ℚ))
      ≤ ((c * info.line_bytes : Nat) : ℚ) := by
    push_cast
    rw [mul_comm (c : ℚ)]
    exact mul_le_mul_of_nonneg_left hr1 hlbq
  have hq0 := roundDouble_nonneg _ hp0
  have hq1 := roundDouble_le_natCast _ (c * info.line_bytes) hp0 (by omega) hp1
  generalize hprod : roundDouble ((info.line_bytes : ℚ) *
      roundDouble ((c : ℚ) / ((info.bpp / info.bpc : Nat) : ℚ))) = prod at hq0 hq1
  have hlt : prod < 2 ^ 32 := by
    have : ((c * info.line_bytes : Nat) : ℚ) < ((2 ^ 32 : Nat) : ℚ) := by exact_mod_cast hfit
    have h32 : ((2 ^ 32 : Nat) : ℚ) = 2 ^ 32 := by norm_num
    linarith
  refine ⟨⌊prod⌋.toNat, ?_, ?_⟩
  · unfold modify_pdf_color
    simp only [if_neg (Nat.pos_iff_ne_zero.mp hbpc), if_neg hnew, if_neg hold0, hc, Int.cast_natCast,
      hprod]
    unfold doubleToUnsigned
    rw [if_pos ⟨by linarith, hlt⟩, if_neg (not_lt.mpr hq0)]
  · have h1 : ⌊prod⌋ ≤ ((c * info.line_bytes : Nat) : Int) := by
      have : (⌊prod⌋ : ℚ) ≤ prod := Int.floor_le prod
      have : (⌊prod⌋ : ℚ) ≤ ((c * info.line_bytes : Nat) : ℚ) := le_trans this hq1
      exact_mod_cast this
    omega

/-- What a call through a `pdfConvertFunction` pointer does to the
file-scope variables and the page record, for a page whose old depth is
well-formed and whose row length times four fits `unsigned`. -/
theorem pdfConvertFunction_call_spec (fn : pdfConvertFunction) (g : Globals) (info : pdf_info)
    (hbpc : 0 < info.bpc) (hbpp : info.bpc ≤ info.bpp) (hfit : 4 * info.line_bytes < 2 ^ 32) :
    ∃ g' info', fn.call g info = some (g', info') ∧
      g' = { g with conversion_function := some fn.conversion, bit_function := some fn.bits } ∧
      info'.color_space = info.color_space ∧
      (fn.depth = none → info' = info) ∧
      (∀ d, fn.depth = some d → info'.bpp = d.1 ∧ info'.bpc = d.2) := by
  have hmod : ∀ (bpp bpc : Int) (cf : convertFunction) (bf : bitFunction) (c : Nat), bpc ≠ 0 →
      Int.tdiv bpp bpc = (c : Int) → c ≤ 4 →
      ∃ g' info', (modify_pdf_color g info bpp bpc cf).map
          (fun r => (({ r.1 with bit_function := some bf } : Globals), r.2)) = some (g', info') ∧
        g' = { g with conversion_function := some cf, bit_function := some bf } ∧
        info'.color_space = info.color_space ∧
        info'.bpp = toUnsigned bpp ∧ info'.bpc = toUnsigned bpc := by
    intro bpp bpc cf bf c h1 h2 h3
    have h4 : c * info.line_bytes ≤ 4 * info.line_bytes := Nat.mul_le_mul_right _ h3
    obtain ⟨lb, hlb, -⟩ := modify_pdf_color_defined g info bpp bpc cf c hbpc hbpp h1 h2
      (by omega) (by omega)
    rw [hlb]
    exact ⟨_, _, rfl, rfl, rfl, rfl, rfl⟩
  have hnone : ∀ d : Nat × Nat, ¬ (none : Option (Nat × Nat)) = some d := by
    intro d h; exact absurd h (by simp)
  cases fn
  case NoConversion =>
    exact ⟨{ g with conversion_function := some .noColorConversion,
                    bit_function := some .noBitConversion }, info, rfl, rfl, rfl,
      fun _ => rfl, fun d hd => absurd hd (hnone d)⟩
  case InvertColors =>
    exact ⟨{ g with conversion_function := some .noColorConversion,
                    bit_function := some .invertBits }, info, rfl, rfl, rfl,
      fun _ => rfl, fun d hd => absurd hd (hnone d)⟩
  case Cmyk8ToWhite8 =>
    obtain ⟨g', info', h1, h2, h3, h4, h5⟩ :=
      hmod 8 8 .cmykToWhite .noBitConversion 1 (by decide) (by decide) (by decide)
    refine ⟨g', info', h1, h2, h3, fun h => absurd h (by simp [pdfConvertFunction.depth]), ?_⟩
    intro d hd
    simp only [pdfConvertFunction.depth, Option.some.injEq] at hd
    rw [← hd, h4, h5]
    exact ⟨by decide, by decide⟩
  case Rgb8ToWhite8 =>
    obtain ⟨g', info', h1, h2, h3, h4, h5⟩ :=
      hmod 8 8 .rgbToWhite .noBitConversion 1 (by decide) (by decide) (by decide)
    refine ⟨g', info', h1, h2, h3, fun h => absurd h (by simp [pdfConvertFunction.depth]), ?_⟩
    intro d hd
    simp only [pdfConvertFunction.depth, Option.some.injEq] at hd
    rw [← hd, h4, h5]
    exact ⟨by decide, by decide⟩
  case Cmyk8ToRgb8 =>
    obtain ⟨g', info', h1, h2, h3, h4, h5⟩ :=
      hmod 24 8 .cmykToRgb .noBitConversion 3 (by decide) (by decide) (by decide)
    refine ⟨g', info', h1, h2, h3, fun h => absurd h (by simp [pdfConvertFunction.depth]), ?_⟩
    intro d hd
    simp only [pdfConvertFunction.depth, Option.some.injEq] at hd
    rw [← hd, h4, h5]
    exact ⟨by decide, by decide⟩
  case White8ToRgb8 =>
    obtain ⟨g', info', h1, h2, h3, h4, h5⟩ :=
      hmod 24 8 .whiteToRgb .invertBits 3 (by decide) (by decide) (by decide)
    refine ⟨g', info', h1, h2, h3, fun h => absurd h (by simp [pdfConvertFunction.depth]), ?_⟩
    intro d hd
    simp only [pdfConvertFunction.depth, Option.some.injEq] at hd
    rw [← hd, h4, h5]
    exact ⟨by decide, by decide⟩
  case Rgb8ToCmyk8 =>
    obtain ⟨g', info', h1, h2, h3, h4, h5⟩ :=
      hmod 32 8 .rgbToCmyk .noBitConversion 4 (by decide) (by decide) (by decide)
    refine ⟨g', info', h1, h2, h3, fun h => absurd h (by simp [pdfConvertFunction.depth]), ?_⟩
    intro d hd
    simp only [pdfConvertFunction.depth, Option.some.injEq] at hd
    rw [← hd, h4, h5]
    exact ⟨by decide, by decide⟩
  case White8ToCmyk8 =>
    obtain ⟨g', info', h1, h2, h3, h4, h5⟩ :=
      hmod 32 8 .whiteToCmyk .invertBits 4 (by decide) (by decide) (by decide)
    refine ⟨g', info', h1, h2, h3, fun h => absurd h (by simp [pdfConvertFunction.depth]), ?_⟩
    intro d hd
    simp only [pdfConvertFunction.depth, Option.some.injEq] at hd
    rw [← hd, h4, h5]
    exact ⟨by decide, by decide⟩

/-- The two functions that do not call `modify_pdf_color` always return
and leave the page record as it is. -/
theorem pdfConvertFunction_call_plain (fn : pdfConvertFunction) (g : Globals) (info : pdf_info)
    (h : fn.depth = none) :
    fn.call g info = some ({ g with conversion_function := some fn.conversion,
                                    bit_function := some fn.bits }, info) := by
  cases fn <;> first | rfl | simp [pdfConvertFunction.depth] at h

/-- The result of `prepare_pdf_page` in terms of the selection made by
`select_conversion` on the registered page. -/
theorem prepare_pdf_page_eq {g : Globals} {info p : pdf_info} {width height bpl bpp bpc : Nat}
    {render_intent : String} {color_space : cups_cspace_t}
    (hp : register_page info width height bpl bpp bpc render_intent color_space = some p) :
    prepare_pdf_page g info width height bpl bpp bpc render_intent color_space =
      if (select_conversion g p color_space).error = 0 then
        ((select_conversion g p color_space).fn.call (select_conversion g p color_space).globals
          (select_conversion g p color_space).info).map
          fun r => ⟨r.1, r.2, (select_conversion g p color_space).error⟩
      else some ⟨(select_conversion g p color_space).globals,
        (select_conversion g p color_space).info, (select_conversion g p color_space).error⟩ := by
  unfold prepare_pdf_page
  rw [hp]

theorem select_conversion_none {g : Globals} (p : pdf_info) (cs : cups_cspace_t)
    (hg : g.colorProfile = none) :
    select_conversion g p cs =
      ⟨if cs = .CUPS_CSPACE_K then .InvertColors else .NoConversion, 0, g, p⟩ := by
  simp only [select_conversion, hg]

theorem select_conversion_gray {g : Globals} (p : pdf_info) (cs : cups_cspace_t)
    (hg : g.colorProfile = some .cmsSigGrayData) :
    select_conversion g p cs =
      ⟨if cs = .CUPS_CSPACE_CMYK then .Cmyk8ToWhite8
        else if cs = .CUPS_CSPACE_RGB then .Rgb8ToWhite8 else .InvertColors,
       0, g, { p with color_space := .CUPS_CSPACE_K }⟩ := by
  simp only [select_conversion, hg]

theorem select_conversion_rgb {g : Globals} (p : pdf_info) (cs : cups_cspace_t)
    (hg : g.colorProfile = some .cmsSigRgbData) :
    select_conversion g p cs =
      ⟨if cs = .CUPS_CSPACE_CMYK then .Cmyk8ToRgb8
        else if cs = .CUPS_CSPACE_K then .White8ToRgb8
        else if cs = .CUPS_CSPACE_K then .InvertColors else .NoConversion,
       0, g, { p with color_space := .CUPS_CSPACE_RGB }⟩ := by
  simp only [select_conversion, hg]

theorem select_conversion_cmyk {g : Globals} (p : pdf_info) (cs : cups_cspace_t)
    (hg : g.colorProfile = some .cmsSigCmykData) :
    select_conversion g p cs =
      ⟨if cs = .CUPS_CSPACE_RGB then .Rgb8ToCmyk8
        else if cs = .CUPS_CSPACE_K then .White8ToCmyk8
        else if cs = .CUPS_CSPACE_K then .InvertColors else .NoConversion,
       0, g, { p with color_space := .CUPS_CSPACE_CMYK }⟩ := by
  simp only [select_conversion, hg]

/-- When the selection raises no error and the registered page has a
well-formed depth, `prepare_pdf_page` returns with the policy of the
selected function installed. -/
theorem prepare_pdf_page_of_selection {g g2 : Globals} {info p q : pdf_info}
    {width height bpl bpp bpc : Nat} {render_intent : String} {color_space : cups_cspace_t}
    {fn : pdfConvertFunction}
    (hp : register_page info width height bpl bpp bpc render_intent color_space = some p)
    (hsel : select_conversion g p color_space = ⟨fn, 0, g2, q⟩)
    (hbpc : 0 < q.bpc) (hbpp : q.bpc ≤ q.bpp) (hfit : 4 * q.line_bytes < 2 ^ 32) :
    ∃ r, prepare_pdf_page g info width height bpl bpp bpc render_intent color_space = some r ∧
      r.error = 0 ∧
      r.globals = { g2 with conversion_function := some fn.conversion,
                            bit_function := some fn.bits } ∧
      r.info.color_space = q.color_space ∧
      (fn.depth = none → r.info = q) ∧
      (∀ d, fn.depth = some d → r.info.bpp = d.1 ∧ r.info.bpc = d.2) := by
  obtain ⟨g', info', h1, h2, h3, h4, h5⟩ := pdfConvertFunction_call_spec fn g2 q hbpc hbpp hfit
  rw [prepare_pdf_page_eq hp, hsel]
  simp only [if_true, h1, Option.map_some']
  exact ⟨_, rfl, rfl, h2, h3, h4, h5⟩

/-- When the selected function does not call `modify_pdf_color`,
`prepare_pdf_page` returns whatever the depth of the raster. -/
theorem prepare_pdf_page_of_plain_selection {g g2 : Globals} {info p q : pdf_info}
    {width height bpl bpp bpc : Nat} {render_intent : String} {color_space : cups_cspace_t}
    {fn : pdfConvertFunction}
    (hp : register_page info width height bpl bpp bpc render_intent color_space = some p)
    (hsel : select_conversion g p color_space = ⟨fn, 0, g2, q⟩)
    (hd : fn.depth = none) :
    prepare_pdf_page g info width height bpl bpp bpc render_intent color_space =
      some ⟨{ g2 with conversion_function := some fn.conversion,
                      bit_function := some fn.bits }, q, 0⟩ := by
  rw [prepare_pdf_page_eq hp, hsel]
  simp only [if_true, pdfConvertFunction_call_plain fn g2 q hd, Option.map_some']

/-! ## Colour policy: the claims -/

/-- C5: with an active colour profile, `prepare_pdf_page` follows the
decision table.  A gray profile declares the page `CUPS_CSPACE_K`, an RGB
profile `CUPS_CSPACE_RGB`, a CMYK profile `CUPS_CSPACE_CMYK`; the installed
conversion is `cmykToWhite` (CMYK raster) or `rgbToWhite` (RGB raster)
under a gray profile, `cmykToRgb` (CMYK raster) or `whiteToRgb` with bit
inversion (gray raster) under an RGB profile, and `rgbToCmyk` (RGB raster)
or `whiteToCmyk` with bit inversion (gray raster) under a CMYK profile. -/
theorem prepare_pdf_page_profile_table (g : Globals) (info : pdf_info)
    (width height bpl bpp bpc : Nat) (render_intent : String) (cs : cups_cspace_t)
    (hP : 0 < info.pclm_strip_height_preferred)
    (hbpc : 0 < bpc) (hbpp : bpc ≤ bpp) (hfit : 4 * bpl < 2 ^ 32) :
    (g.colorProfile = some .cmsSigGrayData →
      ∃ r, prepare_pdf_page g info width height bpl bpp bpc render_intent cs = some r ∧
        r.error = 0 ∧ r.info.color_space = .CUPS_CSPACE_K ∧
        (cs = .CUPS_CSPACE_CMYK →
          r.globals.conversion_function = some .cmykToWhite ∧
          r.globals.bit_function = some .noBitConversion) ∧
        (cs = .CUPS_CSPACE_RGB →
          r.globals.conversion_function = some .rgbToWhite ∧
          r.globals.bit_function = some .noBitConversion)) ∧
    (g.colorProfile = some .cmsSigRgbData →
      ∃ r, prepare_pdf_page g info width height bpl bpp bpc render_intent cs = some r ∧
        r.error = 0 ∧ r.info.color_space = .CUPS_CSPACE_RGB ∧
        (cs = .CUPS_CSPACE_CMYK →
          r.globals.conversion_function = some .cmykToRgb ∧
          r.globals.bit_function = some .noBitConversion) ∧
        (cs = .CUPS_CSPACE_K →
          r.globals.conversion_function = some .whiteToRgb ∧
          r.globals.bit_function = some .invertBits)) ∧
    (g.colorProfile = some .cmsSigCmykData →
      ∃ r, prepare_pdf_page g info width height bpl bpp bpc render_intent cs = some r ∧
        r.error = 0 ∧ r.info.color_space = .CUPS_CSPACE_CMYK ∧
        (cs = .CUPS_CSPACE_RGB →
          r.globals.conversion_function = some .rgbToCmyk ∧
          r.globals.bit_function = some .noBitConversion) ∧
        (cs = .CUPS_CSPACE_K →
          r.globals.conversion_function = some .whiteToCmyk ∧
          r.globals.bit_function = some .invertBits)) := by
  obtain ⟨p, hp, -, -, p3, p4, p5, -⟩ :=
    register_page_defined info width height bpl bpp bpc render_intent cs hP
  refine ⟨?_, ?_, ?_⟩
  · intro hg
    obtain ⟨r, h1, h2, h3, h4, -, -⟩ := prepare_pdf_page_of_selection hp
      (select_conversion_gray p cs hg) (by simpa [p5] using hbpc)
      (by simpa [p4, p5] using hbpp) (by simpa [p3] using hfit)
    refine ⟨r, h1, h2, h4, ?_, ?_⟩
    · rintro rfl
      rw [h3]
      exact ⟨rfl, rfl⟩
    · rintro rfl
      rw [h3]
      exact ⟨rfl, rfl⟩
  · intro hg
    obtain ⟨r, h1, h2, h3, h4, -, -⟩ := prepare_pdf_page_of_selection hp
      (select_conversion_rgb p cs hg) (by simpa [p5] using hbpc)
      (by simpa [p4, p5] using hbpp) (by simpa [p3] using hfit)
    refine ⟨r, h1, h2, h4, ?_, ?_⟩
    · rintro rfl
      rw [h3]
      exact ⟨rfl, rfl⟩
    · rintro rfl
      rw [h3]
      exact ⟨rfl, rfl⟩
  · intro hg
    obtain ⟨r, h1, h2, h3, h4, -, -⟩ := prepare_pdf_page_of_selection hp
      (select_conversion_cmyk p cs hg) (by simpa [p5] using hbpc)
      (by simpa [p4, p5] using hbpp) (by simpa [p3] using hfit)
    refine ⟨r, h1, h2, h4, ?_, ?_⟩
    · rintro rfl
      rw [h3]
      exact ⟨rfl, rfl⟩
    · rintro rfl
      rw [h3]
      exact ⟨rfl, rfl⟩

theorem invertBits_whole (row : List Nat) :
    invertBits row row.length = some (row.map fun b => 255 - b % 256) := by
  unfold invertBits
  rw [if_pos le_rfl, List.take_length, List.drop_length, List.append_nil]
  rfl

/-- C6: with no colour profile, `prepare_pdf_page` installs for a gray
(`CUPS_CSPACE_K`) raster the invert-only policy, under which every byte
`b` of a row becomes `255 - b` and the colour conversion is the identity,
and for every other raster colour space the identity policy, under which a
row is not changed at all; in both cases the declared colour space, bits
per pixel, bits per colour and bytes per row are those of the raster. -/
theorem prepare_pdf_page_no_profile (g : Globals) (info : pdf_info)
    (width height bpl bpp bpc : Nat) (render_intent : String) (cs : cups_cspace_t)
    (hg : g.colorProfile = none) (hP : 0 < info.pclm_strip_height_preferred) :
    ∃ r, prepare_pdf_page g info width height bpl bpp bpc render_intent cs = some r ∧
      r.error = 0 ∧
      r.info.color_space = cs ∧ r.info.bpp = bpp ∧ r.info.bpc = bpc ∧ r.info.line_bytes = bpl ∧
      r.globals.conversion_function = some .noColorConversion ∧
      (cs = .CUPS_CSPACE_K →
        r.globals.bit_function = some .invertBits ∧
        ∀ (img : cupsImage) (row : List Nat) (w : Nat),
          convert_line img r.globals r.info row row.length w
            = some (row.map fun b => 255 - b % 256)) ∧
      (cs ≠ .CUPS_CSPACE_K →
        r.globals.bit_function = some .noBitConversion ∧
        ∀ (img : cupsImage) (row : List Nat) (n w : Nat),
          convert_line img r.globals r.info row n w = some row) := by
  obtain ⟨p, hp, -, -, p3, p4, p5, p6⟩ :=
    register_page_defined info width height bpl bpp bpc render_intent cs hP
  by_cases hK : cs = .CUPS_CSPACE_K
  · have hsel := select_conversion_none p cs hg
    rw [if_pos hK] at hsel
    refine ⟨_, prepare_pdf_page_of_plain_selection hp hsel rfl, rfl, p6, p4, p5, p3, rfl, ?_, ?_⟩
    · intro _
      refine ⟨rfl, ?_⟩
      intro img row w
      simp only [convert_line, pdfConvertFunction.bits, pdfConvertFunction.conversion,
        bitFunction.call, invertBits_whole, convertFunction.call]
    · intro h; exact absurd hK h
  · have hsel := select_conversion_none p cs hg
    rw [if_neg hK] at hsel
    refine ⟨_, prepare_pdf_page_of_plain_selection hp hsel rfl, rfl, p6, p4, p5, p3, rfl, ?_, ?_⟩
    · intro h; exact absurd h hK
    · intro _
      refine ⟨rfl, ?_⟩
      intro img row n w
      simp only [convert_line, pdfConvertFunction.bits, pdfConvertFunction.conversion,
        bitFunction.call, noBitConversion, convertFunction.call]

/-- For a 32-bit, 8-bit-per-colour page, `modify_pdf_color(info, 8, 8, fn)`
gives exactly a quarter of the row length, rounded down: every `double`
the function computes is exactly representable. -/
theorem modify_pdf_color_quarter (g : Globals) (info : pdf_info) (fn : convertFunction)
    (hbpp : info.bpp = 32) (hbpc : info.bpc = 8) (hlb : info.line_bytes < 2 ^ 32) :
    modify_pdf_color g info 8 8 fn =
      some ({ g with conversion_function := some fn },
            { info with line_bytes := info.line_bytes / 4, bpp := 8, bpc := 8 }) := by
  have hratio : roundDouble ((1 : ℚ) / 4) = 1 / 4 := by
    have := roundDouble_exact 1 (-2) (by decide)
    have h4 : ((1 : Nat) : ℚ) * (2 : ℚ) ^ (-2 : Int) = 1 / 4 := by norm_num
    rw [h4] at this
    exact this
  have hprod : roundDouble ((info.line_bytes : ℚ) * (1 / 4)) = (info.line_bytes : ℚ) / 4 := by
    have := roundDouble_exact info.line_bytes (-2) (by omega)
    have h4 : (info.line_bytes : ℚ) * (2 : ℚ) ^ (-2 : Int) = (info.line_bytes : ℚ) * (1 / 4) := by
      norm_num
    rw [h4] at this
    rw [this]
    ring
  have hfloor : ⌊(info.line_bytes : ℚ) / 4⌋ = ((info.line_bytes / 4 : Nat) : Int) := by
    have := Rat.floor_natCast_div_natCast info.line_bytes 4
    simpa using this
  have hnn : (0 : ℚ) ≤ (info.line_bytes : ℚ) / 4 :=
    div_nonneg (by exact_mod_cast Nat.zero_le _) (by norm_num)
  have hlt : (info.line_bytes : ℚ) / 4 < 2 ^ 32 := by
    have : ((info.line_bytes : Nat) : ℚ) < ((2 ^ 32 : Nat) : ℚ) := by exact_mod_cast hlb
    have h32 : ((2 ^ 32 : Nat) : ℚ) = 2 ^ 32 := by norm_num
    rw [h32] at this
    linarith
  have hdu : doubleToUnsigned ((info.line_bytes : ℚ) / 4) = some (info.line_bytes / 4) := by
    unfold doubleToUnsigned
    rw [if_pos ⟨by linarith, hlt⟩, if_neg (not_lt.mpr hnn), hfloor, Int.toNat_ofNat]
  have e1 : (((32 / 8 : Nat) : Nat) : ℚ) = 4 := by norm_num
  have e2 : ((Int.tdiv 8 8 : Int) : ℚ) = 1 := by
    rw [show Int.tdiv 8 8 = 1 from by decide]; norm_num
  have e3 : toUnsigned 8 = 8 := by decide
  have e4 : (4 : ℚ) ≠ 0 := by norm_num
  unfold modify_pdf_color
  simp only [hbpp, hbpc, e1, e2, e3, hratio, hprod, hdu, if_neg e4,
    if_neg (show ¬ (8 : Nat) = 0 from by decide), if_neg (show ¬ (8 : Int) = 0 from by decide)]

/-- C8: for every CMYK raster page with 32 bits per pixel and 8 bits per
colour prepared while a gray profile is active, `prepare_pdf_page` leaves
the page declared as gray (`CUPS_CSPACE_K`) with 8 bits per pixel and 8
bits per colour, converted by `cmykToWhite`, and its bytes per row are a
quarter of the raster's (rounded down). -/
theorem prepare_pdf_page_cmyk_under_gray_profile (g : Globals) (info : pdf_info)
    (width height bpl : Nat) (render_intent : String)
    (hg : g.colorProfile = some .cmsSigGrayData)
    (hP : 0 < info.pclm_strip_height_preferred) (hbpl : bpl < 2 ^ 32) :
    ∃ r, prepare_pdf_page g info width height bpl 32 8 render_intent .CUPS_CSPACE_CMYK
        = some r ∧
      r.error = 0 ∧ r.info.color_space = .CUPS_CSPACE_K ∧
      r.info.bpp = 8 ∧ r.info.bpc = 8 ∧ r.info.line_bytes = bpl / 4 ∧
      r.globals.conversion_function = some .cmykToWhite := by
  obtain ⟨p, hp, -, -, p3, p4, p5, -⟩ :=
    register_page_defined info width height bpl 32 8 render_intent .CUPS_CSPACE_CMYK hP
  have hsel := select_conversion_gray p .CUPS_CSPACE_CMYK hg
  rw [if_pos rfl] at hsel
  have hq := modify_pdf_color_quarter g { p with color_space := .CUPS_CSPACE_K } .cmykToWhite
    p4 p5 (by simpa [p3] using hbpl)
  rw [prepare_pdf_page_eq hp, hsel]
  simp only [if_true, pdfConvertFunction.call, convertPdf_Cmyk8ToWhite8, hq, Option.map_some']
  exact ⟨_, rfl, rfl, rfl, rfl, rfl, by simp [p3], rfl⟩

/-- Witness for `prepare_pdf_page_cmyk_under_gray_profile`: a 100 x 20
CMYK page of 400 bytes per row. -/
theorem prepare_pdf_page_cmyk_under_gray_profile_witness :
    (0 < pdf_info.init.pclm_strip_height_preferred ∧ 400 < 2 ^ 32) ∧
    ∃ r, prepare_pdf_page { Globals.init with colorProfile := some .cmsSigGrayData }
        pdf_info.init 100 20 400 32 8 "" .CUPS_CSPACE_CMYK = some r ∧
      r.error = 0 ∧ r.info.color_space = .CUPS_CSPACE_K ∧
      r.info.bpp = 8 ∧ r.info.bpc = 8 ∧ r.info.line_bytes = 400 / 4 ∧
      r.globals.conversion_function = some .cmykToWhite :=
  ⟨⟨by decide, by decide⟩,
    prepare_pdf_page_cmyk_under_gray_profile
      { Globals.init with colorProfile := some .cmsSigGrayData } pdf_info.init 100 20 400 ""
      rfl (by decide) (by decide)⟩

/-- Witness for `prepare_pdf_page_profile_table`: a 100 x 20 gray page of
8 bits per pixel under each of the three profiles. -/
theorem prepare_pdf_page_profile_table_witness :
    (0 < pdf_info.init.pclm_strip_height_preferred ∧ 0 < 8 ∧ 8 ≤ 8 ∧ 4 * 100 < 2 ^ 32) ∧
    ∃ r, prepare_pdf_page { Globals.init with colorProfile := some .cmsSigRgbData }
        pdf_info.init 100 20 100 8 8 "" .CUPS_CSPACE_K = some r ∧
      r.error = 0 ∧ r.info.color_space = .CUPS_CSPACE_RGB ∧
      r.globals.conversion_function = some .whiteToRgb ∧
      r.globals.bit_function = some .invertBits := by
  obtain ⟨r, h1, h2, h3, -, h5⟩ :=
    (prepare_pdf_page_profile_table { Globals.init with colorProfile := some .cmsSigRgbData }
      pdf_info.init 100 20 100 8 8 "" .CUPS_CSPACE_K
      (by decide) (by decide) (by decide) (by decide)).2.1 rfl
  exact ⟨⟨by decide, by decide, by decide, by decide⟩, r, h1, h2, h3, (h5 rfl).1, (h5 rfl).2⟩

/-- Witness for `prepare_pdf_page_no_profile`: a gray page at program
start. -/
theorem prepare_pdf_page_no_profile_witness :
    (Globals.init.colorProfile = none ∧ 0 < pdf_info.init.pclm_strip_height_preferred) ∧
    ∃ r, prepare_pdf_page Globals.init pdf_info.init 100 20 100 8 8 "" .CUPS_CSPACE_K = some r ∧
      r.info.color_space = .CUPS_CSPACE_K ∧ r.info.line_bytes = 100 ∧
      r.globals.bit_function = some .invertBits := by
  obtain ⟨r, h1, -, h3, -, -, h6, -, h8, -⟩ :=
    prepare_pdf_page_no_profile Globals.init pdf_info.init 100 20 100 8 8 "" .CUPS_CSPACE_K
      rfl (by decide)
  exact ⟨⟨rfl, by decide⟩, r, h1, h3, h6, (h8 rfl).1⟩

/-- C7 (failing input): at program start, with a profile whose signature
is Lab, `prepare_pdf_page` returns the error flag and clears
`colorProfile`, and bits per pixel, bits per colour and bytes per row stay
as declared; but no `convertPdf_*` function is called, so the conversion
and bit function pointers are still null, and converting a row of the page
calls through a null pointer. -/
theorem prepare_pdf_page_unsupported_profile_installs_nothing :
    (prepare_pdf_page { Globals.init with colorProfile := some .cmsSigLabData }
        pdf_info.init 1 20 3 24 8 "" .CUPS_CSPACE_RGB).map
      (fun r => (r.error, r.globals.colorProfile, r.info.bpp, r.info.bpc, r.info.line_bytes))
      = some (1, none, 24, 8, 3) ∧
    (prepare_pdf_page { Globals.init with colorProfile := some .cmsSigLabData }
        pdf_info.init 1 20 3 24 8 "" .CUPS_CSPACE_RGB).map
      (fun r => (r.globals.conversion_function, r.globals.bit_function))
      = some (none, none) ∧
    (prepare_pdf_page { Globals.init with colorProfile := some .cmsSigLabData }
        pdf_info.init 1 20 3 24 8 "" .CUPS_CSPACE_RGB).bind
      (fun r => convert_line cupsImage.idle r.globals r.info [10, 20, 30] 3 1) = none := by
  decide

/-- C9 (counterexample): an 8-bit luminance raster (`CUPS_CSPACE_SW`, one
channel, consistent depth) prepared under an RGB profile is declared
`CUPS_CSPACE_RGB` but keeps 8 bits per pixel and 8 bits per colour, which
is not a multiple of 8 times 3 channels. -/
theorem prepare_pdf_page_depth_inconsistent_for_sw_under_rgb :
    (8 * channel_count .CUPS_CSPACE_SW ∣ 8) ∧
    (prepare_pdf_page { Globals.init with colorProfile := some .cmsSigRgbData }
        pdf_info.init 100 20 100 8 8 "" .CUPS_CSPACE_SW).map
      (fun r => (r.info.color_space, r.info.bpp, r.info.bpc))
      = some (.CUPS_CSPACE_RGB, 8, 8) ∧
    ¬ (8 * channel_count .CUPS_CSPACE_RGB ∣ 8) := by
  decide

/-- C9 (amended): for every raster whose bits per pixel are a multiple of
its bits per colour times its channel count, the page `prepare_pdf_page`
returns has bits per pixel that are a multiple of its bits per colour times
the channel count of its declared colour space, provided no profile is
active, or the profile is gray, or the profile is RGB or CMYK and the
raster colour space is one the decision table converts (`K`, `RGB`,
`CMYK`) or has a channel count that is a multiple of the profile's.  The
property holds for every channel count function that gives 1 for `K`, 3
for `RGB` and 4 for `CMYK`. -/
theorem prepare_pdf_page_depth_consistent (channels : cups_cspace_t → Nat)
    (hK : channels .CUPS_CSPACE_K = 1) (hRGB : channels .CUPS_CSPACE_RGB = 3)
    (hCMYK : channels .CUPS_CSPACE_CMYK = 4)
    (g : Globals) (info : pdf_info)
    (width height bpl bpp bpc : Nat) (render_intent : String) (cs : cups_cspace_t)
    (hP : 0 < info.pclm_strip_height_preferred)
    (hbpc : 0 < bpc) (hbpp : bpc ≤ bpp) (hfit : 4 * bpl < 2 ^ 32)
    (hcons : bpc * channels cs ∣ bpp)
    (hprof : g.colorProfile = none ∨ g.colorProfile = some .cmsSigGrayData ∨
      (g.colorProfile = some .cmsSigRgbData ∧
        (cs = .CUPS_CSPACE_K ∨ cs = .CUPS_CSPACE_CMYK ∨ 3 ∣ channels cs)) ∨
      (g.colorProfile = some .cmsSigCmykData ∧
        (cs = .CUPS_CSPACE_K ∨ cs = .CUPS_CSPACE_RGB ∨ 4 ∣ channels cs))) :
    ∃ r, prepare_pdf_page g info width height bpl bpp bpc render_intent cs = some r ∧
      r.info.bpc * channels r.info.color_space ∣ r.info.bpp := by
  obtain ⟨p, hp, -, -, p3, p4, p5, p6⟩ :=
    register_page_defined info width height bpl bpp bpc render_intent cs hP
  have hb1 : ∀ c : cups_cspace_t, 0 < ({ p with color_space := c } : pdf_info).bpc := by
    intro c; simpa [p5] using hbpc
  have hb2 : ∀ c : cups_cspace_t, ({ p with color_space := c } : pdf_info).bpc ≤
      ({ p with color_space := c } : pdf_info).bpp := by
    intro c; simpa [p4, p5] using hbpp
  have hb3 : ∀ c : cups_cspace_t,
      4 * ({ p with color_space := c } : pdf_info).line_bytes < 2 ^ 32 := by
    intro c; simpa [p3] using hfit
  have hdvd : bpc ∣ bpp := Dvd.dvd.trans (Dvd.intro _ rfl) hcons
  -- a selected function that rewrites the depth makes it consistent with its target
  have hconv : ∀ (fn : pdfConvertFunction) (target : cups_cspace_t) (r : PrepareResult)
      (d : Nat × Nat), fn.depth = some d → d.2 * channels target = d.1 →
      r.info.color_space = target →
      (∀ d, fn.depth = some d → r.info.bpp = d.1 ∧ r.info.bpc = d.2) →
      r.info.bpc * channels r.info.color_space ∣ r.info.bpp := by
    intro fn target r d hd hmul hcs hall
    obtain ⟨e1, e2⟩ := hall d hd
    rw [e1, e2, hcs, hmul]
  -- a selected function that keeps the depth keeps a multiple of the old product
  have hkeep : ∀ (fn : pdfConvertFunction) (target : cups_cspace_t) (r : PrepareResult),
      fn.depth = none → channels target ∣ channels cs →
      (fn.depth = none → r.info = { p with color_space := target }) →
      r.info.bpc * channels r.info.color_space ∣ r.info.bpp := by
    intro fn target r hd hch hall
    rw [hall hd]
    show p.bpc * channels target ∣ p.bpp
    rw [p4, p5]
    exact Dvd.dvd.trans (Nat.mul_dvd_mul_left bpc hch) hcons
  rcases hprof with hg | hg | ⟨hg, hcs⟩ | ⟨hg, hcs⟩
  · have hsel := select_conversion_none p cs hg
    have hplain : (if cs = .CUPS_CSPACE_K then pdfConvertFunction.InvertColors
        else pdfConvertFunction.NoConversion).depth = none := by split_ifs <;> rfl
    refine ⟨_, prepare_pdf_page_of_plain_selection hp hsel hplain, ?_⟩
    show p.bpc * channels p.color_space ∣ p.bpp
    rw [p4, p5, p6]
    exact hcons
  · obtain ⟨r, h1, -, -, h4, h5, h6⟩ := prepare_pdf_page_of_selection hp
      (select_conversion_gray p cs hg) (hb1 _) (hb2 _) (hb3 _)
    refine ⟨r, h1, ?_⟩
    by_cases c1 : cs = .CUPS_CSPACE_CMYK
    · rw [if_pos c1] at h6
      exact hconv .Cmyk8ToWhite8 .CUPS_CSPACE_K r (8, 8) rfl (by simp [hK]) h4 h6
    · rw [if_neg c1] at h5 h6
      by_cases c2 : cs = .CUPS_CSPACE_RGB
      · rw [if_pos c2] at h6
        exact hconv .Rgb8ToWhite8 .CUPS_CSPACE_K r (8, 8) rfl (by simp [hK]) h4 h6
      · rw [if_neg c2] at h5
        exact hkeep .InvertColors .CUPS_CSPACE_K r rfl (by rw [hK]; exact one_dvd _) h5
  · obtain ⟨r, h1, -, -, h4, h5, h6⟩ := prepare_pdf_page_of_selection hp
      (select_conversion_rgb p cs hg) (hb1 _) (hb2 _) (hb3 _)
    refine ⟨r, h1, ?_⟩
    by_cases c1 : cs = .CUPS_CSPACE_CMYK
    · rw [if_pos c1] at h6
      exact hconv .Cmyk8ToRgb8 .CUPS_CSPACE_RGB r (24, 8) rfl (by simp [hRGB]) h4 h6
    · rw [if_neg c1] at h5 h6
      by_cases c2 : cs = .CUPS_CSPACE_K
      · rw [if_pos c2] at h6
        exact hconv .White8ToRgb8 .CUPS_CSPACE_RGB r (24, 8) rfl (by simp [hRGB]) h4 h6
      · rw [if_neg c2, if_neg c2] at h5
        have h3 : 3 ∣ channels cs := by
          rcases hcs with h | h | h
          · exact absurd h c2
          · exact absurd h c1
          · exact h
        exact hkeep .NoConversion .CUPS_CSPACE_RGB r rfl (by rw [hRGB]; exact h3) h5
  · obtain ⟨r, h1, -, -, h4, h5, h6⟩ := prepare_pdf_page_of_selection hp
      (select_conversion_cmyk p cs hg) (hb1 _) (hb2 _) (hb3 _)
    refine ⟨r, h1, ?_⟩
    by_cases c1 : cs = .CUPS_CSPACE_RGB
    · rw [if_pos c1] at h6
      exact hconv .Rgb8ToCmyk8 .CUPS_CSPACE_CMYK r (32, 8) rfl (by simp [hCMYK]) h4 h6
    · rw [if_neg c1] at h5 h6
      by_cases c2 : cs = .CUPS_CSPACE_K
      · rw [if_pos c2] at h6
        exact hconv .White8ToCmyk8 .CUPS_CSPACE_CMYK r (32, 8) rfl (by simp [hCMYK]) h4 h6
      · rw [if_neg c2, if_neg c2] at h5
        have h3 : 4 ∣ channels cs := by
          rcases hcs with h | h | h
          · exact absurd h c2
          · exact absurd h c1
          · exact h
        exact hkeep .NoConversion .CUPS_CSPACE_CMYK r rfl (by rw [hCMYK]; exact h3) h5

/-- Witness for `prepare_pdf_page_depth_consistent`: an 8-bit gray page
under an RGB profile, with the channel counts of `channel_count`. -/
theorem prepare_pdf_page_depth_consistent_witness :
    (0 < pdf_info.init.pclm_strip_height_preferred ∧ 0 < 8 ∧ 8 ≤ 8 ∧ 4 * 100 < 2 ^ 32 ∧
      8 * channel_count .CUPS_CSPACE_K ∣ 8) ∧
    ∃ r, prepare_pdf_page { Globals.init with colorProfile := some .cmsSigRgbData }
        pdf_info.init 100 20 100 8 8 "" .CUPS_CSPACE_K = some r ∧
      r.info.bpc * channel_count r.info.color_space ∣ r.info.bpp :=
  ⟨⟨by decide, by decide, by decide, by decide, by decide⟩,
    prepare_pdf_page_depth_consistent channel_count rfl rfl rfl
      { Globals.init with colorProfile := some .cmsSigRgbData }
      pdf_info.init 100 20 100 8 8 "" .CUPS_CSPACE_K
      (by decide) (by decide) (by decide) (by decide) (by decide)
      (Or.inr (Or.inr (Or.inl ⟨rfl, Or.inl rfl⟩)))⟩

/-- C10 (counterexample): gray to gray is not the identity.  A gray
(`CUPS_CSPACE_K`) raster page stays gray, with no profile as well as with
a gray profile, but the row `[0, 200]` comes out as `[255, 55]`. -/
theorem gray_to_gray_inverts_row :
    (prepare_pdf_page Globals.init pdf_info.init 2 1 2 8 8 "" .CUPS_CSPACE_K).map
      (fun r => r.info.color_space) = some .CUPS_CSPACE_K ∧
    (prepare_pdf_page Globals.init pdf_info.init 2 1 2 8 8 "" .CUPS_CSPACE_K).bind
      (fun r => convert_line cupsImage.idle r.globals r.info [0, 200] 2 2) = some [255, 55] ∧
    (prepare_pdf_page { Globals.init with colorProfile := some .cmsSigGrayData }
        pdf_info.init 2 1 2 8 8 "" .CUPS_CSPACE_K).map
      (fun r => r.info.color_space) = some .CUPS_CSPACE_K ∧
    (prepare_pdf_page { Globals.init with colorProfile := some .cmsSigGrayData }
        pdf_info.init 2 1 2 8 8 "" .CUPS_CSPACE_K).bind
      (fun r => convert_line cupsImage.idle r.globals r.info [0, 200] 2 2) = some [255, 55] ∧
    ([255, 55] : List Nat) ≠ [0, 200] := by
  decide

/-- C10 (amended): RGB to RGB is the identity: for an RGB raster with no
profile or with an RGB profile the page stays RGB and every row, of any
length and pixel count, comes out of the bit and colour conversion
byte for byte as it went in.  Gray to gray is the invert-only policy: for
a gray (`CUPS_CSPACE_K`) raster with no profile or with a gray profile the
page stays gray and every byte `b` of a row comes out as `255 - b`. -/
theorem same_space_conversion (g : Globals) (info : pdf_info)
    (width height bpl bpp bpc : Nat) (render_intent : String)
    (hP : 0 < info.pclm_strip_height_preferred) :
    ((g.colorProfile = none ∨ g.colorProfile = some .cmsSigRgbData) →
      ∃ r, prepare_pdf_page g info width height bpl bpp bpc render_intent .CUPS_CSPACE_RGB
          = some r ∧
        r.info.color_space = .CUPS_CSPACE_RGB ∧
        ∀ (img : cupsImage) (row : List Nat) (n w : Nat),
          convert_line img r.globals r.info row n w = some row) ∧
    ((g.colorProfile = none ∨ g.colorProfile = some .cmsSigGrayData) →
      ∃ r, prepare_pdf_page g info width height bpl bpp bpc render_intent .CUPS_CSPACE_K
          = some r ∧
        r.info.color_space = .CUPS_CSPACE_K ∧
        ∀ (img : cupsImage) (row : List Nat) (w : Nat),
          convert_line img r.globals r.info row row.length w
            = some (row.map fun b => 255 - b % 256)) := by
  constructor
  · intro hg
    obtain ⟨p, hp, -, -, -, -, -, p6⟩ :=
      register_page_defined info width height bpl bpp bpc render_intent .CUPS_CSPACE_RGB hP
    have hid : ∀ (g2 : Globals) (q : pdf_info) (img : cupsImage) (row : List Nat) (n w : Nat),
        convert_line img
          { g2 with conversion_function := some pdfConvertFunction.NoConversion.conversion,
                    bit_function := some pdfConvertFunction.NoConversion.bits } q row n w
          = some row := by
      intro g2 q img row n w
      simp only [convert_line, pdfConvertFunction.bits, pdfConvertFunction.conversion,
        bitFunction.call, noBitConversion, convertFunction.call]
    rcases hg with hg | hg
    · have hsel := select_conversion_none p .CUPS_CSPACE_RGB hg
      rw [if_neg (by decide)] at hsel
      exact ⟨_, prepare_pdf_page_of_plain_selection hp hsel rfl, p6, hid _ _⟩
    · have hsel := select_conversion_rgb p .CUPS_CSPACE_RGB hg
      rw [if_neg (by decide), if_neg (by decide), if_neg (by decide)] at hsel
      exact ⟨_, prepare_pdf_page_of_plain_selection hp hsel rfl, rfl, hid _ _⟩
  · intro hg
    obtain ⟨p, hp, -, -, -, -, -, p6⟩ :=
      register_page_defined info width height bpl bpp bpc render_intent .CUPS_CSPACE_K hP
    have hinv : ∀ (g2 : Globals) (q : pdf_info) (img : cupsImage) (row : List Nat) (w : Nat),
        convert_line img
          { g2 with conversion_function := some pdfConvertFunction.InvertColors.conversion,
                    bit_function := some pdfConvertFunction.InvertColors.bits } q row row.length w
          = some (row.map fun b => 255 - b % 256) := by
      intro g2 q img row w
      simp only [convert_line, pdfConvertFunction.bits, pdfConvertFunction.conversion,
        bitFunction.call, invertBits_whole, convertFunction.call]
    rcases hg with hg | hg
    · have hsel := select_conversion_none p .CUPS_CSPACE_K hg
      rw [if_pos rfl] at hsel
      exact ⟨_, prepare_pdf_page_of_plain_selection hp hsel rfl, p6, hinv _ _⟩
    · have hsel := select_conversion_gray p .CUPS_CSPACE_K hg
      rw [if_neg (by decide), if_neg (by decide)] at hsel
      exact ⟨_, prepare_pdf_page_of_plain_selection hp hsel rfl, rfl, hinv _ _⟩

/-- Witness for `same_space_conversion`: an RGB page and a gray page at
program start. -/
theorem same_space_conversion_witness :
    0 < pdf_info.init.pclm_strip_height_preferred ∧
    (∃ r, prepare_pdf_page Globals.init pdf_info.init 100 20 300 24 8 "" .CUPS_CSPACE_RGB
        = some r ∧
      convert_line cupsImage.idle r.globals r.info [1, 2, 3] 3 1 = some [1, 2, 3]) ∧
    (∃ r, prepare_pdf_page Globals.init pdf_info.init 100 20 100 8 8 "" .CUPS_CSPACE_K
        = some r ∧
      convert_line cupsImage.idle r.globals r.info [1, 2, 3] 3 3 = some [254, 253, 252]) := by
  have h := same_space_conversion Globals.init pdf_info.init 100 20 300 24 8 "" (by decide)
  have h2 := same_space_conversion Globals.init pdf_info.init 100 20 100 8 8 "" (by decide)
  obtain ⟨r, hr, -, hrow⟩ := h.1 (Or.inl rfl)
  obtain ⟨r2, hr2, -, hrow2⟩ := h2.2 (Or.inl rfl)
  exact ⟨by decide, ⟨r, hr, hrow _ _ _ _⟩, ⟨r2, hr2, hrow2 cupsImage.idle [1, 2, 3] 3⟩⟩

/-! ## Device attributes -/

/-- The compression methods `read_ppd_attributes` stores, starting from the
empty list of the constructor: the recognised tokens of the attribute, or
`FLATE_DECODE` alone when there is none. -/
theorem read_ppd_attributes_methods (ppd : PPD) :
    (read_ppd_attributes ppd pdf_info.init).pclm_compression_method_preferred =
      if ((ppd.cupsPclmCompressionMethodPreferred.map fun value =>
            (split_strings value ",").filterMap compression_of_token).getD []).isEmpty
      then [.FLATE_DECODE]
      else (ppd.cupsPclmCompressionMethodPreferred.map fun value =>
            (split_strings value ",").filterMap compression_of_token).getD [] := by
  rcases ppd with ⟨a, b, c, d, e, f⟩
  cases f with
  | none =>
    cases a <;> cases b <;> cases c <;> cases d <;> cases e <;>
      simp [read_ppd_attributes, pdf_info.init]
  | some value =>
    by_cases hv : ((split_strings value ",").filterMap compression_of_token).isEmpty = true
    · cases a <;> cases b <;> cases c <;> cases d <;> cases e <;>
        simp [read_ppd_attributes, pdf_info.init, hv, List.isEmpty_iff.mp hv]
    · cases a <;> cases b <;> cases c <;> cases d <;> cases e <;>
        simp [read_ppd_attributes, pdf_info.init, hv]

/-- The preferred strip height `read_ppd_attributes` stores: 16 when the
attribute is absent, and otherwise whatever `atoi` makes of its value. -/
theorem read_ppd_attributes_strip_height (ppd : PPD) (pdf : pdf_info) :
    (read_ppd_attributes ppd pdf).pclm_strip_height_preferred =
      match ppd.cupsPclmStripHeightPreferred with
      | some value => toUnsigned (atoi value)
      | none => 16 := by
  rcases ppd with ⟨a, b, c, d, e, f⟩
  cases a <;> cases b <;> cases c <;> cases d <;> cases e <;> cases f <;>
    simp only [read_ppd_attributes] <;> split_ifs <;> rfl

/-- C17: when the compression attribute yields no recognised method (it
is absent, empty, or holds only unknown tokens), `main` sets the method
list to exactly `[FLATE_DECODE]`; whatever the attribute, the list handed
to the encoder is not empty, and in the fallback case the method the
encoder selects is deflate. -/
theorem compression_fallback_is_flate (ppd : PPD) :
    (read_ppd_attributes ppd pdf_info.init).pclm_compression_method_preferred ≠ [] ∧
    ((ppd.cupsPclmCompressionMethodPreferred = none ∨
        ∃ value, ppd.cupsPclmCompressionMethodPreferred = some value ∧
          ∀ token ∈ split_strings value ",", compression_of_token token = none) →
      (read_ppd_attributes ppd pdf_info.init).pclm_compression_method_preferred
          = [.FLATE_DECODE] ∧
      select_compression
          (read_ppd_attributes ppd pdf_info.init).pclm_compression_method_preferred
        = some .FLATE_DECODE) := by
  rw [read_ppd_attributes_methods]
  constructor
  · split_ifs with h
    · simp
    · intro h2
      rw [h2] at h
      exact h rfl
  · intro h
    have hempty : ((ppd.cupsPclmCompressionMethodPreferred.map fun value =>
        (split_strings value ",").filterMap compression_of_token).getD []) = [] := by
      rcases h with h | ⟨value, hv, htok⟩
      · rw [h]; rfl
      · rw [hv]
        simp only [Option.map_some', Option.getD_some]
        rw [List.filterMap_eq_nil_iff]
        exact htok
    rw [hempty]
    exact ⟨rfl, rfl⟩

/-- Witness for `compression_fallback_is_flate`: an attribute holding only
an unknown token. -/
theorem compression_fallback_is_flate_witness :
    (∀ token ∈ split_strings "lzw" ",", compression_of_token token = none) ∧
    (read_ppd_attributes ⟨none, none, none, none, none, some "lzw"⟩
        pdf_info.init).pclm_compression_method_preferred = [.FLATE_DECODE] := by
  have hw : ∀ token ∈ split_strings "lzw" ",", compression_of_token token = none := by decide
  exact ⟨hw, ((compression_fallback_is_flate ⟨none, none, none, none, none, some "lzw"⟩).2
    (Or.inr ⟨"lzw", rfl, hw⟩)).1⟩

/-! ## Page dimensions: exact cases -/

theorem roundDouble_natCast (n : Nat) (hn : n < 2 ^ 53) : roundDouble (n : ℚ) = n := by
  have := roundDouble_exact n 0 hn
  simpa using this

/-- A page side of `k` inches is `72 k` units, without rounding error. -/
theorem pdf_units_of_mul (dpi k : Nat) (hdpi : 0 < dpi) (hk : k * 72 < 2 ^ 53) :
    pdf_units (dpi * k) dpi = some ((k * 72 : Nat) : ℚ) := by
  unfold pdf_units
  rw [if_neg (by omega)]
  have hq : ((dpi * k : Nat) : ℚ) / (dpi : ℚ) = (k : ℚ) := by
    have : (dpi : ℚ) ≠ 0 := by exact_mod_cast (by omega : dpi ≠ 0)
    push_cast
    field_simp
  rw [hq, roundDouble_natCast k (by omega)]
  have h72 : (k : ℚ) * 72 = ((k * 72 : Nat) : ℚ) := by push_cast; ring
  rw [h72, roundDouble_natCast _ hk]

/-- A whole number of units below `2 ^ 31` is its own box extent. -/
theorem box_extent_natCast (n : Nat) (hn : n < 2 ^ 31) :
    box_extent (some (n : ℚ)) = some (n : Int) := by
  have hexact : roundDouble ((n : ℚ) + 1 / 2) = (n : ℚ) + 1 / 2 := by
    have := roundDouble_exact (2 * n + 1) (-1) (by omega)
    have h2 : ((2 * n + 1 : Nat) : ℚ) * (2 : ℚ) ^ (-1 : Int) = (n : ℚ) + 1 / 2 := by
      push_cast
      rw [zpow_neg_one]
      ring
    rw [h2] at this
    exact this
  have hn0 : (0 : ℚ) ≤ (n : ℚ) := by exact_mod_cast Nat.zero_le n
  have hlt : (n : ℚ) + 1 / 2 < 2 ^ 31 := by
    have : ((n + 1 : Nat) : ℚ) ≤ ((2 ^ 31 : Nat) : ℚ) := by exact_mod_cast (by omega : n + 1 ≤ 2 ^ 31)
    push_cast at this
    linarith
  have hfloor : ⌊(n : ℚ) + 1 / 2⌋ = (n : Int) := by
    rw [Int.floor_eq_iff]
    constructor
    · push_cast; linarith
    · push_cast; linarith
  unfold box_extent doubleToInt
  simp only [hexact]
  rw [if_pos ⟨by linarith, hlt⟩, if_neg (by linarith), hfloor]

/-! ## Opening and closing pages: evaluation lemmas -/

theorem finish_page_no_strips (host : Host) (s : pdf_state)
    (h : s.info.pclm_num_strips = 0) : finish_page host s = .ok s := by
  unfold finish_page
  simp only [h, if_true]

theorem read_ppd_attributes_num_strips (ppd : PPD) (pdf : pdf_info) :
    (read_ppd_attributes ppd pdf).pclm_num_strips = pdf.pclm_num_strips := by
  rcases ppd with ⟨a, b, c, d, e, f⟩
  cases a <;> cases b <;> cases c <;> cases d <;> cases e <;> cases f <;>
    simp only [read_ppd_attributes] <;> split_ifs <;> rfl

/-- The successful path through `add_pdf_page`, step by step. -/
theorem add_pdf_page_ok {host : Host} {g : Globals} {s s1 : pdf_state} {pagen : Int}
    {width height : Nat} {bpp bpc bpl : Int} {render_intent : String}
    {color_space : cups_cspace_t} {xdpi ydpi : Nat} {r : PrepareResult} {info : pdf_info}
    {pw ph : ℚ} {x2 y2 : Int}
    (h1 : finish_page host s = .ok s1)
    (h2 : prepare_pdf_page g s1.info width height (toUnsigned bpl) (toUnsigned bpp)
      (toUnsigned bpc) render_intent color_space = some r)
    (h3 : r.info.line_bytes ≠ 0)
    (h4 : ¬ r.info.height > UINT_MAX / r.info.line_bytes)
    (h5 : reserve_strips r.info = some info)
    (h6 : pdf_units info.width xdpi = some pw) (h7 : pdf_units info.height ydpi = some ph)
    (h8 : box_extent (some pw) = some x2) (h9 : box_extent (some ph) = some y2) :
    add_pdf_page host g s pagen width height bpp bpc bpl render_intent color_space xdpi ydpi =
      .ok (r.globals,
        { s1 with
          info := info
          page_width := pw
          page_height := ph
          pdf := s1.pdf ++ [{ MediaBox := (0, 0, x2, y2), XObject := [], Contents := none }]
          page := some s1.pdf.length }) := by
  unfold add_pdf_page
  simp only [h1, h2, if_neg h3, if_neg h4, h5, h6, h7, h8, h9]

/-- C18 (failing input): a preferred strip height attribute that is not a
number, here `abc`, is read by `atoi` as 0 and stored as it is; there is no
fallback to 16.  Planning the first page then divides by zero, so neither
`prepare_pdf_page` nor the run has a defined result.  The supported
heights `a,b` become `[0, 0]` in the same way.  Only an absent attribute
gives 16. -/
theorem unparseable_strip_height_is_zero :
    atoi "abc" = 0 ∧
    (read_ppd_attributes ⟨some "abc", some "a,b", none, some "600dpi", none, none⟩
        pdf_info.init).pclm_strip_height_preferred = 0 ∧
    (read_ppd_attributes ⟨some "abc", some "a,b", none, some "600dpi", none, none⟩
        pdf_info.init).pclm_strip_height_supported = [0, 0] ∧
    (read_ppd_attributes ⟨none, none, none, some "600dpi", none, none⟩
        pdf_info.init).pclm_strip_height_preferred = 16 ∧
    prepare_pdf_page Globals.init
        (read_ppd_attributes ⟨some "abc", some "a,b", none, some "600dpi", none, none⟩
          pdf_info.init) 100 20 100 8 8 "" .CUPS_CSPACE_K = none ∧
    main Host.little_endian 6
        (some ⟨some "abc", some "a,b", none, some "600dpi", none, none⟩) true
        [⟨⟨100, 1, 8, 8, 100, "", .CUPS_CSPACE_K, (600, 600)⟩, [List.replicate 100 0]⟩]
      = .undefined := by
  decide

/-- C20 (counterexample): on an empty raster stream the exit code is 1,
but the document writer is run: `close_pdf_file` hands the document, which
has no page, to `QPDFWriter::write`. -/
theorem empty_stream_runs_writer :
    main Host.little_endian 6 (some ⟨none, none, none, some "600dpi", none, none⟩) true []
      = .ok ⟨1, some []⟩ ∧
    ¬ (main Host.little_endian 6 (some ⟨none, none, none, some "600dpi", none, none⟩) true []
      = .ok ⟨1, none⟩) := by
  decide

/-- C20 (amended): for an empty raster stream (zero page headers) the run
yields exit code 1, and `close_pdf_file` runs the document writer on the
empty document; what reaches the output is whatever the writer emits for a
document without pages. -/
theorem empty_stream_exit_code (host : Host) (argc : Nat) (ppd : PPD) (input_opened : Bool)
    (hargs : argc = 6 ∨ (argc = 7 ∧ input_opened = true)) :
    main host argc (some ppd) input_opened [] = .ok ⟨1, some []⟩ ∧
    exit_code ExitResult.code (main host argc (some ppd) input_opened []) = some 1 := by
  have hmain : main host argc (some ppd) input_opened [] = .ok ⟨1, some []⟩ := by
    have h1 : ¬ (argc < 6 ∨ argc > 7) := by omega
    have h2 : ¬ (argc = 7 ∧ (!input_opened) = true) := by
      rcases hargs with h | ⟨_, h⟩
      · omega
      · simp [h]
    unfold main
    simp only [if_neg h1, if_neg h2, page_loop, close_pdf_file]
    rw [finish_page_no_strips _ _ (by
      show (read_ppd_attributes ppd pdf_state.init.info).pclm_num_strips = 0
      rw [read_ppd_attributes_num_strips]; rfl)]
    rfl
  exact ⟨hmain, by rw [hmain]; rfl⟩

/-- Witness for `empty_stream_exit_code`: six arguments and a PPD file
without PCLm attributes. -/
theorem empty_stream_exit_code_witness :
    ((6 : Nat) = 6 ∨ ((6 : Nat) = 7 ∧ true = true)) ∧
    main Host.little_endian 6 (some ⟨none, none, none, none, none, none⟩) true []
      = .ok ⟨1, some []⟩ :=
  ⟨Or.inl rfl,
    (empty_stream_exit_code Host.little_endian 6 ⟨none, none, none, none, none, none⟩ true
      (Or.inl rfl)).1⟩

/-! ## The pipeline driver -/

/-- The page counter counts the headers read. -/
theorem page_loop_count (host : Host) (ras : List RasterPage) :
    ∀ (Page : Int) (g : Globals) (pdf : pdf_state) (r : Int × Globals × pdf_state),
      page_loop host ras Page g pdf = .ok r → r.1 = Page + ras.length := by
  induction ras with
  | nil =>
    intro Page g pdf r h
    simp only [page_loop, Outcome.ok.injEq] at h
    subst h
    simp
  | cons p rest ih =>
    intro Page g pdf r h
    rw [page_loop] at h
    split_ifs at h
    simp only at h
    split at h
    · exact absurd h (by simp)
    · exact absurd h (by simp)
    · exact absurd h (by simp)
    · split at h
      · exact absurd h (by simp)
      · have := ih _ _ _ _ h
        rw [this]
        simp only [List.length_cons]
        push_cast
        ring

theorem main_eq (host : Host) (argc : Nat) (ppd : PPD) (input_opened : Bool)
    (ras : List RasterPage) (hargs : argc = 6 ∨ (argc = 7 ∧ input_opened = true)) :
    main host argc (some ppd) input_opened ras =
      match page_loop host ras 0 { Globals.init with cm_disabled := 1 }
          (pdf_state.configured ppd) with
      | .die msg => .die msg
      | .threw => .threw
      | .undefined => .undefined
      | .ok (Page, _, pdf) =>
        match close_pdf_file host pdf with
        | .die msg => .die msg
        | .threw => .threw
        | .undefined => .undefined
        | .ok closed => .ok ⟨if Page = 0 then 1 else 0, closed.written⟩ := by
  have h1 : ¬ (argc < 6 ∨ argc > 7) := by omega
  have h2 : ¬ (argc = 7 ∧ (!input_opened) = true) := by
    rcases hargs with h | ⟨_, h⟩
    · omega
    · simp [h]
  unfold main
  simp only [if_neg h1, if_neg h2]
  rfl

/-- C19 (amended): for a run whose page loop comes to its end, the page
counter is the number of headers read, and the exit code is 1 exactly
when that counter is 0 or `close_pdf_file` ends the run through `die`;
otherwise it is 0.  In particular it is 1 when zero pages were read, and
0 when at least one page was read and `close_pdf_file` returns. -/
theorem main_exit_code (host : Host) (argc : Nat) (ppd : PPD) (input_opened : Bool)
    (ras : List RasterPage) (hargs : argc = 6 ∨ (argc = 7 ∧ input_opened = true))
    (Page : Int) (g : Globals) (pdf : pdf_state)
    (hloop : page_loop host ras 0 { Globals.init with cm_disabled := 1 }
      (pdf_state.configured ppd) = .ok (Page, g, pdf))
    (hdef : close_pdf_file host pdf ≠ .undefined) :
    Page = ras.length ∧
    (exit_code ExitResult.code (main host argc (some ppd) input_opened ras) = some 0 ∨
      exit_code ExitResult.code (main host argc (some ppd) input_opened ras) = some 1) ∧
    (exit_code ExitResult.code (main host argc (some ppd) input_opened ras) = some 1 ↔
      (ras.length = 0 ∨ ∃ msg, close_pdf_file host pdf = .die msg)) := by
  have hcount : Page = ras.length := by
    have := page_loop_count host ras _ _ _ _ hloop
    simpa using this
  have hzero : Page = 0 ↔ ras.length = 0 := by
    rw [hcount]; exact Int.natCast_eq_zero
  rw [main_eq host argc ppd input_opened ras hargs, hloop]
  simp only
  refine ⟨hcount, ?_⟩
  cases hc : close_pdf_file host pdf with
  | undefined => exact absurd hc hdef
  | threw =>
    unfold close_pdf_file at hc
    split at hc <;> simp at hc
  | die msg =>
    simp [exit_code]
  | ok closed =>
    by_cases h0 : Page = 0
    · have hl : ras.length = 0 := hzero.mp h0
      simp [exit_code, h0, hl]
    · have hl : ¬ ras.length = 0 := fun h => h0 (hzero.mpr h)
      simp [exit_code, h0, hl]

/-- The page loop on a source of exactly one page. -/
theorem page_loop_single {host : Host} {p : RasterPage} {g g1 : Globals}
    {pdf s1 : pdf_state} {info : pdf_info}
    (hadd : add_pdf_page host g pdf 1 p.header.cupsWidth p.header.cupsHeight
      (toInt32 p.header.cupsBitsPerPixel) (toInt32 p.header.cupsBitsPerColor)
      (toInt32 p.header.cupsBytesPerLine) p.header.cupsRenderingIntent p.header.cupsColorSpace
      p.header.HWResolution.1 p.header.HWResolution.2 = .ok (g1, s1))
    (hconv : (convert_raster host g1 p.rows p.header.cupsWidth p.header.cupsHeight
      (toInt32 p.header.cupsBitsPerPixel) (toUnsigned (toInt32 p.header.cupsBytesPerLine))
      s1.info).info = some info) :
    page_loop host [p] 0 g pdf = .ok (1, g1, { s1 with info := info }) := by
  rw [page_loop]
  rw [if_neg (by decide)]
  simp only [zero_add, hadd, hconv]
  rw [page_loop]

/-- A page of one pixel at 1 dpi measures one inch, 72 units, each way. -/
theorem pdf_units_one : pdf_units 1 1 = some 72 := by
  have h := pdf_units_of_mul 1 1 (by decide) (by decide)
  simpa using h

theorem box_extent_72 : box_extent (some 72) = some 72 := by
  have h := box_extent_natCast 72 (by decide)
  simpa using h

/-- The state after `add_pdf_page` and `convert_raster` on the one-pixel
CMYK page, from the start of `main`. -/
theorem page_loop_cmyk_pixel :
    page_loop Host.little_endian [RasterPage.cmyk_pixel] 0
        { Globals.init with cm_disabled := 1 } (pdf_state.configured PPD.plain) =
      .ok (1,
        { colorProfile := none, cm_disabled := 1,
          conversion_function := some .noColorConversion,
          bit_function := some .noBitConversion },
        { info :=
            { read_ppd_attributes PPD.plain pdf_info.init with
              width := 1, height := 1, line_bytes := 4, bpp := 32, bpc := 8,
              pclm_num_strips := 1, pclm_strip_height := [1],
              pclm_strip_data := [some [1, 2, 3, 4]],
              color_space := .CUPS_CSPACE_CMYK }
          pdf := [{ MediaBox := (0, 0, 72, 72), XObject := [], Contents := none }]
          page := some 0
          page_data := none
          page_width := 72
          page_height := 72 }) := by
  have hadd := @add_pdf_page_ok
    (Host.little_endian) ({ Globals.init with cm_disabled := 1 })
    (pdf_state.configured PPD.plain) (pdf_state.configured PPD.plain)
    (1) (1) (1) (32) (8) (4)
    ("") (.CUPS_CSPACE_CMYK) (1) (1)
    (⟨{ colorProfile := none, cm_disabled := 1,
             conversion_function := some .noColorConversion,
             bit_function := some .noBitConversion },
           { read_ppd_attributes PPD.plain pdf_info.init with
              width := 1, height := 1, line_bytes := 4, bpp := 32, bpc := 8,
              pclm_num_strips := 1, pclm_strip_height := [1],
              pclm_strip_data := [none],
              color_space := .CUPS_CSPACE_CMYK }, 0⟩)
    ({ read_ppd_attributes PPD.plain pdf_info.init with
              width := 1, height := 1, line_bytes := 4, bpp := 32, bpc := 8,
              pclm_num_strips := 1, pclm_strip_height := [1],
              pclm_strip_data := [some [0, 0, 0, 0]],
              color_space := .CUPS_CSPACE_CMYK })
    (72) (72) (72) (72)
    (finish_page_no_strips _ _ (by decide)) (by decide) (by decide) (by decide) (by decide)
    pdf_units_one pdf_units_one box_extent_72 box_extent_72
  exact page_loop_single (p := RasterPage.cmyk_pixel) hadd (by decide)

/-- C19 (counterexample): a stream of one CMYK page.  The page loop reads
the page and ends with the page counter at 1, yet the run ends through
`die` inside `close_pdf_file` ("Unable to load strip data"), so the exit
code is 1 although the page counter is not 0. -/
theorem exit_code_one_with_nonzero_page_counter :
    (∃ g pdf, page_loop Host.little_endian [RasterPage.cmyk_pixel] 0
        { Globals.init with cm_disabled := 1 } (pdf_state.configured PPD.plain) =
          .ok (1, g, pdf)) ∧
    main Host.little_endian 6 (some PPD.plain) true [RasterPage.cmyk_pixel] =
      .die "Unable to load strip data" ∧
    exit_code ExitResult.code
      (main Host.little_endian 6 (some PPD.plain) true [RasterPage.cmyk_pixel]) = some 1 := by
  have hmain : main Host.little_endian 6 (some PPD.plain) true [RasterPage.cmyk_pixel] =
      .die "Unable to load strip data" := by
    rw [main_eq _ _ _ _ _ (Or.inl rfl), page_loop_cmyk_pixel]
    decide
  refine ⟨⟨_, _, page_loop_cmyk_pixel⟩, hmain, ?_⟩
  rw [hmain]
  rfl

/-- The state after `add_pdf_page` and `convert_raster` on the one-pixel
gray page, from the start of `main`. -/
theorem page_loop_gray_pixel :
    page_loop Host.little_endian [RasterPage.gray_pixel] 0
        { Globals.init with cm_disabled := 1 } (pdf_state.configured PPD.plain) =
      .ok (1,
        { colorProfile := none, cm_disabled := 1,
          conversion_function := some .noColorConversion,
          bit_function := some .invertBits },
        { info :=
            { read_ppd_attributes PPD.plain pdf_info.init with
              width := 1, height := 1, line_bytes := 1, bpp := 8, bpc := 8,
              pclm_num_strips := 1, pclm_strip_height := [1],
              pclm_strip_data := [some [248]],
              color_space := .CUPS_CSPACE_K }
          pdf := [{ MediaBox := (0, 0, 72, 72), XObject := [], Contents := none }]
          page := some 0
          page_data := none
          page_width := 72
          page_height := 72 }) := by
  have hadd := @add_pdf_page_ok
    (Host.little_endian) ({ Globals.init with cm_disabled := 1 })
    (pdf_state.configured PPD.plain) (pdf_state.configured PPD.plain)
    (1) (1) (1) (8) (8) (1)
    ("") (.CUPS_CSPACE_K) (1) (1)
    (⟨{ colorProfile := none, cm_disabled := 1,
             conversion_function := some .noColorConversion,
             bit_function := some .invertBits },
           { read_ppd_attributes PPD.plain pdf_info.init with
              width := 1, height := 1, line_bytes := 1, bpp := 8, bpc := 8,
              pclm_num_strips := 1, pclm_strip_height := [1],
              pclm_strip_data := [none],
              color_space := .CUPS_CSPACE_K }, 0⟩)
    ({ read_ppd_attributes PPD.plain pdf_info.init with
              width := 1, height := 1, line_bytes := 1, bpp := 8, bpc := 8,
              pclm_num_strips := 1, pclm_strip_height := [1],
              pclm_strip_data := [some [0]],
              color_space := .CUPS_CSPACE_K })
    (72) (72) (72) (72)
    (finish_page_no_strips _ _ (by decide)) (by decide) (by decide) (by decide) (by decide)
    pdf_units_one pdf_units_one box_extent_72 box_extent_72
  exact page_loop_single (p := RasterPage.gray_pixel) hadd (by decide)

/-- Witness of C19 (amended): the one-pixel gray page gives exit code 0. -/
theorem main_exit_code_witness :
    ∃ pdf : pdf_state, close_pdf_file Host.little_endian pdf ≠ .undefined ∧
      ((1 : Int) = ([RasterPage.gray_pixel].length : Nat) ∧
      (exit_code ExitResult.code
          (main Host.little_endian 6 (some PPD.plain) true [RasterPage.gray_pixel]) = some 0 ∨
        exit_code ExitResult.code
          (main Host.little_endian 6 (some PPD.plain) true [RasterPage.gray_pixel]) = some 1) ∧
      (exit_code ExitResult.code
          (main Host.little_endian 6 (some PPD.plain) true [RasterPage.gray_pixel]) = some 1 ↔
        ([RasterPage.gray_pixel].length = 0 ∨
          ∃ msg, close_pdf_file Host.little_endian pdf = .die msg))) :=
  ⟨_, by decide,
    main_exit_code Host.little_endian 6 PPD.plain true [RasterPage.gray_pixel] (Or.inl rfl)
      1 _ _ page_loop_gray_pixel (by decide)⟩

/-- C16 (failing input): the one-pixel gray page, finalized twice.  The
first `finish_page` closes the page and releases the strip buffers but
leaves the strip count at 1, so on the second call neither guard fires:
the strip count is not 0 and the loop over the now empty strip vector
finds no null holder.  `makePclmStrips` is run again and reads strip 0 of
the empty vector, which has no defined result; the same holds for a
second `close_pdf_file`. -/
theorem second_finish_page_reruns_encoder :
    ∃ g s s1,
      page_loop Host.little_endian [RasterPage.gray_pixel] 0
        { Globals.init with cm_disabled := 1 } (pdf_state.configured PPD.plain) =
          .ok (1, g, s) ∧
      finish_page Host.little_endian s = .ok s1 ∧
      s1.info.pclm_num_strips = 1 ∧
      s1.info.pclm_strip_data = [] ∧
      makePclmStrips s1.info.pclm_num_strips s1.info.pclm_strip_data
        s1.info.pclm_compression_method_preferred s1.info.width s1.info.pclm_strip_height
        s1.info.color_space s1.info.bpc = none ∧
      finish_page Host.little_endian s1 = .undefined ∧
      close_pdf_file Host.little_endian s1 = .undefined :=
  ⟨_, _, _, page_loop_gray_pixel, rfl, by decide, by decide, by decide, by decide, by decide⟩

/-- A call of `finish_page` that returns never changes the strip count:
the count is not reset when the strip buffers are released. -/
theorem finish_page_keeps_strip_count (host : Host) (s s1 : pdf_state)
    (h : finish_page host s = .ok s1) :
    s1.info.pclm_num_strips = s.info.pclm_num_strips := by
  unfold finish_page at h
  dsimp only at h
  split_ifs at h
  · simp only [Outcome.ok.injEq] at h; rw [← h]
  · simp only [Outcome.ok.injEq] at h; rw [← h]
  · revert h
    split
    · intro h; exact absurd h (by simp)
    · split_ifs
      · intro h; exact absurd h (by simp)
      · split
        · intro h; exact absurd h (by simp)
        · split
          · intro h; exact absurd h (by simp)
          · split
            · intro h; exact absurd h (by simp)
            · intro h
              simp only [Outcome.ok.injEq] at h
              rw [← h]

/-! ## Opening a page: strip layout and buffers -/

theorem vector_resize_length {α : Type} (v : List α) (n : Nat) (d : α) :
    (vector_resize v n d).length = n := by
  simp only [vector_resize, List.length_append, List.length_take, List.length_replicate]
  omega

/-- What a defined `prepare_pdf_page` leaves in the page record: the
preferred strip height is not zero, and the strips are planned as the loop
of lines 580-585 plans them, with one (null) holder per strip. -/
theorem prepare_pdf_page_layout {g : Globals} {info : pdf_info} {width height bpl bpp bpc : Nat}
    {render_intent : String} {color_space : cups_cspace_t} {r : PrepareResult}
    (h : prepare_pdf_page g info width height bpl bpp bpc render_intent color_space = some r)
    (hH : height < 2 ^ 32) :
    0 < info.pclm_strip_height_preferred ∧
    r.info.height = height ∧
    r.info.pclm_strip_height_preferred = info.pclm_strip_height_preferred ∧
    r.info.pclm_num_strips = height / info.pclm_strip_height_preferred +
      (if height % info.pclm_strip_height_preferred ≠ 0 then 1 else 0) ∧
    r.info.pclm_strip_height = (List.range r.info.pclm_num_strips).map
      (fun i => min info.pclm_strip_height_preferred
        (height - i * info.pclm_strip_height_preferred)) ∧
    r.info.pclm_strip_data.length = r.info.pclm_num_strips := by
  obtain ⟨p, hp, h1, h2, h3, h4, h5, h6⟩ := prepare_pdf_page_plan h
  have hP : 0 < info.pclm_strip_height_preferred := by
    rcases Nat.eq_zero_or_pos info.pclm_strip_height_preferred with h0 | h0
    · simp [register_page, strip_count, h0] at hp
    · exact h0
  obtain ⟨p', hp', q1, q2, q3, q4, q5, q6, q7, q8, q9, q10⟩ :=
    register_page_eq info width height bpl bpp bpc render_intent color_space hP hH
  rw [hp] at hp'
  simp only [Option.some.injEq] at hp'
  subst hp'
  refine ⟨hP, h2.trans q2, h4.trans q7, h3.trans q8, ?_, ?_⟩
  · rw [h5, h3, q9]
  · rw [h6, h3, q10, vector_resize_length]

/-- Lines 649-651: when the strip height vector and the holder vector both
have one entry per strip, every holder gets a buffer of
`line_bytes * pclm_strip_height[i]` bytes, the product taken in
`unsigned`. -/
theorem reserve_strips_eq (info : pdf_info)
    (hh : info.pclm_strip_height.length = info.pclm_num_strips)
    (hd : info.pclm_strip_data.length = info.pclm_num_strips) :
    reserve_strips info = some { info with
      pclm_strip_data := info.pclm_strip_height.map
        fun h => some (Buffer_alloc ((info.line_bytes * h) % UINT_MOD)) } := by
  unfold reserve_strips
  obtain ⟨l, hl⟩ := for_each_index_defined
    (fun i =>
      if i < info.pclm_strip_data.length then
        match info.pclm_strip_height[i]? with
        | none => none
        | some h => some (some (Buffer_alloc ((info.line_bytes * h) % UINT_MOD)))
      else none) info.pclm_num_strips (by
        intro i hi
        have h1 : i < info.pclm_strip_height.length := by omega
        simp only [hd, hi, if_true, List.getElem?_eq_getElem h1]
        exact ⟨_, rfl⟩)
  rw [hl]
  obtain ⟨hlen, hget⟩ := for_each_index_some _ _ _ hl
  have hdrop : info.pclm_strip_data.drop info.pclm_num_strips = [] := by
    rw [List.drop_eq_nil_iff]; omega
  have hl' : l = info.pclm_strip_height.map
      fun h => some (Buffer_alloc ((info.line_bytes * h) % UINT_MOD)) := by
    apply List.ext_getElem?
    intro i
    by_cases hi : i < info.pclm_num_strips
    · have h1 : i < info.pclm_strip_height.length := by omega
      rw [← hget i hi]
      simp only [hd, hi, if_true, List.getElem?_eq_getElem h1, List.getElem?_map,
        Option.map_some']
    · have h1 : l.length ≤ i := by omega
      have h2 : (info.pclm_strip_height.map
        fun h => some (Buffer_alloc ((info.line_bytes * h) % UINT_MOD))).length ≤ i := by
        rw [List.length_map]; omega
      rw [List.getElem?_eq_none h1, List.getElem?_eq_none h2]
  simp only [Option.map_some', hdrop, List.append_nil, hl']

/-- C14: for a page whose normalized row size `line_bytes` is positive,
`add_pdf_page` ends the run with "Page too big" exactly when
`height * line_bytes` exceeds `UINT_MAX`; when it does not, the strip
buffers are allocated, strip `i` with exactly
`pclm_strip_height[i] * line_bytes` zero-initialised bytes, a product below
`2 ^ 32` (no wrap-around), and this is the page record of every page
`add_pdf_page` returns. -/
theorem add_pdf_page_size_check (host : Host) (g : Globals) (s s1 : pdf_state) (pagen : Int)
    (width height : Nat) (bpp bpc bpl : Int) (render_intent : String)
    (color_space : cups_cspace_t) (xdpi ydpi : Nat) (r : PrepareResult)
    (hfin : finish_page host s = .ok s1)
    (hprep : prepare_pdf_page g s1.info width height (toUnsigned bpl) (toUnsigned bpp)
      (toUnsigned bpc) render_intent color_space = some r)
    (hlb : 0 < r.info.line_bytes) (hH : height < 2 ^ 32) :
    (add_pdf_page host g s pagen width height bpp bpc bpl render_intent color_space xdpi ydpi =
        .die "Page too big" ↔ height * r.info.line_bytes > UINT_MAX) ∧
    (¬ height * r.info.line_bytes > UINT_MAX →
      ∃ info, reserve_strips r.info = some info ∧
        info.pclm_strip_height.length = info.pclm_num_strips ∧
        info.pclm_strip_data.length = info.pclm_num_strips ∧
        (∀ i, i < info.pclm_num_strips →
          ∃ h, info.pclm_strip_height[i]? = some h ∧
            h * info.line_bytes < 2 ^ 32 ∧
            info.pclm_strip_data[i]? =
              some (some (List.replicate (h * info.line_bytes) 0))) ∧
        ∀ g1 s2, add_pdf_page host g s pagen width height bpp bpc bpl render_intent
            color_space xdpi ydpi = .ok (g1, s2) → s2.info = info) := by
  obtain ⟨hP, e1, e2, e3, e4, e5⟩ := prepare_pdf_page_layout hprep hH
  have hlb0 : r.info.line_bytes ≠ 0 := by omega
  have hiff : r.info.height > UINT_MAX / r.info.line_bytes ↔
      height * r.info.line_bytes > UINT_MAX := by
    rw [e1]
    constructor
    · intro h
      exact (Nat.div_lt_iff_lt_mul hlb).mp h
    · intro h
      exact (Nat.div_lt_iff_lt_mul hlb).mpr h
  have hhl : r.info.pclm_strip_height.length = r.info.pclm_num_strips := by
    rw [e4, List.length_map, List.length_range]
  have hres := reserve_strips_eq r.info hhl e5
  constructor
  · unfold add_pdf_page
    simp only [hfin, hprep, if_neg hlb0]
    by_cases hbig : r.info.height > UINT_MAX / r.info.line_bytes
    · simp only [if_pos hbig]
      exact ⟨fun _ => hiff.mp hbig, fun _ => trivial⟩
    · simp only [if_neg hbig, hres]
      constructor
      · intro h
        exfalso
        revert h
        split
        · split
          · intro h; exact absurd h (by simp)
          · intro h; exact absurd h (by simp)
        · intro h; exact absurd h (by simp)
      · intro h
        exact absurd (hiff.mpr h) hbig
  · intro hsmall
    have hbig : ¬ r.info.height > UINT_MAX / r.info.line_bytes := fun h => hsmall (hiff.mp h)
    refine ⟨_, hres, ?_, ?_, ?_, ?_⟩
    · exact hhl
    · simp only [List.length_map]
      exact hhl
    · intro i hi
      simp only at hi
      have hi' : i < r.info.pclm_strip_height.length := by omega
      refine ⟨r.info.pclm_strip_height[i], List.getElem?_eq_getElem hi', ?_, ?_⟩
      all_goals
        have hle : r.info.pclm_strip_height[i] ≤ height := by
          have hi2 := hi'
          simp only [e4, List.length_map, List.length_range] at hi2
          simp only [e4, List.getElem_map, List.getElem_range]
          omega
        have hprod : r.info.pclm_strip_height[i] * r.info.line_bytes < 2 ^ 32 := by
          have h1 : r.info.pclm_strip_height[i] * r.info.line_bytes ≤
              height * r.info.line_bytes := Nat.mul_le_mul_right _ hle
          have h2 : height * r.info.line_bytes ≤ UINT_MAX := by omega
          have h3 : UINT_MAX < 2 ^ 32 := by decide
          omega
      · exact hprod
      · simp only [List.getElem?_map, List.getElem?_eq_getElem hi', Option.map_some',
          Buffer_alloc]
        rw [Nat.mul_comm r.info.line_bytes, Nat.mod_eq_of_lt (by simpa [UINT_MOD] using hprod)]
    · intro g1 s2 hok
      unfold add_pdf_page at hok
      simp only [hfin, hprep, if_neg hlb0, if_neg hbig, hres] at hok
      revert hok
      split
      · split
        · intro h
          simp only [Outcome.ok.injEq, Prod.mk.injEq] at h
          rw [← h.2]
        · intro h; exact absurd h (by simp)
      · intro h; exact absurd h (by simp)

/-- Witness of C14: the one-pixel gray page at the start of `main`. -/
theorem add_pdf_page_size_check_witness :
    ∃ r : PrepareResult,
      finish_page Host.little_endian (pdf_state.configured PPD.plain) =
        .ok (pdf_state.configured PPD.plain) ∧
      prepare_pdf_page { Globals.init with cm_disabled := 1 }
        (pdf_state.configured PPD.plain).info 1 1 (toUnsigned 1) (toUnsigned 8) (toUnsigned 8) ""
        .CUPS_CSPACE_K = some r ∧
      0 < r.info.line_bytes ∧ 1 < 2 ^ 32 ∧
      (add_pdf_page Host.little_endian { Globals.init with cm_disabled := 1 }
          (pdf_state.configured PPD.plain) 1 1 1 8 8 1 "" .CUPS_CSPACE_K 1 1 =
          .die "Page too big" ↔ 1 * r.info.line_bytes > UINT_MAX) ∧
      (¬ 1 * r.info.line_bytes > UINT_MAX →
        ∃ info, reserve_strips r.info = some info ∧
          info.pclm_strip_height.length = info.pclm_num_strips ∧
          info.pclm_strip_data.length = info.pclm_num_strips ∧
          (∀ i, i < info.pclm_num_strips →
            ∃ h, info.pclm_strip_height[i]? = some h ∧
              h * info.line_bytes < 2 ^ 32 ∧
              info.pclm_strip_data[i]? =
                some (some (List.replicate (h * info.line_bytes) 0))) ∧
          ∀ g1 s2, add_pdf_page Host.little_endian { Globals.init with cm_disabled := 1 }
            (pdf_state.configured PPD.plain) 1 1 1 8 8 1 "" .CUPS_CSPACE_K 1 1 =
              .ok (g1, s2) → s2.info = info) :=
  ⟨⟨{ colorProfile := none, cm_disabled := 1,
      conversion_function := some .noColorConversion,
      bit_function := some .invertBits },
    { read_ppd_attributes PPD.plain pdf_info.init with
      width := 1, height := 1, line_bytes := 1, bpp := 8, bpc := 8,
      pclm_num_strips := 1, pclm_strip_height := [1],
      pclm_strip_data := [none],
      color_space := .CUPS_CSPACE_K }, 0⟩,
    by decide, by decide, by decide, by decide,
    add_pdf_page_size_check Host.little_endian { Globals.init with cm_disabled := 1 }
      (pdf_state.configured PPD.plain) (pdf_state.configured PPD.plain) 1 1 1 8 8 1 ""
      .CUPS_CSPACE_K 1 1 _ (by decide) (by decide) (by decide) (by decide)⟩

/-! ## Row ingest into the strip buffers -/

/-- On an opened page, row `r` lies in strip `r / P`, which has a buffer
that holds the row at offset `(r % P) * line_bytes`. -/
theorem page_open_strip_of_row {info : pdf_info} (hopen : page_open info) {r : Nat}
    (hr : r < info.height) :
    r / info.pclm_strip_height_preferred < info.pclm_num_strips ∧
    ∃ buf, info.pclm_strip_data[r / info.pclm_strip_height_preferred]? = some (some buf) ∧
      buf.length = min info.pclm_strip_height_preferred
        (info.height - r / info.pclm_strip_height_preferred * info.pclm_strip_height_preferred)
          * info.line_bytes ∧
      (r % info.pclm_strip_height_preferred) * info.line_bytes + info.line_bytes ≤ buf.length ∧
      (r % info.pclm_strip_height_preferred) * info.line_bytes + info.line_bytes ≤ UINT_MAX := by
  obtain ⟨hP, hH, hsize, hN, hplan, hdata⟩ := hopen
  obtain ⟨f1, f2, f3, f4⟩ := strip_count_facts info.height info.pclm_strip_height_preferred hP
  rw [← hN] at f1 f2
  have hdm := Nat.div_add_mod r info.pclm_strip_height_preferred
  have hmod := Nat.mod_lt r hP
  have hiP : r / info.pclm_strip_height_preferred * info.pclm_strip_height_preferred ≤ r := by
    rw [Nat.mul_comm]; omega
  have hi : r / info.pclm_strip_height_preferred < info.pclm_num_strips := by
    by_contra hcon
    have h1 : info.pclm_num_strips * info.pclm_strip_height_preferred ≤
        r / info.pclm_strip_height_preferred * info.pclm_strip_height_preferred :=
      Nat.mul_le_mul_right _ (by omega)
    omega
  refine ⟨hi, ?_⟩
  have hlen : info.pclm_strip_height.length = info.pclm_num_strips := by
    rw [hplan, List.length_map, List.length_range]
  have hget := congrArg (fun l => l[r / info.pclm_strip_height_preferred]?) hdata
  simp only [List.getElem?_map] at hget
  have hh : info.pclm_strip_height[r / info.pclm_strip_height_preferred]? =
      some (min info.pclm_strip_height_preferred
        (info.height - r / info.pclm_strip_height_preferred *
          info.pclm_strip_height_preferred)) := by
    rw [hplan, List.getElem?_map, List.getElem?_range hi]
    rfl
  rw [hh] at hget
  simp only [Option.map_some'] at hget
  cases hd : info.pclm_strip_data[r / info.pclm_strip_height_preferred]? with
  | none => rw [hd] at hget; simp at hget
  | some holder =>
    rw [hd] at hget
    simp only [Option.map_some', Option.some.injEq] at hget
    cases holder with
    | none => simp at hget
    | some buf =>
      simp only [Option.map_some', Option.some.injEq] at hget
      refine ⟨buf, rfl, hget, ?_, ?_⟩
      all_goals
        have hrow : r % info.pclm_strip_height_preferred + 1 ≤
            min info.pclm_strip_height_preferred
              (info.height - r / info.pclm_strip_height_preferred *
                info.pclm_strip_height_preferred) := by
          rw [Nat.mul_comm] at hiP ⊢
          omega
        have hmul := Nat.mul_le_mul_right info.line_bytes hrow
        rw [Nat.add_mul, Nat.one_mul] at hmul
      · rw [hget]; exact hmul
      · have hle : min info.pclm_strip_height_preferred
            (info.height - r / info.pclm_strip_height_preferred *
              info.pclm_strip_height_preferred) ≤ info.height := by omega
        have := Nat.mul_le_mul_right info.line_bytes hle
        omega

/-- The value `pdf_set_line` returns for a row of an opened page. -/
theorem pdf_set_line_eq {info : pdf_info} (hopen : page_open info) {r : Nat}
    (hr : r < info.height) {line : List Nat} (hline : info.line_bytes ≤ line.length)
    {buf : List Nat}
    (hbuf : info.pclm_strip_data[r / info.pclm_strip_height_preferred]? = some (some buf)) :
    pdf_set_line info r line = some { info with
      pclm_strip_data := info.pclm_strip_data.set (r / info.pclm_strip_height_preferred)
        (some (buf.take (r % info.pclm_strip_height_preferred * info.line_bytes) ++
          line.take info.line_bytes ++
          buf.drop (r % info.pclm_strip_height_preferred * info.line_bytes +
            info.line_bytes))) } := by
  obtain ⟨_, buf0, hbuf0, _, hfit, hmax⟩ := page_open_strip_of_row hopen hr
  rw [hbuf] at hbuf0
  simp only [Option.some.injEq] at hbuf0
  subst hbuf0
  obtain ⟨hP, hH, _⟩ := hopen
  have hdm := Nat.div_add_mod r info.pclm_strip_height_preferred
  have hmod := Nat.mod_lt r hP
  have hstrip : (r - r / info.pclm_strip_height_preferred * info.pclm_strip_height_preferred)
      % UINT_MOD = r % info.pclm_strip_height_preferred := by
    have h1 : r - r / info.pclm_strip_height_preferred * info.pclm_strip_height_preferred =
        r % info.pclm_strip_height_preferred := by
      rw [Nat.mul_comm]; omega
    rw [h1]
    apply Nat.mod_eq_of_lt
    have : UINT_MOD = 2 ^ 32 := rfl
    omega
  have hoff : (r % info.pclm_strip_height_preferred * info.line_bytes) % UINT_MOD =
      r % info.pclm_strip_height_preferred * info.line_bytes := by
    apply Nat.mod_eq_of_lt
    have h1 : UINT_MOD = UINT_MAX + 1 := rfl
    omega
  unfold pdf_set_line
  rw [if_neg (by omega), if_neg (by omega)]
  simp only [hstrip, hoff, hbuf]
  rw [if_pos ⟨hfit, hline⟩]

/-- A row written by `pdf_set_line` leaves the page opened: no buffer
changes its size. -/
theorem pdf_set_line_page_open {info info1 : pdf_info} (hopen : page_open info) {r : Nat}
    (hr : r < info.height) {line : List Nat} (hline : info.line_bytes ≤ line.length)
    (h : pdf_set_line info r line = some info1) :
    page_open info1 ∧ info1.height = info.height ∧ info1.line_bytes = info.line_bytes ∧
      info1.bpc = info.bpc := by
  obtain ⟨hi, buf, hbuf, hlen, hfit, hmax⟩ := page_open_strip_of_row hopen hr
  rw [pdf_set_line_eq hopen hr hline hbuf] at h
  simp only [Option.some.injEq] at h
  subst h
  refine ⟨?_, rfl, rfl, rfl⟩
  obtain ⟨hP, hH, hsize, hN, hplan, hdata⟩ := hopen
  refine ⟨hP, hH, hsize, hN, hplan, ?_⟩
  simp only
  rw [← hdata]
  apply List.ext_getElem?
  intro j
  simp only [List.getElem?_map, List.getElem?_set]
  by_cases hj : r / info.pclm_strip_height_preferred = j
  · subst hj
    have hlt : r / info.pclm_strip_height_preferred < info.pclm_strip_data.length := by
      by_contra hcon
      rw [List.getElem?_eq_none (by omega)] at hbuf
      simp at hbuf
    simp only [if_true, hlt, hbuf, Option.map_some', List.length_append, List.length_take,
      List.length_drop]
    congr 2
    omega
  · simp only [if_neg hj]

/-- C11: on an opened page (preferred strip height `P > 0`), for every
row index `r` below the page height and every row of at least
`line_bytes` bytes, `pdf_set_line` returns, and the page it leaves differs
from the one it was given only in the buffer of strip `r / P`: that
buffer keeps its size, its `line_bytes` bytes from offset
`(r % P) * line_bytes` on are the first `line_bytes` bytes of the row,
and every other byte of it, like every other strip holder, is
unchanged. -/
theorem pdf_set_line_copies_row (info : pdf_info) (r : Nat) (line : List Nat)
    (hopen : page_open info) (hr : r < info.height)
    (hline : info.line_bytes ≤ line.length) :
    ∃ buf buf1,
      info.pclm_strip_data[r / info.pclm_strip_height_preferred]? = some (some buf) ∧
      pdf_set_line info r line = some { info with
        pclm_strip_data := info.pclm_strip_data.set (r / info.pclm_strip_height_preferred)
          (some buf1) } ∧
      buf1.length = buf.length ∧
      r % info.pclm_strip_height_preferred * info.line_bytes + info.line_bytes ≤ buf.length ∧
      (∀ j, j < info.line_bytes →
        buf1[r % info.pclm_strip_height_preferred * info.line_bytes + j]? = (line)[j]?) ∧
      (∀ k, k < r % info.pclm_strip_height_preferred * info.line_bytes ∨
          r % info.pclm_strip_height_preferred * info.line_bytes + info.line_bytes ≤ k →
        buf1[k]? = buf[k]?) ∧
      (∀ j, j ≠ r / info.pclm_strip_height_preferred →
        (info.pclm_strip_data.set (r / info.pclm_strip_height_preferred) (some buf1))[j]? =
          info.pclm_strip_data[j]?) := by
  obtain ⟨hi, buf, hbuf, hlen, hfit, hmax⟩ := page_open_strip_of_row hopen hr
  refine ⟨buf, _, hbuf, pdf_set_line_eq hopen hr hline hbuf, ?_, hfit, ?_, ?_, ?_⟩
  · simp only [List.length_append, List.length_take, List.length_drop]
    omega
  · intro j hj
    have h1 : (List.take (r % info.pclm_strip_height_preferred * info.line_bytes) buf).length =
        r % info.pclm_strip_height_preferred * info.line_bytes := by
      rw [List.length_take]; omega
    have h2 : (List.take info.line_bytes line).length = info.line_bytes := by
      rw [List.length_take]; omega
    rw [List.append_assoc, List.getElem?_append_right (by omega), h1, Nat.add_sub_cancel_left,
      List.getElem?_append_left (by omega), List.getElem?_take_of_lt hj]
  · intro k hk
    have h1 : (List.take (r % info.pclm_strip_height_preferred * info.line_bytes) buf).length =
        r % info.pclm_strip_height_preferred * info.line_bytes := by
      rw [List.length_take]; omega
    have h2 : (List.take info.line_bytes line).length = info.line_bytes := by
      rw [List.length_take]; omega
    rcases hk with hk | hk
    · rw [List.append_assoc, List.getElem?_append_left (by omega), List.getElem?_take_of_lt hk]
    · rw [List.getElem?_append_right (by rw [List.length_append]; omega), List.length_append,
        h1, h2, List.getElem?_drop]
      congr 1
      omega
  · intro j hj
    rw [List.getElem?_set_ne (Ne.symm hj)]

/-- The steps behind a page that `add_pdf_page` returns. -/
theorem add_pdf_page_steps {host : Host} {g g1 : Globals} {s s2 : pdf_state} {pagen : Int}
    {width height : Nat} {bpp bpc bpl : Int} {render_intent : String}
    {color_space : cups_cspace_t} {xdpi ydpi : Nat}
    (h : add_pdf_page host g s pagen width height bpp bpc bpl render_intent color_space
      xdpi ydpi = .ok (g1, s2)) :
    ∃ s1 r pw ph x2 y2,
      finish_page host s = .ok s1 ∧
      prepare_pdf_page g s1.info width height (toUnsigned bpl) (toUnsigned bpp)
        (toUnsigned bpc) render_intent color_space = some r ∧
      r.info.line_bytes ≠ 0 ∧
      ¬ r.info.height > UINT_MAX / r.info.line_bytes ∧
      reserve_strips r.info = some s2.info ∧
      pdf_units s2.info.width xdpi = some pw ∧ pdf_units s2.info.height ydpi = some ph ∧
      box_extent (some pw) = some x2 ∧ box_extent (some ph) = some y2 ∧
      g1 = r.globals ∧
      s2.pdf = s1.pdf ++ [{ MediaBox := (0, 0, x2, y2), XObject := [], Contents := none }] ∧
      s2.page = some s1.pdf.length := by
  unfold add_pdf_page at h
  cases h1 : finish_page host s with
  | die msg => rw [h1] at h; simp at h
  | threw => rw [h1] at h; simp at h
  | undefined => rw [h1] at h; simp at h
  | ok s1 =>
    rw [h1] at h
    simp only at h
    cases h2 : prepare_pdf_page g s1.info width height (toUnsigned bpl) (toUnsigned bpp)
        (toUnsigned bpc) render_intent color_space with
    | none => rw [h2] at h; simp at h
    | some r =>
      rw [h2] at h
      simp only at h
      by_cases h3 : r.info.line_bytes = 0
      · rw [if_pos h3] at h; simp at h
      · rw [if_neg h3] at h
        by_cases h4 : r.info.height > UINT_MAX / r.info.line_bytes
        · rw [if_pos h4] at h; simp at h
        · rw [if_neg h4] at h
          cases h5 : reserve_strips r.info with
          | none => rw [h5] at h; simp at h
          | some info =>
            rw [h5] at h
            simp only at h
            cases h6 : pdf_units info.width xdpi with
            | none => rw [h6] at h; simp at h
            | some pw =>
              cases h7 : pdf_units info.height ydpi with
              | none => rw [h6, h7] at h; simp at h
              | some ph =>
                rw [h6, h7] at h
                simp only at h
                cases h8 : box_extent (some pw) with
                | none => rw [h8] at h; simp at h
                | some x2 =>
                  cases h9 : box_extent (some ph) with
                  | none => rw [h8, h9] at h; simp at h
                  | some y2 =>
                    rw [h8, h9] at h
                    simp only [Outcome.ok.injEq, Prod.mk.injEq] at h
                    obtain ⟨hg, hs⟩ := h
                    subst hs
                    exact ⟨s1, r, pw, ph, x2, y2, rfl, h2, h3, h4, h5, h6, h7, h8, h9, hg.symm,
                      rfl, rfl⟩

/-- Every page that `add_pdf_page` returns is opened. -/
theorem add_pdf_page_page_open {host : Host} {g g1 : Globals} {s s2 : pdf_state} {pagen : Int}
    {width height : Nat} {bpp bpc bpl : Int} {render_intent : String}
    {color_space : cups_cspace_t} {xdpi ydpi : Nat}
    (h : add_pdf_page host g s pagen width height bpp bpc bpl render_intent color_space
      xdpi ydpi = .ok (g1, s2)) (hH : height < 2 ^ 32) :
    page_open s2.info ∧ s2.info.height = height := by
  obtain ⟨s1, r, pw, ph, x2, y2, h1, h2, h3, h4, h5, -⟩ := add_pdf_page_steps h
  obtain ⟨hP, e1, e2, e3, e4, e5⟩ := prepare_pdf_page_layout h2 hH
  have hhl : r.info.pclm_strip_height.length = r.info.pclm_num_strips := by
    rw [e4, List.length_map, List.length_range]
  rw [reserve_strips_eq r.info hhl e5] at h5
  simp only [Option.some.injEq] at h5
  rw [← h5]
  refine ⟨⟨?_, ?_, ?_, ?_, ?_, ?_⟩, e1⟩
  · simp only [e2]; exact hP
  · simp only [e1]; exact hH
  · simp only
    have hlb : 0 < r.info.line_bytes := Nat.pos_of_ne_zero h3
    have := (Nat.le_div_iff_mul_le hlb).mp (Nat.le_of_not_gt h4)
    exact this
  · simp only [e1, e2]; exact e3
  · simp only [e1, e2]; exact e4
  · simp only [List.map_map]
    apply List.map_congr_left
    intro hgt hmem
    simp only [Function.comp, Option.map_some', Buffer_alloc, List.length_replicate]
    have hle : hgt ≤ height := by
      rw [e4] at hmem
      simp only [List.mem_map, List.mem_range] at hmem
      obtain ⟨i, _, rfl⟩ := hmem
      omega
    have hlb : 0 < r.info.line_bytes := Nat.pos_of_ne_zero h3
    have hsz := (Nat.le_div_iff_mul_le hlb).mp (Nat.le_of_not_gt h4)
    rw [e1] at hsz
    have h1 : hgt * r.info.line_bytes ≤ height * r.info.line_bytes :=
      Nat.mul_le_mul_right _ hle
    have h2 : UINT_MOD = UINT_MAX + 1 := rfl
    rw [Nat.mul_comm r.info.line_bytes, Nat.mod_eq_of_lt (by omega)]

/-- Witness of C11: row 17 of a page of 20 rows of 4 bytes, strips of 16
and 4 rows, as `add_pdf_page` opens it at program start. -/
theorem pdf_set_line_copies_row_witness :
    ∃ info, opened_page 4 20 4 8 8 .CUPS_CSPACE_K = some info ∧
      page_open info ∧ 17 < info.height ∧ info.line_bytes ≤ [1, 2, 3, 4].length ∧
      ∃ buf buf1,
        info.pclm_strip_data[17 / info.pclm_strip_height_preferred]? = some (some buf) ∧
        pdf_set_line info 17 [1, 2, 3, 4] = some { info with
          pclm_strip_data := info.pclm_strip_data.set (17 / info.pclm_strip_height_preferred)
            (some buf1) } ∧
        buf1.length = buf.length ∧
        17 % info.pclm_strip_height_preferred * info.line_bytes + info.line_bytes ≤
          buf.length ∧
        (∀ j, j < info.line_bytes →
          buf1[17 % info.pclm_strip_height_preferred * info.line_bytes + j]? =
            [1, 2, 3, 4][j]?) ∧
        (∀ k, k < 17 % info.pclm_strip_height_preferred * info.line_bytes ∨
            17 % info.pclm_strip_height_preferred * info.line_bytes + info.line_bytes ≤ k →
          buf1[k]? = buf[k]?) ∧
        (∀ j, j ≠ 17 / info.pclm_strip_height_preferred →
          (info.pclm_strip_data.set (17 / info.pclm_strip_height_preferred) (some buf1))[j]? =
            info.pclm_strip_data[j]?) :=
  ⟨{ pdf_info.init with
      width := 4, height := 20, line_bytes := 4, bpp := 8, bpc := 8,
      pclm_num_strips := 2, pclm_strip_height := [16, 4],
      pclm_strip_data := [some (List.replicate 64 0), some (List.replicate 16 0)] },
    by decide, by decide, by decide, by decide,
    pdf_set_line_copies_row _ 17 [1, 2, 3, 4] (by decide) (by decide) (by decide)⟩

theorem pdf_units_zero : pdf_units 0 1 = some 0 := by
  have h := pdf_units_of_mul 1 0 (by decide) (by decide)
  simpa using h

theorem box_extent_zero : box_extent (some 0) = some 0 := by
  have h := box_extent_natCast 0 (by decide)
  simpa using h

/-- The page `add_pdf_page` opens for a header with a page height of
zero: no strips at all. -/
theorem add_pdf_page_no_rows :
    add_pdf_page Host.little_endian { Globals.init with cm_disabled := 1 }
        (pdf_state.configured PPD.plain) 1 1 0 8 8 1 "" .CUPS_CSPACE_K 1 1 =
      .ok ({ colorProfile := none, cm_disabled := 1,
             conversion_function := some .noColorConversion,
             bit_function := some .invertBits },
        { info :=
            { read_ppd_attributes PPD.plain pdf_info.init with
              width := 1, height := 0, line_bytes := 1, bpp := 8, bpc := 8,
              pclm_num_strips := 0, pclm_strip_height := [],
              pclm_strip_data := [],
              color_space := .CUPS_CSPACE_K }
          pdf := [{ MediaBox := (0, 0, 72, 0), XObject := [], Contents := none }]
          page := some 0
          page_data := none
          page_width := 72
          page_height := 0 }) :=
  @add_pdf_page_ok
    (Host.little_endian) ({ Globals.init with cm_disabled := 1 })
    (pdf_state.configured PPD.plain) (pdf_state.configured PPD.plain)
    (1) (1) (0) (8) (8) (1)
    ("") (.CUPS_CSPACE_K) (1) (1)
    (⟨{ colorProfile := none, cm_disabled := 1,
             conversion_function := some .noColorConversion,
             bit_function := some .invertBits },
           { read_ppd_attributes PPD.plain pdf_info.init with
              width := 1, height := 0, line_bytes := 1, bpp := 8, bpc := 8,
              pclm_num_strips := 0, pclm_strip_height := [],
              pclm_strip_data := [],
              color_space := .CUPS_CSPACE_K }, 0⟩)
    ({ read_ppd_attributes PPD.plain pdf_info.init with
              width := 1, height := 0, line_bytes := 1, bpp := 8, bpc := 8,
              pclm_num_strips := 0, pclm_strip_height := [],
              pclm_strip_data := [],
              color_space := .CUPS_CSPACE_K })
    (72) (0) (72) (0)
    (finish_page_no_strips _ _ (by decide)) (by decide) (by decide) (by decide) (by decide)
    pdf_units_one pdf_units_zero box_extent_72 box_extent_zero

/-- The page loop on a source whose first page cannot be ingested. -/
theorem page_loop_single_undefined {host : Host} {p : RasterPage} {rest : List RasterPage}
    {g g1 : Globals} {pdf s1 : pdf_state}
    (hadd : add_pdf_page host g pdf 1 p.header.cupsWidth p.header.cupsHeight
      (toInt32 p.header.cupsBitsPerPixel) (toInt32 p.header.cupsBitsPerColor)
      (toInt32 p.header.cupsBytesPerLine) p.header.cupsRenderingIntent p.header.cupsColorSpace
      p.header.HWResolution.1 p.header.HWResolution.2 = .ok (g1, s1))
    (hconv : (convert_raster host g1 p.rows p.header.cupsWidth p.header.cupsHeight
      (toInt32 p.header.cupsBitsPerPixel) (toUnsigned (toInt32 p.header.cupsBytesPerLine))
      s1.info).info = none) :
    page_loop host (p :: rest) 0 g pdf = .undefined := by
  rw [page_loop]
  rw [if_neg (by decide)]
  simp only [zero_add, hadd, hconv]

/-- C15 (failing input): a page of height 0.  `add_pdf_page` opens it with
no strips.  The `do ... while` loop of `convert_raster` runs its body
before the first test of `cur_line < height`: it reads from the raster
source (taking a row if the source has one) and calls `pdf_set_line` with
row index 0, although no row index is below the height.  That call passes
the guard `line_n > height` and indexes strip 0 of an empty strip vector,
so the call, and with it the run, has no defined result. -/
theorem convert_raster_height_zero_runs_body :
    ∃ g1 s2,
      add_pdf_page Host.little_endian { Globals.init with cm_disabled := 1 }
        (pdf_state.configured PPD.plain) 1 1 0 8 8 1 "" .CUPS_CSPACE_K 1 1 = .ok (g1, s2) ∧
      s2.info.height = 0 ∧ s2.info.pclm_strip_data = [] ∧
      (convert_raster Host.little_endian g1 [] 1 0 8 1 s2.info).calls = [0] ∧
      (convert_raster Host.little_endian g1 [] 1 0 8 1 s2.info).info = none ∧
      (convert_raster Host.little_endian g1 [[7]] 1 0 8 1 s2.info).reads = 1 ∧
      (convert_raster Host.little_endian g1 [[7]] 1 0 8 1 s2.info).calls = [0] ∧
      pdf_set_line s2.info 0 [248] = none ∧
      main Host.little_endian 6 (some PPD.plain) true [RasterPage.no_rows] = .undefined := by
  refine ⟨_, _, add_pdf_page_no_rows, by decide, by decide, by decide, by decide, by decide,
    by decide, by decide, ?_⟩
  rw [main_eq _ _ _ _ _ (Or.inl rfl),
    page_loop_single_undefined (p := RasterPage.no_rows) add_pdf_page_no_rows (by decide)]

/-! ## The row loop of `convert_raster` on an opened page -/

theorem cupsRasterReadPixels_length (rows : List (List Nat)) (PixelBuffer : List Nat)
    (bpl : Nat) (h : PixelBuffer.length = bpl) :
    (cupsRasterReadPixels rows PixelBuffer bpl).1.length = bpl ∧
    rows.length - (cupsRasterReadPixels rows PixelBuffer bpl).2.length = min 1 rows.length ∧
    (cupsRasterReadPixels rows PixelBuffer bpl).2 = rows.drop 1 := by
  cases rows with
  | nil => exact ⟨h, rfl, rfl⟩
  | cons row rest =>
    refine ⟨?_, ?_, ?_⟩
    · simp only [cupsRasterReadPixels, List.length_append, List.length_take, List.length_drop]
      omega
    · simp only [cupsRasterReadPixels, List.length_cons]
      omega
    · simp only [cupsRasterReadPixels, List.drop_succ_cons, List.drop_zero]

theorem swap_pairs_even : ∀ l : List Nat, Even l.length →
    ∃ r, swap_pairs l = some r ∧ r.length = l.length
  | [], _ => ⟨[], rfl, rfl⟩
  | [_], h => absurd h (by simp)
  | a :: b :: rest, h => by
    have h1 : Even rest.length := by
      simp only [List.length_cons] at h
      rcases h with ⟨k, hk⟩
      exact ⟨k - 1, by omega⟩
    obtain ⟨r, hr, hl⟩ := swap_pairs_even rest h1
    exact ⟨b :: a :: r, by simp [swap_pairs, hr], by simp [hl]⟩

theorem bitFunction_call_length (bf : bitFunction) (PixelBuffer : List Nat) (bpl : Nat)
    (h : PixelBuffer.length = bpl) :
    ∃ out, bf.call PixelBuffer bpl = some out ∧ out.length = bpl := by
  cases bf with
  | invertBits =>
    refine ⟨(PixelBuffer.take bpl).map (fun b => 2 ^ 8 - 1 - b % 2 ^ 8) ++
      PixelBuffer.drop bpl, ?_, ?_⟩
    · simp only [bitFunction.call, invertBits]
      rw [if_pos (by omega)]
    · simp only [List.length_append, List.length_map, List.length_take, List.length_drop]
      omega
  | noBitConversion => exact ⟨PixelBuffer, rfl, h⟩

/-- The loop of `convert_raster` entered at row `cur_line` of an opened
page with rows still to come: with enough iterations allowed it ends, and
it has called `pdf_set_line` for `cur_line`, ..., `height - 1` in this
order, having asked the raster source for one row each time. -/
theorem convert_raster_loop_calls (host : Host) (g : Globals) (width height bpl : Nat)
    (bf : bitFunction) (hbit : g.bit_function = some bf)
    (hconv : g.conversion_function = some .noColorConversion) :
    ∀ (n fuel cur_line : Nat) (PixelBuffer : List Nat) (rows : List (List Nat))
      (info : pdf_info) (calls : List Nat) (reads : Nat),
      page_open info → info.height = height → info.line_bytes ≤ bpl →
      (host.big_endian = true ∨ info.bpc ≠ 16 ∨ Even bpl) →
      PixelBuffer.length = bpl → cur_line + n + 1 = height → n ≤ fuel →
      ∃ info1,
        (convert_raster_loop host g width height bpl fuel cur_line PixelBuffer rows info
          calls reads).info = some info1 ∧
        page_open info1 ∧
        (convert_raster_loop host g width height bpl fuel cur_line PixelBuffer rows info
          calls reads).calls = calls ++ List.range' cur_line (n + 1) ∧
        (convert_raster_loop host g width height bpl fuel cur_line PixelBuffer rows info
          calls reads).reads = reads + min (n + 1) rows.length ∧
        (convert_raster_loop host g width height bpl fuel cur_line PixelBuffer rows info
          calls reads).rest = rows.drop (n + 1) := by
  intro n
  induction n with
  | zero =>
    intro fuel cur_line PixelBuffer rows info calls reads hopen hH hlb hsw hpb hcur hfuel
    obtain ⟨r1, r2, r3⟩ := cupsRasterReadPixels_length rows PixelBuffer bpl hpb
    have hswap : ∃ pb, (if (!host.big_endian && decide (info.bpc = 16)) = true then
        swap_pairs (cupsRasterReadPixels rows PixelBuffer bpl).1
        else some (cupsRasterReadPixels rows PixelBuffer bpl).1) = some pb ∧ pb.length = bpl := by
      split_ifs with hc
      · have hev : Even bpl := by
          rcases hsw with h | h | h
          · simp [h] at hc
          · simp [h] at hc
          · exact h
        obtain ⟨r, hr, hl⟩ := swap_pairs_even _ (r1.symm ▸ hev)
        exact ⟨r, hr, hl.trans r1⟩
      · exact ⟨_, rfl, r1⟩
    obtain ⟨pb, hpb1, hpb2⟩ := hswap
    obtain ⟨out, hout, houtl⟩ := bitFunction_call_length bf pb bpl hpb2
    have hr : cur_line < info.height := by omega
    have hline : info.line_bytes ≤ out.length := by omega
    obtain ⟨hi, buf, hbuf, -⟩ := page_open_strip_of_row hopen hr
    have hset := pdf_set_line_eq hopen hr hline hbuf
    have hopen1 := (pdf_set_line_page_open hopen hr hline hset).1
    have hlt : info.height < 2 ^ 32 := hopen.2.1
    have hnext : (cur_line + 1) % UINT_MOD = cur_line + 1 := by
      apply Nat.mod_eq_of_lt
      have : UINT_MOD = 2 ^ 32 := rfl
      omega
    have hend : ¬ cur_line + 1 < height := by omega
    refine ⟨_, ?_, hopen1, ?_, ?_, ?_⟩
    all_goals
      rw [convert_raster_loop]
      simp only [hpb1, hbit, hout, hconv, convertFunction.call, hset, hnext, if_neg hend]
    · simp [List.range']
    · rw [r2]
    · exact r3
  | succ n ih =>
    intro fuel cur_line PixelBuffer rows info calls reads hopen hH hlb hsw hpb hcur hfuel
    obtain ⟨r1, r2, r3⟩ := cupsRasterReadPixels_length rows PixelBuffer bpl hpb
    have hswap : ∃ pb, (if (!host.big_endian && decide (info.bpc = 16)) = true then
        swap_pairs (cupsRasterReadPixels rows PixelBuffer bpl).1
        else some (cupsRasterReadPixels rows PixelBuffer bpl).1) = some pb ∧ pb.length = bpl := by
      split_ifs with hc
      · have hev : Even bpl := by
          rcases hsw with h | h | h
          · simp [h] at hc
          · simp [h] at hc
          · exact h
        obtain ⟨r, hr, hl⟩ := swap_pairs_even _ (r1.symm ▸ hev)
        exact ⟨r, hr, hl.trans r1⟩
      · exact ⟨_, rfl, r1⟩
    obtain ⟨pb, hpb1, hpb2⟩ := hswap
    obtain ⟨out, hout, houtl⟩ := bitFunction_call_length bf pb bpl hpb2
    have hr : cur_line < info.height := by omega
    have hline : info.line_bytes ≤ out.length := by omega
    obtain ⟨hi, buf, hbuf, -⟩ := page_open_strip_of_row hopen hr
    have hset := pdf_set_line_eq hopen hr hline hbuf
    obtain ⟨hopen1, hH1, hlb1, hbpc1⟩ := pdf_set_line_page_open hopen hr hline hset
    have hlt : info.height < 2 ^ 32 := hopen.2.1
    have hnext : (cur_line + 1) % UINT_MOD = cur_line + 1 := by
      apply Nat.mod_eq_of_lt
      have : UINT_MOD = 2 ^ 32 := rfl
      omega
    have hmore : cur_line + 1 < height := by omega
    obtain ⟨fuel1, rfl⟩ : ∃ fuel1, fuel = fuel1 + 1 := ⟨fuel - 1, by omega⟩
    obtain ⟨info1, q1, q2, q3, q4, q5⟩ := ih fuel1 (cur_line + 1) out
      (cupsRasterReadPixels rows PixelBuffer bpl).2 _ (calls ++ [cur_line])
      (reads + (rows.length - (cupsRasterReadPixels rows PixelBuffer bpl).2.length))
      hopen1 (hH1.trans hH) (hlb1 ▸ hlb) (hbpc1 ▸ hsw) houtl (by omega) (by omega)
    refine ⟨info1, ?_, q2, ?_, ?_, ?_⟩
    all_goals
      rw [convert_raster_loop]
      simp only [hpb1, hbit, hout, hconv, convertFunction.call, hset, hnext, if_pos hmore]
    · exact q1
    · rw [q3, List.append_assoc]
      rfl
    · rw [q4, r2, r3]
      simp only [List.length_drop]
      omega
    · rw [q5, r3, List.drop_drop]
      congr 1
      omega

/-- For an opened page of positive height, `convert_raster` returns, asks
the raster source for exactly `height` rows and calls `pdf_set_line`
exactly once for each row index `0, 1, ..., height - 1`, in increasing
order, and for no other index.  (The conversion in force is the one this
program installs, `noColorConversion`; rows of 16-bit samples on a little
endian host need an even row size.) -/
theorem convert_raster_calls (host : Host) (g : Globals) (rows : List (List Nat))
    (width height : Nat) (bpp : Int) (bpl : Nat) (info : pdf_info) (bf : bitFunction)
    (hbit : g.bit_function = some bf)
    (hconv : g.conversion_function = some .noColorConversion)
    (hopen : page_open info) (hH : info.height = height) (hpos : 0 < height)
    (hlb : info.line_bytes ≤ bpl)
    (hsw : host.big_endian = true ∨ info.bpc ≠ 16 ∨ Even bpl) :
    ∃ info1,
      (convert_raster host g rows width height bpp bpl info).info = some info1 ∧
      page_open info1 ∧
      (convert_raster host g rows width height bpp bpl info).calls = List.range height ∧
      (convert_raster host g rows width height bpp bpl info).reads = min height rows.length ∧
      (convert_raster host g rows width height bpp bpl info).rest = rows.drop height := by
  obtain ⟨n, rfl⟩ : ∃ n, height = n + 1 := ⟨height - 1, by omega⟩
  obtain ⟨info1, q1, q2, q3, q4, q5⟩ := convert_raster_loop_calls host g width (n + 1) bpl bf
    hbit hconv n (n + 1) 0 (Buffer_alloc bpl) rows info [] 0 hopen hH hlb hsw
    (by simp [Buffer_alloc]) (by omega) (by omega)
  refine ⟨info1, q1, q2, ?_, ?_, q5⟩
  · unfold convert_raster
    rw [q3, List.range_eq_range']
    rfl
  · unfold convert_raster
    rw [q4]
    omega

/-! ## The content program of a page (`finish_page`) -/

/-- With a method to choose from, a buffer in every strip holder and a
gray or RGB colour space, `makePclmStrips` returns one initialized stream
per strip. -/
theorem makePclmStrips_initialized (num_strips : Nat) (strip_data : List (Option (List Nat)))
    (compression_methods : List CompressionMethod) (width : Nat) (strip_height : List Nat)
    (cs : cups_cspace_t) (bpc : Nat)
    (hne : compression_methods ≠ [])
    (hh : num_strips ≤ strip_height.length)
    (hd : ∀ i, i < num_strips → ∃ buf, strip_data[i]? = some (some buf))
    (hcs : cs ∈ [cups_cspace_t.CUPS_CSPACE_K, .CUPS_CSPACE_SW, .CUPS_CSPACE_RGB,
      .CUPS_CSPACE_SRGB, .CUPS_CSPACE_ADOBERGB]) :
    ∃ strips,
      makePclmStrips num_strips strip_data compression_methods width strip_height cs bpc
        = some strips ∧
      strips.length = num_strips ∧ ∀ s ∈ strips, s.isInitialized = true := by
  obtain ⟨m, hm, -, -⟩ := select_compression_greatest compression_methods hne
  have henc : ∀ (dict : List (String × PdfValue)) (jcs : J_COLOR_SPACE) (comp : Nat),
      ∃ strips, for_each_index
        (fun i => encode_strip m dict comp jcs width strip_data strip_height
          ((List.replicate num_strips QPDFObjectHandle.newStream).getD i .uninitialized) i)
        num_strips = some strips ∧ strips.length = num_strips ∧
        ∀ s ∈ strips, s.isInitialized = true := by
    intro dict jcs comp
    have hdef : ∀ i, i < num_strips → ∃ x, encode_strip m dict comp jcs width strip_data
        strip_height ((List.replicate num_strips QPDFObjectHandle.newStream).getD i
          .uninitialized) i = some x := by
      intro i hi
      obtain ⟨buf, hbuf⟩ := hd i hi
      have hlt : i < strip_height.length := by omega
      have hret : (List.replicate num_strips QPDFObjectHandle.newStream).getD i .uninitialized
          = QPDFObjectHandle.newStream := by
        simp [List.getD, List.getElem?_replicate, hi]
      rw [hret]
      unfold encode_strip
      rw [List.getElem?_eq_getElem hlt, hbuf]
      cases m <;> simp [QPDFObjectHandle.newStream, QPDFObjectHandle.replaceDict,
        QPDFObjectHandle.replaceStreamData]
    obtain ⟨strips, hs⟩ := for_each_index_defined _ _ hdef
    obtain ⟨hlen, hidx⟩ := for_each_index_some _ _ _ hs
    refine ⟨strips, hs, hlen, ?_⟩
    intro s hsm
    obtain ⟨i, hi, hget⟩ := List.getElem_of_mem hsm
    have h1 := hidx i (by omega)
    rw [List.getElem?_eq_getElem hi, hget] at h1
    exact (encode_strip_filter h1).1
  unfold makePclmStrips
  simp only [hm]
  cases cs
  case CUPS_CSPACE_K => exact henc _ .JCS_GRAYSCALE 1
  case CUPS_CSPACE_SW => exact henc _ .JCS_GRAYSCALE 1
  case CUPS_CSPACE_RGB => exact henc _ .JCS_RGB 3
  case CUPS_CSPACE_SRGB => exact henc _ .JCS_RGB 3
  case CUPS_CSPACE_ADOBERGB => exact henc _ .JCS_RGB 3
  all_goals exact absurd hcs (by simp)

/-- The loop of lines 530-541 when the anchor never wraps: strip `k` is
placed at `H` minus the heights of the strips up to and including `k`. -/
theorem place_strips_eq (info : pdf_info) (H : Nat) (hH : H < 2 ^ 32)
    (hsum : ∀ m, (info.pclm_strip_height.take m).sum ≤ H) :
    ∀ n i, i + n ≤ info.pclm_strip_height.length →
      place_strips info n i (H - (info.pclm_strip_height.take i).sum) =
        some ((List.range' i n).foldr
          (fun k rest =>
            "/P <</MCID 0>> BDC q\n" ++
              (int_to_string info.width ++ " 0 0 " ++
                int_to_string (info.pclm_strip_height.getD k 0) ++ " 0 " ++
                int_to_string ((H - (info.pclm_strip_height.take (k + 1)).sum : Nat) : Int) ++
                " cm\n") ++
              (image_name info.pclm_num_strips k ++ " Do Q\n") ++ rest) "") := by
  intro n
  induction n with
  | zero => intro i _; rfl
  | succ n ih =>
    intro i hi
    have hlt : i < info.pclm_strip_height.length := by omega
    have hstep := List.sum_take_succ info.pclm_strip_height i hlt
    have h1 := hsum (i + 1)
    have hy : (H - (info.pclm_strip_height.take i).sum + UINT_MOD -
        info.pclm_strip_height[i]) % UINT_MOD =
        H - (info.pclm_strip_height.take (i + 1)).sum := by
      have hmod : UINT_MOD = 2 ^ 32 := rfl
      rw [hstep] at h1 ⊢
      have : H - (info.pclm_strip_height.take i).sum + UINT_MOD - info.pclm_strip_height[i] =
          (H - ((info.pclm_strip_height.take i).sum + info.pclm_strip_height[i])) +
            UINT_MOD := by omega
      rw [this, Nat.add_mod_right]
      apply Nat.mod_eq_of_lt
      omega
    rw [place_strips, List.getElem?_eq_getElem hlt]
    simp only [hy]
    rw [ih (i + 1) (by omega)]
    simp only [List.range'_succ, List.foldr_cons, List.getD_eq_getElem?_getD,
      List.getElem?_eq_getElem hlt, Option.getD_some]

/-- On an opened page every strip holder has a buffer, and the heights of
the strips from the top down never add up to more than the page height. -/
theorem page_open_holders {info : pdf_info} (hopen : page_open info) :
    info.pclm_strip_height.length = info.pclm_num_strips ∧
    info.pclm_strip_data.length = info.pclm_num_strips ∧
    (∀ i, i < info.pclm_num_strips → ∃ buf, info.pclm_strip_data[i]? = some (some buf)) ∧
    info.pclm_strip_data.any (fun p => p.isNone) = false ∧
    (∀ m, (info.pclm_strip_height.take m).sum ≤ info.height) ∧
    info.pclm_strip_height.sum = info.height ∧
    (0 < info.height → info.pclm_num_strips ≠ 0) := by
  obtain ⟨hP, hH, hsize, hN, hplan, hdata⟩ := hopen
  have hlen : info.pclm_strip_height.length = info.pclm_num_strips := by
    rw [hplan, List.length_map, List.length_range]
  have hdlen : info.pclm_strip_data.length = info.pclm_num_strips := by
    have := congrArg List.length hdata
    simpa [hlen] using this
  have hsome : ∀ p ∈ info.pclm_strip_data, ∃ buf, p = some buf := by
    intro p hp
    obtain ⟨i, hi, rfl⟩ := List.getElem_of_mem hp
    have hget := congrArg (fun l => l[i]?) hdata
    simp only [List.getElem?_map, List.getElem?_eq_getElem hi, Option.map_some'] at hget
    cases hq : info.pclm_strip_data[i] with
    | none =>
      rw [hq] at hget
      cases hh : info.pclm_strip_height[i]? <;> simp [hh] at hget
    | some buf => exact ⟨buf, rfl⟩
  obtain ⟨f1, f2, f3, f4⟩ := strip_count_facts info.height info.pclm_strip_height_preferred hP
  rw [← hN] at f1
  refine ⟨hlen, hdlen, ?_, ?_, ?_, ?_, ?_⟩
  · intro i hi
    have hi' : i < info.pclm_strip_data.length := by omega
    obtain ⟨buf, hb⟩ := hsome _ (List.getElem_mem hi')
    exact ⟨buf, by rw [List.getElem?_eq_getElem hi', hb]⟩
  · rw [List.any_eq_false]
    intro p hp
    obtain ⟨buf, rfl⟩ := hsome p hp
    simp
  · intro m
    rw [hplan, sum_take_min]
    exact Nat.min_le_right _ _
  · have h1 := sum_take_min info.pclm_num_strips info.pclm_num_strips
      info.pclm_strip_height_preferred info.height
    rw [← hplan] at h1
    have h2 : info.pclm_strip_height.take info.pclm_num_strips = info.pclm_strip_height := by
      rw [← hlen, List.take_length]
    rw [h2, Nat.min_self] at h1
    rw [h1]
    exact Nat.min_eq_right f1
  · intro hpos h0
    rw [h0] at f1
    omega

/-- C12: on an opened page of positive height `H`, in a gray or RGB
colour space, with a compression method on offer, a page object to fill
and a default resolution that `std::stoi` can read, `finish_page` returns
and sets the content program of the page to the scaling line followed by
one group of three lines per strip, strips taken from the top down: for
strip `i` of `N`, with strip heights `h_0, ..., h_{N-1}`, the group is the
marked-content operator `/P <</MCID 0>> BDC q`, then the placement
`width 0 0 h_i 0 y_i cm` with `y_i = H - (h_0 + ... + h_i)`, which is not
negative, then the single image operator `/Image<i> Do Q` with the
fixed-width name of strip `i`. -/
theorem finish_page_content (host : Host) (s : pdf_state) (k : Nat) (pg : PageObject)
    (r : Int) (hopen : page_open s.info) (hpos : 0 < s.info.height)
    (hcs : s.info.color_space ∈ [cups_cspace_t.CUPS_CSPACE_K, .CUPS_CSPACE_SW,
      .CUPS_CSPACE_RGB, .CUPS_CSPACE_SRGB, .CUPS_CSPACE_ADOBERGB])
    (hne : s.info.pclm_compression_method_preferred ≠ [])
    (hpage : s.page = some k) (hpg : s.pdf[k]? = some pg)
    (hres : stoi (strip_dpi s.info.pclm_source_resolution_default) = some r) :
    ∃ s1 pg1,
      finish_page host s = .ok s1 ∧ s1.pdf[k]? = some pg1 ∧
      pg1.Contents = some
        ((host.double_to_string
            (if toUnsigned r = 0 then none
              else some (roundDouble (72 / ((toUnsigned r : Nat) : ℚ)))) ++ " 0 0 " ++
          host.double_to_string
            (if toUnsigned r = 0 then none
              else some (roundDouble (72 / ((toUnsigned r : Nat) : ℚ)))) ++ " 0 0 cm\n") ++
          (List.range s.info.pclm_num_strips).foldr
            (fun i rest =>
              "/P <</MCID 0>> BDC q\n" ++
                (int_to_string s.info.width ++ " 0 0 " ++
                  int_to_string (s.info.pclm_strip_height.getD i 0) ++ " 0 " ++
                  int_to_string
                    ((s.info.height - (s.info.pclm_strip_height.take (i + 1)).sum : Nat) : Int)
                  ++ " cm\n") ++
                (image_name s.info.pclm_num_strips i ++ " Do Q\n") ++ rest) "") ∧
      s.info.pclm_strip_height.length = s.info.pclm_num_strips ∧
      s.info.pclm_strip_height.sum = s.info.height ∧
      ∀ i, (s.info.pclm_strip_height.take (i + 1)).sum ≤ s.info.height := by
  obtain ⟨hlen, hdlen, hbuf, hany, hsum, htot, hN⟩ := page_open_holders hopen
  obtain ⟨strips, hmk, hslen, hinit⟩ := makePclmStrips_initialized s.info.pclm_num_strips
    s.info.pclm_strip_data s.info.pclm_compression_method_preferred s.info.width
    s.info.pclm_strip_height s.info.color_space s.info.bpc hne (by omega) hbuf hcs
  have hall : (strips.take s.info.pclm_num_strips).any (fun h => !h.isInitialized) = false := by
    rw [List.any_eq_false]
    intro h hh
    have := hinit h (List.mem_of_mem_take hh)
    simp [this]
  have hplace := place_strips_eq s.info s.info.height hopen.2.1 hsum s.info.pclm_num_strips 0
    (by omega)
  simp only [List.take_zero, List.sum_nil, Nat.sub_zero] at hplace
  have hk : k < s.pdf.length := by
    by_contra hcon
    rw [List.getElem?_eq_none (by omega)] at hpg
    simp at hpg
  have hbind : (s.page.bind fun k => s.pdf[k]?.map fun pg => (k, pg)) = some (k, pg) := by
    rw [hpage]
    simp [hpg]
  rw [← List.range_eq_range'] at hplace
  have hfin : finish_page host s = .ok { s with
      pdf := s.pdf.set k { pg with
        XObject := add_images s.info.pclm_num_strips strips s.info.pclm_num_strips 0 pg.XObject
        Contents := some
          ((host.double_to_string
              (if toUnsigned r = 0 then none
                else some (roundDouble (72 / ((toUnsigned r : Nat) : ℚ)))) ++ " 0 0 " ++
            host.double_to_string
              (if toUnsigned r = 0 then none
                else some (roundDouble (72 / ((toUnsigned r : Nat) : ℚ)))) ++ " 0 0 cm\n") ++
            (List.range s.info.pclm_num_strips).foldr
              (fun i rest =>
                "/P <</MCID 0>> BDC q\n" ++
                  (int_to_string s.info.width ++ " 0 0 " ++
                    int_to_string (s.info.pclm_strip_height.getD i 0) ++ " 0 " ++
                    int_to_string
                      ((s.info.height - (s.info.pclm_strip_height.take (i + 1)).sum : Nat) : Int)
                    ++ " cm\n") ++
                  (image_name s.info.pclm_num_strips i ++ " Do Q\n") ++ rest) "") }
      page_data := none
      info := { s.info with pclm_strip_data := [] } } := by
    unfold finish_page
    simp only [if_neg (hN hpos), hany, hmk, hall, hbind, hres, hplace]
    rfl
  have hget : ∀ pg1 : PageObject, (s.pdf.set k pg1)[k]? = some pg1 := by
    intro pg1
    simp only [List.getElem?_set_self, hk, List.getElem?_eq_getElem]
  exact ⟨_, _, hfin, hget _, rfl, hlen, htot, fun i => hsum (i + 1)⟩

theorem int_to_string_digit (n : Nat) (h : n < 10) :
    int_to_string (n : Int) = String.mk [Nat.digitChar n] := by
  unfold int_to_string
  rw [if_neg (by omega), Int.natAbs_ofNat, decimal_digits_lt_ten n h]

theorem int_to_string_sixteen : int_to_string ((16 : Nat) : Int) = "16" := by
  unfold int_to_string
  rw [if_neg (by omega), Int.natAbs_ofNat, decimal_digits_ge_ten 16 (by omega),
    decimal_digits_lt_ten _ (by omega)]
  rfl

theorem image_name_of_two (i : Nat) (h : i < 10) :
    image_name 2 i = "/Image" ++ String.mk [Nat.digitChar i] := by
  unfold image_name
  have h1 : toInt32 ((2 + UINT_MOD - 1) % UINT_MOD) = ((1 : Nat) : Int) := by decide
  have h2 : toInt32 i = (i : Int) := toInt32_of_lt i (by omega)
  rw [h1, h2, num_digits_natCast, decimal_digits_lt_ten 1 (by omega)]
  have h3 := int_to_fwstring_natCast i 0 (by simpa using h)
  simp only [List.length_singleton, zero_add] at h3 ⊢
  rw [h3]
  simp only [fixed_width_digits, List.nil_append, Nat.mod_eq_of_lt h]

/-- Witness of C12: the page of 20 rows in strips of 16 and 4 rows.  The
content program is spelled out: strip 0 is placed at `20 - 16 = 4`, strip
1 at `20 - (16 + 4) = 0`. -/
theorem finish_page_content_witness :
    page_open pdf_state.two_strips.info ∧ 0 < pdf_state.two_strips.info.height ∧
    stoi (strip_dpi pdf_state.two_strips.info.pclm_source_resolution_default) = some 600 ∧
    ∃ s1 pg1,
      finish_page Host.little_endian pdf_state.two_strips = .ok s1 ∧ s1.pdf[0]? = some pg1 ∧
      pg1.Contents = some ("1 0 0 1 0 0 cm\n" ++
        "/P <</MCID 0>> BDC q\n4 0 0 16 0 4 cm\n/Image0 Do Q\n" ++
        "/P <</MCID 0>> BDC q\n4 0 0 4 0 0 cm\n/Image1 Do Q\n") := by
  obtain ⟨s1, pg1, h1, h2, h3, -⟩ := finish_page_content Host.little_endian
    pdf_state.two_strips 0 { MediaBox := (0, 0, 288, 1440), XObject := [], Contents := none }
    600 (by decide) (by decide) (by decide) (by decide) rfl rfl (by decide)
  refine ⟨by decide, by decide, by decide, s1, pg1, h1, h2, ?_⟩
  rw [h3]
  have e0 : int_to_string ((4 : Nat) : Int) = "4" := int_to_string_digit 4 (by omega)
  have e1 : int_to_string ((0 : Nat) : Int) = "0" := int_to_string_digit 0 (by omega)
  have e2 : image_name 2 0 = "/Image0" := image_name_of_two 0 (by omega)
  have e3 : image_name 2 1 = "/Image1" := image_name_of_two 1 (by omega)
  have w : pdf_state.two_strips.info.width = 4 := rfl
  have hh : pdf_state.two_strips.info.height = 20 := rfl
  have hs : pdf_state.two_strips.info.pclm_strip_height = [16, 4] := rfl
  have hn : pdf_state.two_strips.info.pclm_num_strips = 2 := rfl
  have hd : ∀ x, Host.little_endian.double_to_string x = "1" := fun _ => rfl
  rw [w, hh, hs, hn, hd]
  simp only [List.range_succ, List.range_zero, List.nil_append, List.cons_append,
    List.foldr_cons, List.foldr_nil, List.getD_cons_zero, List.getD_cons_succ, List.take_succ_cons,
    List.take_zero, List.sum_cons, List.sum_nil, zero_add, Nat.reduceAdd, Nat.reduceSub,
    List.take_nil, e0, e1, e2, e3, int_to_string_sixteen]
  rfl

/-! ## Rounding to nearest, ties to even -/

theorem log_two_eq (z : ℚ) (E : Int) (hlo : (2 : ℚ) ^ E ≤ z) (hhi : z < (2 : ℚ) ^ (E + 1)) :
    Int.log 2 z = E := by
  have hz : 0 < z := lt_of_lt_of_le (two_zpow_pos E) hlo
  have h1 : E ≤ Int.log 2 z := by
    have := (Int.zpow_le_iff_le_log (b := 2) (by norm_num) hz (x := E)).mp
      (by exact_mod_cast hlo)
    exact this
  have h2 : Int.log 2 z < E + 1 := by
    have := (Int.lt_zpow_iff_log_lt (b := 2) (by norm_num) hz (x := E + 1)).mp
      (by exact_mod_cast hhi)
    exact this
  omega

theorem log_two_bounds (z : ℚ) (hz : 0 < z) :
    (2 : ℚ) ^ Int.log 2 z ≤ z ∧ z < (2 : ℚ) ^ (Int.log 2 z + 1) := by
  have h1 := Int.zpow_log_le_self (b := 2) (r := z) (by norm_num) hz
  have h2 := Int.lt_zpow_succ_log_self (b := 2) (by norm_num) z
  exact ⟨by exact_mod_cast h1, by exact_mod_cast h2⟩

/-- Rounding gives the multiple `K` of the unit in the last place that is
within half a unit of the argument, when `K` is even (so that a tie goes
to `K`). -/
theorem roundDouble_of_near (z : ℚ) (E K : Int) (hlo : (2 : ℚ) ^ E ≤ z)
    (hhi : z < (2 : ℚ) ^ (E + 1)) (hnear : |z / (2 : ℚ) ^ (E - 52) - K| ≤ 1 / 2)
    (heven : Even K) : roundDouble z = (K : ℚ) * (2 : ℚ) ^ (E - 52) := by
  have hz : 0 < z := lt_of_lt_of_le (two_zpow_pos E) hlo
  have hlog := log_two_eq z E hlo hhi
  unfold roundDouble
  rw [if_neg (ne_of_gt hz), abs_of_pos hz, hlog]
  simp only [if_neg (not_lt.mpr (le_of_lt hz)), one_mul]
  generalize z / (2 : ℚ) ^ (E - 52) = s at hnear
  have hf1 : (⌊s⌋ : ℚ) ≤ s := Int.floor_le s
  have hf2 : s < ⌊s⌋ + 1 := Int.lt_floor_add_one s
  obtain ⟨hn1, hn2⟩ := abs_le.mp hnear
  have hfK : ⌊s⌋ ≤ K := by
    have : (⌊s⌋ : ℚ) < (K : ℚ) + 1 := by linarith
    have : ⌊s⌋ < K + 1 := by exact_mod_cast this
    omega
  have hKf : K - 1 ≤ ⌊s⌋ := by
    have : (K : ℚ) - 1 < (⌊s⌋ : ℚ) + 1 := by linarith
    have : K - 1 < ⌊s⌋ + 1 := by exact_mod_cast this
    omega
  obtain ⟨c, hc⟩ := heven
  congr 1
  norm_cast
  rcases (by omega : ⌊s⌋ = K ∨ ⌊s⌋ = K - 1) with hf | hf
  · have hfq : (⌊s⌋ : ℚ) = K := by exact_mod_cast hf
    split_ifs with h1 h2 h3
    · exact hf
    · rw [hfq] at h2; linarith
    · exact hf
    · rw [hf] at h3; omega
  · have hfq : (⌊s⌋ : ℚ) = K - 1 := by rw [hf]; push_cast; ring
    split_ifs with h1 h2 h3
    · rw [hfq] at h1; linarith
    · omega
    · rw [hf] at h3; omega
    · omega

/-- Rounding moves a positive value by at most half a unit in the last
place. -/
theorem roundDouble_half_ulp (z : ℚ) (hz : 0 < z) :
    ∃ M : Int, roundDouble z = (M : ℚ) * (2 : ℚ) ^ (Int.log 2 z - 52) ∧
      |(M : ℚ) - z / (2 : ℚ) ^ (Int.log 2 z - 52)| ≤ 1 / 2 := by
  unfold roundDouble
  rw [if_neg (ne_of_gt hz), abs_of_pos hz]
  simp only [if_neg (not_lt.mpr (le_of_lt hz)), one_mul]
  generalize z / (2 : ℚ) ^ (Int.log 2 z - 52) = s
  have hf1 : (⌊s⌋ : ℚ) ≤ s := Int.floor_le s
  have hf2 : s < ⌊s⌋ + 1 := Int.lt_floor_add_one s
  split_ifs with h1 h2 h3
  · exact ⟨_, rfl, by rw [abs_le]; constructor <;> linarith⟩
  · exact ⟨_, rfl, by push_cast; rw [abs_le]; constructor <;> linarith⟩
  · exact ⟨_, rfl, by rw [abs_le]; constructor <;> linarith⟩
  · exact ⟨_, rfl, by push_cast; rw [abs_le]; constructor <;> linarith⟩

/-- The relative error of one rounding is at most `2 ^ -53`. -/
theorem roundDouble_rel (z : ℚ) (hz : 0 < z) :
    z * (1 - 1 / 2 ^ 53) ≤ roundDouble z ∧ roundDouble z ≤ z * (1 + 1 / 2 ^ 53) := by
  obtain ⟨M, hM, hnear⟩ := roundDouble_half_ulp z hz
  obtain ⟨hlo, -⟩ := log_two_bounds z hz
  generalize Int.log 2 z = e at *
  have hu : (0 : ℚ) < (2 : ℚ) ^ (e - 52) := two_zpow_pos _
  have hue : (2 : ℚ) ^ (e - 52) * 2 ^ 52 = (2 : ℚ) ^ e := by
    rw [zpow_sub₀ (by norm_num)]
    have : (2 : ℚ) ^ (52 : Int) = 2 ^ 52 := by norm_num
    rw [this]
    field_simp
  obtain ⟨hn1, hn2⟩ := abs_le.mp hnear
  have hzs : z = z / (2 : ℚ) ^ (e - 52) * (2 : ℚ) ^ (e - 52) := by field_simp
  generalize z / (2 : ℚ) ^ (e - 52) = s at *
  generalize (2 : ℚ) ^ (e - 52) = u at *
  rw [hM, hzs]
  have hsu : u * 2 ^ 52 ≤ s * u := by rw [hue, ← hzs]; exact hlo
  have h1 : (M : ℚ) * u ≤ (s + 1 / 2) * u := mul_le_mul_of_nonneg_right (by linarith) hu.le
  have h2 : (s - 1 / 2) * u ≤ (M : ℚ) * u := mul_le_mul_of_nonneg_right (by linarith) hu.le
  constructor
  · nlinarith
  · nlinarith

/-- The three roundings of `fl(fl(fl(A) * 72) + 1/2)` stay between
consecutive integers when the exact value `72 A + 1/2` keeps a distance
`G` from both, `G` being large against the rounding errors. -/
theorem rounded_extent_between (A G : ℚ) (n : Int) (hA : 0 < A) (hG : 0 < G)
    (hAG : 72 * A ≤ 2 ^ 40 * G) (hhalf : 1 / 2 ≤ 2 ^ 32 * G)
    (hlo : (n : ℚ) + G ≤ 72 * A + 1 / 2) (hhi : 72 * A + 1 / 2 + G ≤ (n : ℚ) + 1) :
    (n : ℚ) ≤ roundDouble (roundDouble (roundDouble A * 72) + 1 / 2) ∧
    roundDouble (roundDouble (roundDouble A * 72) + 1 / 2) < (n : ℚ) + 1 := by
  obtain ⟨a1, a2⟩ := roundDouble_rel A hA
  have ha : 0 < roundDouble A := by
    have : 0 < A * (1 - 1 / 2 ^ 53) := mul_pos hA (by norm_num)
    linarith
  have hz : 0 < roundDouble A * 72 := by linarith
  obtain ⟨p1, p2⟩ := roundDouble_rel _ hz
  have hp : 0 < roundDouble (roundDouble A * 72) := by
    have : 0 < roundDouble A * 72 * (1 - 1 / 2 ^ 53) := mul_pos hz (by norm_num)
    linarith
  have hs : 0 < roundDouble (roundDouble A * 72) + 1 / 2 := by linarith
  obtain ⟨t1, t2⟩ := roundDouble_rel _ hs
  generalize roundDouble (roundDouble (roundDouble A * 72) + 1 / 2) = t at t1 t2 ⊢
  generalize roundDouble (roundDouble A * 72) = p at p1 p2 t1 t2 hp hs
  generalize roundDouble A = a at a1 a2 p1 p2 ha hz
  constructor
  · nlinarith
  · nlinarith

/-- The second rounding of a half-integer: the product `fl(m / 144) * 72`
lies within half a unit in the last place of `m / 2`. -/
theorem half_integer_near (m : Nat) (M K : Int) (U V s : ℚ) (k j : Nat) (hU : 0 < U)
    (hV : V = U * 2 ^ k) (hj : V * 2 ^ j = 1 / 2) (hs : s * U = (m : ℚ) / 144)
    (hM : |(M : ℚ) - s| ≤ 1 / 2) (hK : K = m * 2 ^ j) (hk : 6 ≤ k) :
    |(M : ℚ) * U * 72 / V - K| ≤ 1 / 2 := by
  have hV0 : 0 < V := by rw [hV]; positivity
  have hKq : (K : ℚ) = (m : ℚ) * 2 ^ j := by rw [hK]; push_cast; ring
  have h72 : 72 * s = K * 2 ^ k := by
    have h1 : 72 * s * U = (K : ℚ) * 2 ^ k * U := by
      have e1 : 72 * s * U = (m : ℚ) / 2 := by rw [mul_assoc, hs]; ring
      have e2 : (K : ℚ) * 2 ^ k * U = (m : ℚ) * (V * 2 ^ j) := by rw [hKq, hV]; ring
      rw [e1, e2, hj]; ring
    exact mul_right_cancel₀ (ne_of_gt hU) h1
  have hexpr : (M : ℚ) * U * 72 / V - K = (72 * M - 72 * s) / 2 ^ k := by
    rw [h72, hV]
    field_simp
    ring
  rw [hexpr]
  obtain ⟨m1, m2⟩ := abs_le.mp hM
  have hpow : (0 : ℚ) < 2 ^ k := by positivity
  rcases Nat.lt_or_ge k 7 with hk6 | hk7
  · have hk' : k = 6 := by omega
    subst hk'
    have h9 : (9 : ℚ) * s = 8 * K := by linarith
    have hint : -4 ≤ 9 * M - 8 * K ∧ 9 * M - 8 * K ≤ 4 := by
      have b1 : (9 * M - 8 * K : ℚ) ≤ 9 / 2 := by linarith
      have b2 : (-(9 / 2) : ℚ) ≤ 9 * M - 8 * K := by linarith
      have c1 : ((9 * M - 8 * K : Int) : ℚ) < 5 := by push_cast; linarith
      have c2 : (-5 : ℚ) < ((9 * M - 8 * K : Int) : ℚ) := by push_cast; linarith
      have d1 : 9 * M - 8 * K < 5 := by exact_mod_cast c1
      have d2 : -5 < 9 * M - 8 * K := by exact_mod_cast c2
      omega
    have hq : (72 * (M : ℚ) - 72 * s) / 2 ^ 6 = ((9 * M - 8 * K : Int) : ℚ) / 8 := by
      push_cast
      have : 72 * s = 64 * (K : ℚ) := by linarith
      rw [this]
      norm_num
      ring
    rw [hq, abs_le]
    have e1 : ((9 * M - 8 * K : Int) : ℚ) ≤ 4 := by exact_mod_cast hint.2
    have e2 : (-4 : ℚ) ≤ ((9 * M - 8 * K : Int) : ℚ) := by exact_mod_cast hint.1
    constructor <;> linarith
  · have h128 : (128 : ℚ) ≤ 2 ^ k := by
      have : (2 : ℚ) ^ 7 ≤ 2 ^ k := pow_le_pow_right₀ (by norm_num) hk7
      norm_num at this
      exact this
    rw [abs_le]
    constructor
    · rw [le_div_iff₀ hpow]
      nlinarith
    · rw [div_le_iff₀ hpow]
      nlinarith

/-- A half-integer survives the quotient by 144 and the product with 72:
`fl(fl(m / 144) * 72) = m / 2`. -/
theorem rounded_half_integer (m : Nat) (hpos : 0 < m) (hm : m < 2 ^ 33) :
    roundDouble (roundDouble ((m : ℚ) / 144) * 72) = (m : ℚ) / 2 := by
  have hmq : (0 : ℚ) < m := by exact_mod_cast hpos
  have hmq2 : (m : ℚ) < 2 ^ 33 := by exact_mod_cast hm
  have hz0 : (0 : ℚ) < (m : ℚ) / 144 := by positivity
  obtain ⟨M, hM, hnear⟩ := roundDouble_half_ulp _ hz0
  obtain ⟨hlo0, hhi0⟩ := log_two_bounds _ hz0
  generalize Int.log 2 ((m : ℚ) / 144) = e at *
  have hU : (0 : ℚ) < (2 : ℚ) ^ (e - 52) := two_zpow_pos _
  have hUe : (2 : ℚ) ^ e = (2 : ℚ) ^ (e - 52) * 2 ^ 52 := by
    rw [zpow_sub₀ (by norm_num)]
    have : (2 : ℚ) ^ (52 : Int) = 2 ^ 52 := by norm_num
    rw [this]
    field_simp
  have hs : (m : ℚ) / 144 / (2 : ℚ) ^ (e - 52) * (2 : ℚ) ^ (e - 52) = (m : ℚ) / 144 :=
    div_mul_cancel₀ _ (ne_of_gt hU)
  rw [hM]
  generalize (m : ℚ) / 144 / (2 : ℚ) ^ (e - 52) = s at hs hnear
  rw [hUe] at hlo0
  obtain ⟨n1, n2⟩ := abs_le.mp hnear
  -- the product and its exponent
  have hUlt : (2 : ℚ) ^ (e - 52) < 1 := by
    have : (2 : ℚ) ^ (e - 52) * 2 ^ 52 < 2 ^ 33 := by linarith
    nlinarith
  have hzlo : (2 : ℚ) ^ (e - 52) * 2 ^ 58 < (M : ℚ) * (2 : ℚ) ^ (e - 52) * 72 := by
    have h1 : (s - 1 / 2) * (2 : ℚ) ^ (e - 52) ≤ (M : ℚ) * (2 : ℚ) ^ (e - 52) :=
      mul_le_mul_of_nonneg_right (by linarith) hU.le
    nlinarith
  have hzhi : (M : ℚ) * (2 : ℚ) ^ (e - 52) * 72 < 2 ^ 33 := by
    have h1 : (M : ℚ) * (2 : ℚ) ^ (e - 52) ≤ (s + 1 / 2) * (2 : ℚ) ^ (e - 52) :=
      mul_le_mul_of_nonneg_right (by linarith) hU.le
    nlinarith
  have hzpos : (0 : ℚ) < (M : ℚ) * (2 : ℚ) ^ (e - 52) * 72 :=
    lt_trans (by positivity) hzlo
  obtain ⟨hlo, hhi⟩ := log_two_bounds _ hzpos
  generalize hE : Int.log 2 ((M : ℚ) * (2 : ℚ) ^ (e - 52) * 72) = E at hlo hhi
  have hE1 : e + 6 ≤ E := by
    have h1 : (2 : ℚ) ^ (e + 6) < (2 : ℚ) ^ (E + 1) := by
      have : (2 : ℚ) ^ (e + 6) = (2 : ℚ) ^ (e - 52) * 2 ^ 58 := by
        rw [show e + 6 = (e - 52) + 58 by ring, zpow_add₀ (by norm_num)]
        norm_num
      rw [this]
      linarith
    have := (zpow_lt_zpow_iff_right₀ (by norm_num : (1 : ℚ) < 2)).mp h1
    omega
  have hE2 : E ≤ 32 := by
    have h1 : (2 : ℚ) ^ E < (2 : ℚ) ^ (33 : Int) := by
      have : (2 : ℚ) ^ (33 : Int) = 2 ^ 33 := by norm_num
      rw [this]
      linarith
    have := (zpow_lt_zpow_iff_right₀ (by norm_num : (1 : ℚ) < 2)).mp h1
    omega
  obtain ⟨k, hk⟩ : ∃ k : Nat, (k : Int) = E - e := ⟨(E - e).toNat, by omega⟩
  obtain ⟨j, hj⟩ : ∃ j : Nat, (j : Int) = 51 - E := ⟨(51 - E).toNat, by omega⟩
  have hV : (2 : ℚ) ^ (E - 52) = (2 : ℚ) ^ (e - 52) * 2 ^ k := by
    rw [show E - 52 = (e - 52) + (k : Int) by omega, zpow_add₀ (by norm_num), zpow_natCast]
  have hVj : (2 : ℚ) ^ (E - 52) * 2 ^ j = 1 / 2 := by
    rw [← zpow_natCast, ← zpow_add₀ (by norm_num), show E - 52 + (j : Int) = -1 by omega]
    norm_num
  have hKeven : Even ((m : Int) * 2 ^ j) := by
    obtain ⟨j', rfl⟩ : ∃ j', j = j' + 1 := ⟨j - 1, by omega⟩
    exact ⟨(m : Int) * 2 ^ j', by ring⟩
  have hnearK := half_integer_near m M ((m : Int) * 2 ^ j) ((2 : ℚ) ^ (e - 52))
    ((2 : ℚ) ^ (E - 52)) s k j hU hV hVj hs hnear rfl (by omega)
  rw [roundDouble_of_near _ E _ hlo hhi hnearK hKeven]
  push_cast
  rw [mul_assoc, mul_comm ((2 : ℚ) ^ j), hVj]
  ring

/-- Conversion to `int` of a `double` between two consecutive integers in
the range of `int`. -/
theorem doubleToInt_between (t : ℚ) (n : Int) (h0 : 0 ≤ n) (h31 : n < 2 ^ 31)
    (hlo : (n : ℚ) ≤ t) (hhi : t < (n : ℚ) + 1) : doubleToInt t = some n := by
  have hn0 : (0 : ℚ) ≤ n := by exact_mod_cast h0
  have hn31 : (n : ℚ) + 1 ≤ 2 ^ 31 := by
    have : n + 1 ≤ 2 ^ 31 := by omega
    exact_mod_cast this
  unfold doubleToInt
  rw [if_pos ⟨by linarith, by linarith⟩, if_neg (by linarith)]
  congr 1
  exact Int.floor_eq_iff.mpr ⟨hlo, hhi⟩

/-- The extent `add_pdf_page` puts in the MediaBox for `w` pixels at `x`
dpi is `72 w / x` rounded to the nearest integer, halves upwards, as long
as that integer is in the range of `int`: the three roundings of the
`double` computation never carry the value across an integer. -/
theorem box_extent_pdf_units (w x : Nat) (hx : 0 < x) (hw : w < 2 ^ 32) (hx2 : x < 2 ^ 32)
    (hr : ⌊(w : ℚ) / x * 72 + 1 / 2⌋ < 2 ^ 31) :
    box_extent (pdf_units w x) = some ⌊(w : ℚ) / x * 72 + 1 / 2⌋ := by
  have hxq : (0 : ℚ) < x := by exact_mod_cast hx
  unfold pdf_units
  rw [if_neg (by omega)]
  simp only [box_extent]
  rcases Nat.eq_zero_or_pos w with h0 | hwpos
  · subst h0
    have e1 : roundDouble ((1 : Nat) * (2 : ℚ) ^ (-1 : Int)) = (1 : Nat) * (2 : ℚ) ^ (-1 : Int) :=
      roundDouble_exact 1 (-1) (by norm_num)
    have e2 : ((1 : Nat) : ℚ) * (2 : ℚ) ^ (-1 : Int) = 1 / 2 := by norm_num
    rw [e2] at e1
    simp only [Nat.cast_zero, zero_div, roundDouble_zero, zero_mul, zero_add, e1]
    have hfl : ⌊(1 / 2 : ℚ)⌋ = 0 := by norm_num
    rw [hfl]
    exact doubleToInt_between _ 0 (by norm_num) (by norm_num) (by norm_num) (by norm_num)
  · have hwq : (0 : ℚ) < w := by exact_mod_cast hwpos
    have hwq2 : (w : ℚ) < 2 ^ 32 := by exact_mod_cast hw
    have hxq2 : (x : ℚ) < 2 ^ 32 := by exact_mod_cast hx2
    have hA : (0 : ℚ) < (w : ℚ) / x := div_pos hwq hxq
    generalize hn : ⌊(w : ℚ) / x * 72 + 1 / 2⌋ = n at hr ⊢
    have hfl1 : (n : ℚ) ≤ (w : ℚ) / x * 72 + 1 / 2 := by rw [← hn]; exact Int.floor_le _
    have hfl2 : (w : ℚ) / x * 72 + 1 / 2 < (n : ℚ) + 1 := by
      rw [← hn]; exact Int.lt_floor_add_one _
    have hn0 : 0 ≤ n := by
      rw [← hn]
      exact Int.floor_nonneg.mpr (by positivity)
    -- the same bounds on integers
    have hmul : (w : ℚ) / x * x = w := div_mul_cancel₀ _ (ne_of_gt hxq)
    have i1 : 2 * n * (x : Int) ≤ 144 * (w : Int) + x := by
      have : (2 * (n : ℚ) * x) ≤ 144 * (w : ℚ) + x := by nlinarith
      exact_mod_cast this
    have i2 : 144 * (w : Int) + x < 2 * (n + 1) * (x : Int) := by
      have : 144 * (w : ℚ) + x < 2 * ((n : ℚ) + 1) * x := by nlinarith
      exact_mod_cast this
    have hG : (0 : ℚ) < 1 / (2 * x) := by positivity
    have hGx : 1 / (2 * (x : ℚ)) * (2 * x) = 1 := by field_simp
    have hhi : 72 * ((w : ℚ) / x) + 1 / 2 + 1 / (2 * x) ≤ (n : ℚ) + 1 := by
      have i2' : 144 * (w : Int) + x + 1 ≤ 2 * (n + 1) * (x : Int) := by omega
      have i2q : 144 * (w : ℚ) + x + 1 ≤ 2 * ((n : ℚ) + 1) * x := by exact_mod_cast i2'
      have h2x : (0 : ℚ) < 2 * x := by positivity
      have : (72 * ((w : ℚ) / x) + 1 / 2 + 1 / (2 * x)) * (2 * x) ≤ ((n : ℚ) + 1) * (2 * x) := by
        have e : (72 * ((w : ℚ) / x) + 1 / 2 + 1 / (2 * x)) * (2 * x) =
            144 * ((w : ℚ) / x * x) + x + 1 / (2 * (x : ℚ)) * (2 * x) := by ring
        rw [e, hmul, hGx]
        linarith
      exact le_of_mul_le_mul_right this h2x
    rcases Int.lt_or_le (2 * n * (x : Int)) (144 * (w : Int) + x) with hstr | htie
    · -- the exact value is not a half-integer below
      have hlo : (n : ℚ) + 1 / (2 * x) ≤ 72 * ((w : ℚ) / x) + 1 / 2 := by
        have i1' : 2 * n * (x : Int) + 1 ≤ 144 * (w : Int) + x := by omega
        have i1q : 2 * (n : ℚ) * x + 1 ≤ 144 * (w : ℚ) + x := by exact_mod_cast i1'
        have h2x : (0 : ℚ) < 2 * x := by positivity
        have : ((n : ℚ) + 1 / (2 * x)) * (2 * x) ≤ (72 * ((w : ℚ) / x) + 1 / 2) * (2 * x) := by
          have e1 : ((n : ℚ) + 1 / (2 * x)) * (2 * x) =
              2 * n * x + 1 / (2 * (x : ℚ)) * (2 * x) := by ring
          have e2 : (72 * ((w : ℚ) / x) + 1 / 2) * (2 * x) =
              144 * ((w : ℚ) / x * x) + x := by ring
          rw [e1, e2, hmul, hGx]
          linarith
        exact le_of_mul_le_mul_right this h2x
      have hAG : 72 * ((w : ℚ) / x) ≤ 2 ^ 40 * (1 / (2 * x)) := by
        have e1 : 72 * ((w : ℚ) / x) = 72 * w / x := by ring
        have e2 : (2 : ℚ) ^ 40 * (1 / (2 * x)) = 2 ^ 39 / x := by field_simp; ring
        rw [e1, e2]
        exact div_le_div_of_nonneg_right (by linarith) hxq.le
      have hhalf : (1 : ℚ) / 2 ≤ 2 ^ 32 * (1 / (2 * x)) := by
        have e2 : (2 : ℚ) ^ 32 * (1 / (2 * x)) = 2 ^ 31 / x := by field_simp; ring
        rw [e2, le_div_iff₀ hxq]
        linarith
      obtain ⟨b1, b2⟩ := rounded_extent_between _ _ n hA hG hAG hhalf hlo hhi
      exact doubleToInt_between _ n hn0 hr b1 b2
    · -- the exact value is a half-integer: `144 w = (2 n - 1) x`
      have heq : 144 * (w : Int) + x = 2 * n * (x : Int) := by omega
      have hnpos : 1 ≤ n := by
        by_contra hcon
        have hn0' : n = 0 := by omega
        rw [hn0'] at heq
        have : (0 : Int) < w := by exact_mod_cast hwpos
        have : (0 : Int) < x := by exact_mod_cast hx
        omega
      obtain ⟨m, hm⟩ : ∃ m : Nat, (m : Int) = 2 * n - 1 := ⟨(2 * n - 1).toNat, by omega⟩
      have hmq : (m : ℚ) = 2 * n - 1 := by exact_mod_cast hm
      have hquot : (w : ℚ) / x = (m : ℚ) / 144 := by
        have hq : 144 * (w : ℚ) + x = 2 * n * x := by exact_mod_cast heq
        rw [div_eq_div_iff (ne_of_gt hxq) (by norm_num), hmq]
        linarith
      rw [hquot, rounded_half_integer m (by omega) (by omega)]
      obtain ⟨N, hN⟩ : ∃ N : Nat, (N : Int) = n := ⟨n.toNat, by omega⟩
      have hsum : (m : ℚ) / 2 + 1 / 2 = (N : ℚ) := by
        have : (N : ℚ) = n := by exact_mod_cast hN
        rw [this, hmq]
        ring
      rw [hsum, roundDouble_natCast N (by omega)]
      exact doubleToInt_between _ n hn0 hr (by rw [← hN]; norm_cast) (by rw [← hN]; push_cast; linarith)

/-! ## The MediaBox of a page (`add_pdf_page`, lines 663-670) -/

theorem prepare_pdf_page_width {g : Globals} {info : pdf_info} {width height bpl bpp bpc : Nat}
    {render_intent : String} {color_space : cups_cspace_t} {r : PrepareResult}
    (h : prepare_pdf_page g info width height bpl bpp bpc render_intent color_space = some r) :
    r.info.width = width := by
  obtain ⟨p, hp, h1, -⟩ := prepare_pdf_page_plan h
  rw [h1]
  unfold register_page at hp
  split at hp
  · exact absurd hp (by simp)
  · simp only [Option.some.injEq] at hp
    rw [← hp]

/-- The way `add_pdf_page` ends without a defined result when the width
in PDF units does not fit in an `int`. -/
theorem add_pdf_page_box_undefined {host : Host} {g : Globals} {s s1 : pdf_state} {pagen : Int}
    {width height : Nat} {bpp bpc bpl : Int} {render_intent : String}
    {color_space : cups_cspace_t} {xdpi ydpi : Nat} {r : PrepareResult} {info : pdf_info}
    {pw ph : ℚ}
    (h1 : finish_page host s = .ok s1)
    (h2 : prepare_pdf_page g s1.info width height (toUnsigned bpl) (toUnsigned bpp)
      (toUnsigned bpc) render_intent color_space = some r)
    (h3 : r.info.line_bytes ≠ 0)
    (h4 : ¬ r.info.height > UINT_MAX / r.info.line_bytes)
    (h5 : reserve_strips r.info = some info)
    (h6 : pdf_units info.width xdpi = some pw) (h7 : pdf_units info.height ydpi = some ph)
    (h8 : box_extent (some pw) = none) :
    add_pdf_page host g s pagen width height bpp bpc bpl render_intent color_space xdpi ydpi =
      .undefined := by
  unfold add_pdf_page
  simp only [h1, h2, if_neg h3, if_neg h4, h5, h6, h7, h8]

/-- C13 (counterexample): one row of `2 ^ 25` one-bit pixels at 1 dpi.
The width in PDF units is `72 * 2 ^ 25 = 2415919104`, computed exactly;
with one half added it is beyond the largest `int`, so the conversion to
the `int` parameter of `makeIntegerBox` has no defined result, and
`add_pdf_page` sets no MediaBox, although `round(width / xdpi * 72)` is
the integer 2415919104. -/
theorem media_box_width_beyond_int :
    pdf_units 33554432 1 = some 2415919104 ∧
    ⌊((33554432 : Nat) : ℚ) / ((1 : Nat) : ℚ) * 72 + 1 / 2⌋ = 2415919104 ∧
    box_extent (pdf_units 33554432 1) = none ∧
    add_pdf_page Host.little_endian { Globals.init with cm_disabled := 1 }
      (pdf_state.configured PPD.plain) 1 33554432 1 1 1 4194304 "" .CUPS_CSPACE_K 1 1 =
      .undefined := by
  have hu : pdf_units 33554432 1 = some 2415919104 := by
    have h := pdf_units_of_mul 1 33554432 (by decide) (by decide)
    simpa using h
  have hb : box_extent (some (2415919104 : ℚ)) = none := by
    have e1 : roundDouble (((4831838209 : Nat) : ℚ) * (2 : ℚ) ^ (-1 : Int)) =
        ((4831838209 : Nat) : ℚ) * (2 : ℚ) ^ (-1 : Int) :=
      roundDouble_exact 4831838209 (-1) (by norm_num)
    have e2 : ((4831838209 : Nat) : ℚ) * (2 : ℚ) ^ (-1 : Int) = 2415919104 + 1 / 2 := by
      norm_num
    rw [e2] at e1
    simp only [box_extent, e1, doubleToInt]
    rw [if_neg (by norm_num)]
  refine ⟨hu, ?_, by rw [hu]; exact hb, ?_⟩
  · rw [Int.floor_eq_iff]
    constructor <;> norm_num
  · have hres := reserve_strips_eq
      { read_ppd_attributes PPD.plain pdf_info.init with
        width := 33554432, height := 1, line_bytes := 4194304, bpp := 1, bpc := 1,
        pclm_num_strips := 1, pclm_strip_height := [1],
        pclm_strip_data := [none],
        color_space := .CUPS_CSPACE_K } (by decide) (by decide)
    exact @add_pdf_page_box_undefined Host.little_endian _ _
      (pdf_state.configured PPD.plain) 1 _ _ _ _ _ _ _ _ _
      (⟨{ colorProfile := none, cm_disabled := 1,
               conversion_function := some .noColorConversion,
               bit_function := some .invertBits },
             { read_ppd_attributes PPD.plain pdf_info.init with
                width := 33554432, height := 1, line_bytes := 4194304, bpp := 1, bpc := 1,
                pclm_num_strips := 1, pclm_strip_height := [1],
                pclm_strip_data := [none],
                color_space := .CUPS_CSPACE_K }, 0⟩)
      _ 2415919104 72
      (finish_page_no_strips _ _ (by decide)) (by decide) (by decide) (by decide) hres
      hu pdf_units_one hb

/-- C13 (amended): for a page that `add_pdf_page` gets as far as sizing
(the page before is finished, the page is prepared with a positive row
size and passes the size check), with width, height and resolutions of
32 bits, positive resolutions, and `round(width / xdpi * 72)` and
`round(height / ydpi * 72)` below `2 ^ 31`, `add_pdf_page` returns and the
page it appends has the MediaBox
`[0, 0, round(width / xdpi * 72), round(height / ydpi * 72)]`, where
`round x` is `floor (x + 1/2)` of the exact quotient. -/
theorem add_pdf_page_media_box (host : Host) (g : Globals) (s s1 : pdf_state) (pagen : Int)
    (width height : Nat) (bpp bpc bpl : Int) (render_intent : String)
    (color_space : cups_cspace_t) (xdpi ydpi : Nat) (r : PrepareResult)
    (hfin : finish_page host s = .ok s1)
    (hprep : prepare_pdf_page g s1.info width height (toUnsigned bpl) (toUnsigned bpp)
      (toUnsigned bpc) render_intent color_space = some r)
    (hlb : 0 < r.info.line_bytes) (hsize : height * r.info.line_bytes ≤ UINT_MAX)
    (hw : width < 2 ^ 32) (hh : height < 2 ^ 32)
    (hx : 0 < xdpi) (hx2 : xdpi < 2 ^ 32) (hy : 0 < ydpi) (hy2 : ydpi < 2 ^ 32)
    (hrw : ⌊(width : ℚ) / xdpi * 72 + 1 / 2⌋ < 2 ^ 31)
    (hrh : ⌊(height : ℚ) / ydpi * 72 + 1 / 2⌋ < 2 ^ 31) :
    ∃ s2,
      add_pdf_page host g s pagen width height bpp bpc bpl render_intent color_space
        xdpi ydpi = .ok (r.globals, s2) ∧
      s2.pdf = s1.pdf ++
        [{ MediaBox := (0, 0, ⌊(width : ℚ) / xdpi * 72 + 1 / 2⌋,
             ⌊(height : ℚ) / ydpi * 72 + 1 / 2⌋),
           XObject := [], Contents := none }] ∧
      s2.page = some s1.pdf.length := by
  obtain ⟨hP, e1, e2, e3, e4, e5⟩ := prepare_pdf_page_layout hprep hh
  have ewidth := prepare_pdf_page_width hprep
  have hhl : r.info.pclm_strip_height.length = r.info.pclm_num_strips := by
    rw [e4, List.length_map, List.length_range]
  have hres := reserve_strips_eq r.info hhl e5
  have hbig : ¬ r.info.height > UINT_MAX / r.info.line_bytes := by
    rw [e1]
    intro hcon
    have := (Nat.div_lt_iff_lt_mul hlb).mp hcon
    omega
  have hux : pdf_units width xdpi =
      some (roundDouble (roundDouble ((width : ℚ) / (xdpi : ℚ)) * 72)) := by
    unfold pdf_units
    rw [if_neg (by omega)]
  have huy : pdf_units height ydpi =
      some (roundDouble (roundDouble ((height : ℚ) / (ydpi : ℚ)) * 72)) := by
    unfold pdf_units
    rw [if_neg (by omega)]
  have hbx := box_extent_pdf_units width xdpi hx hw hx2 hrw
  have hby := box_extent_pdf_units height ydpi hy hh hy2 hrh
  rw [hux] at hbx
  rw [huy] at hby
  exact ⟨_, add_pdf_page_ok hfin hprep (by omega) hbig hres
    (by simpa [ewidth] using hux) (by simpa [e1] using huy) hbx hby, rfl, rfl⟩

/-- Witness of C13 (amended): 4958 by 16 gray pixels at 600 dpi, the
width of an A4 page: `4958 / 600 * 72 = 594.96` and `16 / 600 * 72 = 1.92`
give the MediaBox `[0, 0, 595, 2]`. -/
theorem add_pdf_page_media_box_witness :
    ⌊((4958 : Nat) : ℚ) / ((600 : Nat) : ℚ) * 72 + 1 / 2⌋ = 595 ∧
    ⌊((16 : Nat) : ℚ) / ((600 : Nat) : ℚ) * 72 + 1 / 2⌋ = 2 ∧
    ∃ g1 s2,
      add_pdf_page Host.little_endian { Globals.init with cm_disabled := 1 }
        (pdf_state.configured PPD.plain) 1 4958 16 8 8 4958 "" .CUPS_CSPACE_K 600 600 =
        .ok (g1, s2) ∧
      s2.pdf = [{ MediaBox := (0, 0, 595, 2), XObject := [], Contents := none }] := by
  have f1 : ⌊((4958 : Nat) : ℚ) / ((600 : Nat) : ℚ) * 72 + 1 / 2⌋ = 595 := by
    rw [Int.floor_eq_iff]
    constructor <;> norm_num
  have f2 : ⌊((16 : Nat) : ℚ) / ((600 : Nat) : ℚ) * 72 + 1 / 2⌋ = 2 := by
    rw [Int.floor_eq_iff]
    constructor <;> norm_num
  obtain ⟨s2, h1, h2, -⟩ := add_pdf_page_media_box Host.little_endian
    { Globals.init with cm_disabled := 1 } (pdf_state.configured PPD.plain)
    (pdf_state.configured PPD.plain) 1 4958 16 8 8 4958 "" .CUPS_CSPACE_K 600 600
    ⟨{ colorProfile := none, cm_disabled := 1,
       conversion_function := some .noColorConversion,
       bit_function := some .invertBits },
     { read_ppd_attributes PPD.plain pdf_info.init with
        width := 4958, height := 16, line_bytes := 4958, bpp := 8, bpc := 8,
        pclm_num_strips := 1, pclm_strip_height := [16],
        pclm_strip_data := [none],
        color_space := .CUPS_CSPACE_K }, 0⟩
    (finish_page_no_strips _ _ (by decide)) (by decide) (by decide) (by decide) (by decide)
    (by decide) (by decide) (by decide) (by decide) (by decide)
    (by rw [f1]; decide) (by rw [f2]; decide)
  rw [f1, f2] at h2
  exact ⟨f1, f2, _, s2, h1, h2⟩

/-! ## Splitting of attribute values (`split_strings`) -/

/-- C24 (failing input): the string `,ab` split at commas.  The leading
comma raises `push_flag` while `value` is empty; the flag is lowered only
together with a push, so it is still raised when `b` is read: `a` is
pushed as a token of its own and the run `ab` comes out as `a`, `b`.  The
same happens after two adjacent delimiters.  A string without a leading
or repeated delimiter is split as expected.  In `main` the supported strip
heights `,16` are read as 1 and 6. -/
theorem split_strings_breaks_run_after_empty_token :
    split_strings ",ab" "," = ["a", "b"] ∧
    split_strings ",ab" "," ≠ ["ab"] ∧
    split_strings "a,,bc" "," = ["a", "b", "c"] ∧
    split_strings "ab,cd" "," = ["ab", "cd"] ∧
    (read_ppd_attributes ⟨none, some ",16", none, some "600dpi", none, none⟩
      pdf_info.init).pclm_strip_height_supported = [1, 6] := by
  decide

theorem filter_snoc_delimiter (delimiters : String) (l : List Char) (c : Char)
    (hc : delimiters.data.contains c = true) :
    (l ++ [c]).filter (fun d => !delimiters.data.contains d) =
      l.filter (fun d => !delimiters.data.contains d) := by
  rw [List.filter_append, List.filter_cons, List.filter_nil]
  simp only [hc, Bool.not_true, Bool.false_eq_true, if_false, List.append_nil]

theorem filter_snoc_other (delimiters : String) (l : List Char) (c : Char)
    (hc : delimiters.data.contains c = false) :
    (l ++ [c]).filter (fun d => !delimiters.data.contains d) =
      l.filter (fun d => !delimiters.data.contains d) ++ [c] := by
  rw [List.filter_append, List.filter_cons, List.filter_nil]
  simp only [hc, Bool.not_false, if_true]

theorem flatten_snoc (vec : List String) (value : String) :
    ((vec ++ [value]).map String.data).flatten =
      (vec.map String.data).flatten ++ value.data := by
  rw [List.map_append, List.flatten_append]
  simp only [List.map_cons, List.map_nil, List.flatten_cons, List.flatten_nil, List.append_nil]

/-- The invariant of the loop of `split_strings` after the characters `l`
have been read. -/
theorem split_step_invariant (delimiters : String) (st : SplitState) (c : Char) (l : List Char)
    (h1 : ∀ t ∈ st.vec, t.data ≠ [] ∧ ∀ d ∈ t.data, delimiters.data.contains d = false)
    (h2 : ∀ d ∈ st.value.data, delimiters.data.contains d = false)
    (h3 : (st.vec.map String.data).flatten ++ st.value.data =
      l.filter (fun d => !delimiters.data.contains d)) :
    (∀ t ∈ (split_step delimiters st c).vec,
      t.data ≠ [] ∧ ∀ d ∈ t.data, delimiters.data.contains d = false) ∧
    (∀ d ∈ (split_step delimiters st c).value.data, delimiters.data.contains d = false) ∧
    ((split_step delimiters st c).vec.map String.data).flatten ++
      (split_step delimiters st c).value.data =
      (l ++ [c]).filter (fun d => !delimiters.data.contains d) := by
  -- the state after the push of lines 202-207
  obtain ⟨st1, hst1, p1, p2, p3⟩ : ∃ st1 : SplitState,
      st1 = (if st.push_flag && !st.value.data.isEmpty then
        { vec := st.vec ++ [st.value], value := "", push_flag := false } else st) ∧
      (∀ t ∈ st1.vec, t.data ≠ [] ∧ ∀ d ∈ t.data, delimiters.data.contains d = false) ∧
      (∀ d ∈ st1.value.data, delimiters.data.contains d = false) ∧
      (st1.vec.map String.data).flatten ++ st1.value.data =
        l.filter (fun d => !delimiters.data.contains d) := by
    refine ⟨_, rfl, ?_⟩
    by_cases hp : (st.push_flag && !st.value.data.isEmpty) = true
    · rw [if_pos hp]
      have hne : st.value.data ≠ [] := by
        intro h
        rw [h] at hp
        simp at hp
      refine ⟨?_, ?_, ?_⟩
      · intro t ht
        rcases List.mem_append.mp ht with h | h
        · exact h1 t h
        · rw [List.mem_singleton] at h
          subst h
          exact ⟨hne, h2⟩
      · intro d hd
        exact absurd hd (List.not_mem_nil d)
      · show ((st.vec ++ [st.value]).map String.data).flatten ++ [] = _
        rw [List.append_nil, flatten_snoc, h3]
    · rw [if_neg hp]
      exact ⟨h1, h2, h3⟩
  have hstep : split_step delimiters st c =
      if delimiters.data.contains c then { st1 with push_flag := true }
      else { st1 with value := st1.value ++ String.singleton c } := by
    rw [hst1]
    rfl
  rw [hstep]
  cases hc : delimiters.data.contains c with
  | true =>
    rw [if_pos rfl]
    exact ⟨p1, p2, by rw [filter_snoc_delimiter delimiters l c hc]; exact p3⟩
  | false =>
    rw [if_neg (by simp)]
    have hdata : (st1.value ++ String.singleton c).data = st1.value.data ++ [c] := by
      rw [String.data_append]
      rfl
    refine ⟨p1, ?_, ?_⟩
    · intro d hd
      rw [show ({ st1 with value := st1.value ++ String.singleton c } : SplitState).value.data =
        st1.value.data ++ [c] from hdata] at hd
      rcases List.mem_append.mp hd with h | h
      · exact p2 d h
      · rw [List.mem_singleton] at h
        subst h
        exact hc
    · show (st1.vec.map String.data).flatten ++ (st1.value ++ String.singleton c).data = _
      rw [hdata, ← List.append_assoc, p3, filter_snoc_other delimiters l c hc]

theorem split_fold_invariant (delimiters : String) (cs : List Char) :
    ∀ (st : SplitState) (l : List Char),
      (∀ t ∈ st.vec, t.data ≠ [] ∧ ∀ d ∈ t.data, delimiters.data.contains d = false) →
      (∀ d ∈ st.value.data, delimiters.data.contains d = false) →
      (st.vec.map String.data).flatten ++ st.value.data =
        l.filter (fun d => !delimiters.data.contains d) →
      (∀ t ∈ (cs.foldl (split_step delimiters) st).vec,
        t.data ≠ [] ∧ ∀ d ∈ t.data, delimiters.data.contains d = false) ∧
      (∀ d ∈ (cs.foldl (split_step delimiters) st).value.data,
        delimiters.data.contains d = false) ∧
      ((cs.foldl (split_step delimiters) st).vec.map String.data).flatten ++
        (cs.foldl (split_step delimiters) st).value.data =
        (l ++ cs).filter (fun d => !delimiters.data.contains d) := by
  induction cs with
  | nil =>
    intro st l h1 h2 h3
    rw [List.append_nil]
    exact ⟨h1, h2, h3⟩
  | cons c cs ih =>
    intro st l h1 h2 h3
    obtain ⟨q1, q2, q3⟩ := split_step_invariant delimiters st c l h1 h2 h3
    have := ih (split_step delimiters st c) (l ++ [c]) q1 q2 q3
    rw [List.append_assoc, List.singleton_append] at this
    exact this

/-- C29: for every input string and delimiter set, no token returned by
`split_strings` is empty or contains a delimiter character, and the
tokens concatenated in order are the input with all delimiter characters
removed. -/
theorem split_strings_tokens (str delimiters : String) :
    (∀ t ∈ split_strings str delimiters,
      t.data ≠ [] ∧ ∀ d ∈ t.data, delimiters.data.contains d = false) ∧
    ((split_strings str delimiters).map String.data).flatten =
      str.data.filter (fun d => !delimiters.data.contains d) := by
  obtain ⟨q1, q2, q3⟩ := split_fold_invariant delimiters str.data
    { vec := [], value := "", push_flag := false } []
    (fun t ht => absurd ht (List.not_mem_nil t)) (fun d hd => absurd hd (List.not_mem_nil d))
    rfl
  simp only [List.nil_append] at q3
  unfold split_strings
  by_cases hv : (!(str.data.foldl (split_step delimiters)
      { vec := [], value := "", push_flag := false }).value.data.isEmpty) = true
  · simp only [hv, if_true]
    have hne : (str.data.foldl (split_step delimiters)
        { vec := [], value := "", push_flag := false }).value.data ≠ [] := by
      intro h
      rw [h] at hv
      simp at hv
    constructor
    · intro t ht
      rcases List.mem_append.mp ht with h | h
      · exact q1 t h
      · rw [List.mem_singleton] at h
        subst h
        exact ⟨hne, q2⟩
    · rw [← q3, flatten_snoc]
  · simp only [hv]
    have he : (str.data.foldl (split_step delimiters)
        { vec := [], value := "", push_flag := false }).value.data = [] := by
      simpa using hv
    refine ⟨q1, ?_⟩
    rw [← q3, he, List.append_nil]
    rfl

/-! ## Option lists (`lookup_opt`) -/

theorem lookup_opt_loop_eq (key : String) (opt : List opt_t) :
    lookup_opt_loop key opt =
      match opt.find? (fun e => e.key.isSome && e.val.isSome && e.key == some key) with
      | none => none
      | some e => e.val := by
  induction opt with
  | nil => rfl
  | cons e next ih =>
    rcases e with ⟨k, v⟩
    cases k with
    | none =>
      rw [lookup_opt_loop, List.find?_cons]
      simp only [Option.isSome_none, Bool.false_and]
      exact ih
    | some k =>
      cases v with
      | none =>
        rw [lookup_opt_loop, List.find?_cons]
        simp only [Option.isSome_none, Bool.and_false, Bool.false_and]
        exact ih
      | some v =>
        rw [lookup_opt_loop, List.find?_cons]
        by_cases hk : k = key
        · subst hk
          simp
        · simp only [hk, if_false, Option.isSome_some, Bool.true_and]
          have : (some k == some key) = false := by
            simp [hk]
          rw [this]
          exact ih

/-- C25: `lookup_opt` returns the value of the first list entry, in list
order, that has both a key and a value and whose key equals the requested
key, and the null pointer when the list is null (empty), the key is null,
or no such entry exists.  The last part spells the result out by
position. -/
theorem lookup_opt_returns_first_match (opt : List opt_t) (key : Option String) :
    lookup_opt opt key = lookup_opt_first opt key ∧
    lookup_opt [] key = none ∧
    lookup_opt opt none = none ∧
    (∀ k, (∀ e ∈ opt, ¬ (e.key = some k ∧ e.val.isSome = true)) →
      lookup_opt opt (some k) = none) ∧
    (∀ k v, lookup_opt opt (some k) = some v ↔
      ∃ (i : Nat) (e : opt_t), opt[i]? = some e ∧ e.key = some k ∧ e.val = some v ∧
        ∀ j, j < i → ∀ e1 : opt_t, opt[j]? = some e1 → ¬ (e1.key = some k ∧ e1.val.isSome = true)) := by
  have hsome : ∀ k, lookup_opt opt (some k) = lookup_opt_loop k opt := by
    intro k
    cases opt <;> rfl
  have hnone : lookup_opt opt none = none := by
    cases opt <;> rfl
  have hpos : ∀ (l : List opt_t) (k v : String), lookup_opt_loop k l = some v ↔
      ∃ (i : Nat) (e : opt_t), l[i]? = some e ∧ e.key = some k ∧ e.val = some v ∧
        ∀ j, j < i → ∀ e1 : opt_t, l[j]? = some e1 →
          ¬ (e1.key = some k ∧ e1.val.isSome = true) := by
    intro l k v
    induction l with
    | nil =>
      constructor
      · intro h; exact absurd h (by simp [lookup_opt_loop])
      · rintro ⟨i, e, h, -⟩
        simp at h
    | cons e next ih =>
      have hmatch : (e.key = some k ∧ e.val.isSome = true) ∨
          ¬ (e.key = some k ∧ e.val.isSome = true) := Classical.em _
      rcases hmatch with hm | hm
      · obtain ⟨hk, hv⟩ := hm
        obtain ⟨v0, hv0⟩ := Option.isSome_iff_exists.mp hv
        have hl : lookup_opt_loop k (e :: next) = some v0 := by
          rw [lookup_opt_loop, hk, hv0]
          simp
        rw [hl]
        constructor
        · intro h
          simp only [Option.some.injEq] at h
          subst h
          exact ⟨0, e, List.getElem?_cons_zero, hk, hv0, fun j hj => absurd hj (Nat.not_lt_zero j)⟩
        · rintro ⟨i, e1, h1, h2, h3, h4⟩
          cases i with
          | zero =>
            simp only [List.getElem?_cons_zero, Option.some.injEq] at h1
            subst h1
            rw [hv0] at h3
            exact h3
          | succ i =>
            exact absurd ⟨hk, hv⟩ (h4 0 (Nat.succ_pos i) e List.getElem?_cons_zero)
      · have hl : lookup_opt_loop k (e :: next) = lookup_opt_loop k next := by
          rw [lookup_opt_loop]
          rcases e with ⟨ek, ev⟩
          cases ek with
          | none => rfl
          | some ek =>
            cases ev with
            | none => rfl
            | some ev =>
              have : ek ≠ k := by
                intro h
                exact hm ⟨by rw [h], rfl⟩
              simp [this]
        rw [hl, ih]
        constructor
        · rintro ⟨i, e1, h1, h2, h3, h4⟩
          refine ⟨i + 1, e1, by simpa using h1, h2, h3, ?_⟩
          intro j hj e2 he2
          cases j with
          | zero =>
            simp only [List.getElem?_cons_zero, Option.some.injEq] at he2
            subst he2
            exact hm
          | succ j =>
            exact h4 j (by omega) e2 (by simpa using he2)
        · rintro ⟨i, e1, h1, h2, h3, h4⟩
          cases i with
          | zero =>
            simp only [List.getElem?_cons_zero, Option.some.injEq] at h1
            subst h1
            exact absurd ⟨h2, by rw [h3]; rfl⟩ hm
          | succ i =>
            refine ⟨i, e1, by simpa using h1, h2, h3, ?_⟩
            intro j hj e2 he2
            exact h4 (j + 1) (by omega) e2 (by simpa using he2)
  refine ⟨?_, by cases key <;> rfl, hnone, ?_, ?_⟩
  · cases key with
    | none => rw [hnone]; rfl
    | some k =>
      rw [hsome, lookup_opt_loop_eq]
      rfl
  · intro k hall
    rw [hsome]
    cases h : lookup_opt_loop k opt with
    | none => rfl
    | some v =>
      obtain ⟨i, e, h1, h2, h3, -⟩ := (hpos opt k v).mp h
      have hmem : e ∈ opt := by
        obtain ⟨hi, he⟩ := List.getElem?_eq_some_iff.mp h1
        rw [← he]
        exact List.getElem_mem hi
      exact absurd ⟨h2, by rw [h3]; rfl⟩ (hall e hmem)
  · intro k v
    rw [hsome]
    exact hpos opt k v

/-! ## Bounds of the row copy (`pdf_set_line`) -/

/-- C26: for every page that `add_pdf_page` has prepared (the preferred
strip height `P` is then not zero) and every row index `r` below the page
height, the strip index `r / P` is below the strip count and inside the
holder vector, the holder has a buffer, and
`((r mod P) + 1) * line_bytes` is at most the size of that buffer; the
`unsigned` products of `pdf_set_line` do not wrap, so the copy stays
inside the strip list and inside the buffer, and `pdf_set_line` returns
for every row of at least `line_bytes` bytes. -/
theorem pdf_set_line_within_bounds (host : Host) (g g1 : Globals) (s s2 : pdf_state)
    (pagen : Int) (width height : Nat) (bpp bpc bpl : Int) (render_intent : String)
    (color_space : cups_cspace_t) (xdpi ydpi : Nat) (r : Nat)
    (hadd : add_pdf_page host g s pagen width height bpp bpc bpl render_intent color_space
      xdpi ydpi = .ok (g1, s2))
    (hH : height < 2 ^ 32) (hr : r < height) :
    0 < s2.info.pclm_strip_height_preferred ∧
    s2.info.height = height ∧
    r / s2.info.pclm_strip_height_preferred < s2.info.pclm_num_strips ∧
    r / s2.info.pclm_strip_height_preferred < s2.info.pclm_strip_data.length ∧
    ∃ buf,
      s2.info.pclm_strip_data[r / s2.info.pclm_strip_height_preferred]? = some (some buf) ∧
      (r % s2.info.pclm_strip_height_preferred + 1) * s2.info.line_bytes ≤ buf.length ∧
      (r % s2.info.pclm_strip_height_preferred + 1) * s2.info.line_bytes < 2 ^ 32 ∧
      ∀ row : List Nat, s2.info.line_bytes ≤ row.length →
        ∃ info1, pdf_set_line s2.info r row = some info1 ∧ page_open info1 := by
  obtain ⟨hopen, hheight⟩ := add_pdf_page_page_open hadd hH
  have hr' : r < s2.info.height := by omega
  obtain ⟨hi, buf, hbuf, hlen, hfit, hmax⟩ := page_open_strip_of_row hopen hr'
  obtain ⟨-, hdlen, -⟩ := page_open_holders hopen
  refine ⟨hopen.1, hheight, hi, by omega, buf, hbuf, ?_, ?_, ?_⟩
  · rw [Nat.add_mul, Nat.one_mul]; exact hfit
  · rw [Nat.add_mul, Nat.one_mul]
    have : UINT_MAX < 2 ^ 32 := by decide
    omega
  · intro row hrow
    have hset := pdf_set_line_eq hopen hr' hrow hbuf
    exact ⟨_, hset, (pdf_set_line_page_open hopen hr' hrow hset).1⟩

/-- The page of 20 rows of 4 gray pixels at 1 dpi, opened at the start of
`main`. -/
theorem add_pdf_page_two_strips :
    add_pdf_page Host.little_endian { Globals.init with cm_disabled := 1 }
        (pdf_state.configured PPD.plain) 1 4 20 8 8 4 "" .CUPS_CSPACE_K 1 1 =
      .ok ({ colorProfile := none, cm_disabled := 1,
             conversion_function := some .noColorConversion,
             bit_function := some .invertBits }, pdf_state.two_strips) := by
  have hw : pdf_units 4 1 = some 288 := by
    have h := pdf_units_of_mul 1 4 (by decide) (by decide)
    simpa using h
  have hh : pdf_units 20 1 = some 1440 := by
    have h := pdf_units_of_mul 1 20 (by decide) (by decide)
    simpa using h
  have bw : box_extent (some 288) = some 288 := by
    have h := box_extent_natCast 288 (by decide)
    simpa using h
  have bh : box_extent (some 1440) = some 1440 := by
    have h := box_extent_natCast 1440 (by decide)
    simpa using h
  exact @add_pdf_page_ok Host.little_endian { Globals.init with cm_disabled := 1 }
    (pdf_state.configured PPD.plain) (pdf_state.configured PPD.plain) 1 4 20 8 8 4 ""
    .CUPS_CSPACE_K 1 1
    ⟨{ colorProfile := none, cm_disabled := 1,
       conversion_function := some .noColorConversion,
       bit_function := some .invertBits },
     { read_ppd_attributes PPD.plain pdf_info.init with
        width := 4, height := 20, line_bytes := 4, bpp := 8, bpc := 8,
        pclm_num_strips := 2, pclm_strip_height := [16, 4],
        pclm_strip_data := [none, none] }, 0⟩
    pdf_state.two_strips.info 288 1440 288 1440
    (finish_page_no_strips _ _ (by decide)) (by decide) (by decide) (by decide) (by decide)
    hw hh bw bh

/-- Witness of C26: row 19, the last one, of the page of 20 rows in strips
of 16 and 4 rows. -/
theorem pdf_set_line_within_bounds_witness :
    (20 : Nat) < 2 ^ 32 ∧ 19 < 20 ∧
    19 / pdf_state.two_strips.info.pclm_strip_height_preferred = 1 ∧
    19 % pdf_state.two_strips.info.pclm_strip_height_preferred = 3 ∧
    0 < pdf_state.two_strips.info.pclm_strip_height_preferred ∧
    pdf_state.two_strips.info.height = 20 ∧
    19 / pdf_state.two_strips.info.pclm_strip_height_preferred <
      pdf_state.two_strips.info.pclm_num_strips ∧
    19 / pdf_state.two_strips.info.pclm_strip_height_preferred <
      pdf_state.two_strips.info.pclm_strip_data.length ∧
    ∃ buf,
      pdf_state.two_strips.info.pclm_strip_data[
        19 / pdf_state.two_strips.info.pclm_strip_height_preferred]? = some (some buf) ∧
      (19 % pdf_state.two_strips.info.pclm_strip_height_preferred + 1) *
        pdf_state.two_strips.info.line_bytes ≤ buf.length ∧
      (19 % pdf_state.two_strips.info.pclm_strip_height_preferred + 1) *
        pdf_state.two_strips.info.line_bytes < 2 ^ 32 ∧
      ∀ row : List Nat, pdf_state.two_strips.info.line_bytes ≤ row.length →
        ∃ info1, pdf_set_line pdf_state.two_strips.info 19 row = some info1 ∧
          page_open info1 :=
  ⟨by decide, by decide, by decide, by decide,
    pdf_set_line_within_bounds Host.little_endian _ _ _ _ 1 4 20 8 8 4 "" .CUPS_CSPACE_K 1 1 19
      add_pdf_page_two_strips (by decide) (by decide)⟩

/-! ## Pages in a colour space `makePclmStrips` does not encode -/

/-- The colour space a prepared page declares: the raster's own without a
profile, `CUPS_CSPACE_CMYK` under a CMYK profile. -/
theorem prepare_pdf_page_color_space {g : Globals} {info : pdf_info}
    {width height bpl bpp bpc : Nat} {render_intent : String} {color_space : cups_cspace_t}
    {r : PrepareResult}
    (h : prepare_pdf_page g info width height bpl bpp bpc render_intent color_space = some r) :
    (g.colorProfile = none → r.info.color_space = color_space) ∧
    (g.colorProfile = some .cmsSigCmykData → r.info.color_space = .CUPS_CSPACE_CMYK) := by
  obtain ⟨p, hp, -⟩ := prepare_pdf_page_plan h
  have hpc : p.color_space = color_space := by
    unfold register_page at hp
    split at hp
    · exact absurd hp (by simp)
    · simp only [Option.some.injEq] at hp
      rw [← hp]
  rw [prepare_pdf_page_eq hp] at h
  constructor
  · intro hg
    rw [select_conversion_none p color_space hg] at h
    simp only [if_true] at h
    obtain ⟨q, hq, hr⟩ := Option.map_eq_some'.mp h
    rw [← hr]
    exact ((convertPdf_call_frame hq).1.2.2.2.2.2.2.1).trans hpc
  · intro hg
    rw [select_conversion_cmyk p color_space hg] at h
    simp only [if_true] at h
    obtain ⟨q, hq, hr⟩ := Option.map_eq_some'.mp h
    rw [← hr]
    exact (convertPdf_call_frame hq).1.2.2.2.2.2.2.1

/-- C27: a page with at least one strip, a buffer in every strip holder,
and a declared output colour space that is neither gray (K, SW) nor RGB
(RGB, sRGB, AdobeRGB): `makePclmStrips` returns uninitialized handles
only, one per strip, and `finish_page` ends the run through
`die("Unable to load strip data")`; the page object gets no image
resource, since the run stops before line 515.  Every page prepared from
a CMYK raster without a profile, or from any raster under a CMYK profile,
declares the colour space CMYK and is such a page. -/
theorem finish_page_dies_on_unsupported_space (host : Host) (s : pdf_state)
    (hN : s.info.pclm_num_strips ≠ 0)
    (hdata : s.info.pclm_strip_data.any (fun p => p.isNone) = false)
    (hcs : s.info.color_space ∉ [cups_cspace_t.CUPS_CSPACE_K, .CUPS_CSPACE_SW,
      .CUPS_CSPACE_RGB, .CUPS_CSPACE_SRGB, .CUPS_CSPACE_ADOBERGB]) :
    makePclmStrips s.info.pclm_num_strips s.info.pclm_strip_data
        s.info.pclm_compression_method_preferred s.info.width s.info.pclm_strip_height
        s.info.color_space s.info.bpc =
      some (List.replicate s.info.pclm_num_strips .uninitialized) ∧
    finish_page host s = .die "Unable to load strip data" ∧
    close_pdf_file host s = .die "Unable to load strip data" ∧
    (∀ (g : Globals) (info : pdf_info) (width height bpl bpp bpc : Nat)
        (render_intent : String) (color_space : cups_cspace_t) (r : PrepareResult),
      prepare_pdf_page g info width height bpl bpp bpc render_intent color_space = some r →
      ((g.colorProfile = none ∧ color_space = .CUPS_CSPACE_CMYK) ∨
        g.colorProfile = some .cmsSigCmykData) →
      r.info.color_space = .CUPS_CSPACE_CMYK ∧
      r.info.color_space ∉ [cups_cspace_t.CUPS_CSPACE_K, .CUPS_CSPACE_SW,
        .CUPS_CSPACE_RGB, .CUPS_CSPACE_SRGB, .CUPS_CSPACE_ADOBERGB]) := by
  have hmk : makePclmStrips s.info.pclm_num_strips s.info.pclm_strip_data
      s.info.pclm_compression_method_preferred s.info.width s.info.pclm_strip_height
      s.info.color_space s.info.bpc =
      some (List.replicate s.info.pclm_num_strips .uninitialized) := by
    unfold makePclmStrips
    cases hc : s.info.color_space <;> first
      | rfl
      | (rw [hc] at hcs; exact absurd hcs (by simp))
  have hun : ((List.replicate s.info.pclm_num_strips QPDFObjectHandle.uninitialized).take
      s.info.pclm_num_strips).any (fun h => !h.isInitialized) = true := by
    obtain ⟨n, hn⟩ : ∃ n, s.info.pclm_num_strips = n + 1 :=
      ⟨s.info.pclm_num_strips - 1, by omega⟩
    rw [hn]
    simp [List.replicate_succ, QPDFObjectHandle.isInitialized]
  have hfin : finish_page host s = .die "Unable to load strip data" := by
    unfold finish_page
    simp only [if_neg hN, hdata, hmk, hun]
    rfl
  refine ⟨hmk, hfin, ?_, ?_⟩
  · unfold close_pdf_file
    rw [hfin]
  · intro g info width height bpl bpp bpc render_intent color_space r hprep hcase
    obtain ⟨c1, c2⟩ := prepare_pdf_page_color_space hprep
    have hc : r.info.color_space = .CUPS_CSPACE_CMYK := by
      rcases hcase with ⟨hg, hcs'⟩ | hg
      · rw [c1 hg, hcs']
      · exact c2 hg
    refine ⟨hc, ?_⟩
    rw [hc]
    decide

/-- Witness of C27: the one-pixel CMYK page after its row has been read. -/
theorem finish_page_dies_on_unsupported_space_witness :
    ∃ g s,
      page_loop Host.little_endian [RasterPage.cmyk_pixel] 0
        { Globals.init with cm_disabled := 1 } (pdf_state.configured PPD.plain) =
          .ok (1, g, s) ∧
      s.info.pclm_num_strips ≠ 0 ∧
      s.info.pclm_strip_data.any (fun p => p.isNone) = false ∧
      s.info.color_space = .CUPS_CSPACE_CMYK ∧
      makePclmStrips s.info.pclm_num_strips s.info.pclm_strip_data
          s.info.pclm_compression_method_preferred s.info.width s.info.pclm_strip_height
          s.info.color_space s.info.bpc =
        some (List.replicate s.info.pclm_num_strips .uninitialized) ∧
      finish_page Host.little_endian s = .die "Unable to load strip data" :=
  ⟨_, _, page_loop_cmyk_pixel, by decide, by decide, by decide,
    (finish_page_dies_on_unsupported_space Host.little_endian _ (by decide) (by decide)
      (by decide)).1,
    (finish_page_dies_on_unsupported_space Host.little_endian _ (by decide) (by decide)
      (by decide)).2.1⟩

/-! ## The vertical anchors of the strips (`finish_page`, lines 530-541) -/

/-- The text `place_strips` builds places the strips at the values
`strip_anchors` lists. -/
theorem place_strips_anchors (info : pdf_info) :
    ∀ n i y, place_strips info n i y =
      (strip_anchors info n i y).map fun ys =>
        ((List.range' i n).zip ys).foldr
          (fun ky rest =>
            "/P <</MCID 0>> BDC q\n" ++
              (int_to_string info.width ++ " 0 0 " ++
                int_to_string (info.pclm_strip_height.getD ky.1 0) ++ " 0 " ++
                int_to_string ky.2 ++ " cm\n") ++
              (image_name info.pclm_num_strips ky.1 ++ " Do Q\n") ++ rest) "" := by
  intro n
  induction n with
  | zero => intro i y; rfl
  | succ n ih =>
    intro i y
    rw [place_strips, strip_anchors]
    cases hh : info.pclm_strip_height[i]? with
    | none => rfl
    | some h =>
      simp only
      rw [ih]
      cases strip_anchors info n (i + 1) ((y + UINT_MOD - h) % UINT_MOD) with
      | none => rfl
      | some rest =>
        simp only [Option.map_some', List.range'_succ, List.zip_cons_cons, List.foldr_cons,
          List.getD_eq_getElem?_getD, hh, Option.getD_some]

/-- The anchors when no subtraction wraps: strip `k` is anchored at `H`
minus the heights of the strips up to and including `k`. -/
theorem strip_anchors_eq (info : pdf_info) (H : Nat) (hH : H < 2 ^ 32)
    (hsum : ∀ m, (info.pclm_strip_height.take m).sum ≤ H) :
    ∀ n i, i + n ≤ info.pclm_strip_height.length →
      strip_anchors info n i (H - (info.pclm_strip_height.take i).sum) =
        some ((List.range' i n).map
          fun k => H - (info.pclm_strip_height.take (k + 1)).sum) := by
  intro n
  induction n with
  | zero => intro i _; rfl
  | succ n ih =>
    intro i hi
    have hlt : i < info.pclm_strip_height.length := by omega
    have hstep := List.sum_take_succ info.pclm_strip_height i hlt
    have h1 := hsum (i + 1)
    have hy : (H - (info.pclm_strip_height.take i).sum + UINT_MOD -
        info.pclm_strip_height[i]) % UINT_MOD =
        H - (info.pclm_strip_height.take (i + 1)).sum := by
      have hmod : UINT_MOD = 2 ^ 32 := rfl
      rw [hstep] at h1 ⊢
      have : H - (info.pclm_strip_height.take i).sum + UINT_MOD - info.pclm_strip_height[i] =
          (H - ((info.pclm_strip_height.take i).sum + info.pclm_strip_height[i])) +
            UINT_MOD := by omega
      rw [this, Nat.add_mod_right]
      apply Nat.mod_eq_of_lt
      omega
    rw [strip_anchors, List.getElem?_eq_getElem hlt]
    simp only [hy]
    rw [ih (i + 1) (by omega)]
    simp only [List.range'_succ, List.map_cons]

/-- C28: for strip heights `h_0, ..., h_{N-1}` planned by
`prepare_pdf_page` for a page of height `H` (below `2 ^ 32`, preferred
strip height not zero), the running anchor of `finish_page`, started at
`H`, takes the values `y_i = H - (h_0 + ... + h_i)`: each subtraction
takes at most what is left (no wrap in `unsigned`), every strip height is
positive so the anchor strictly decreases, `y_i + h_i` is the anchor
before it (`H` for the first strip), the last anchor is 0, and every
`y < H` lies in exactly one rectangle `[y_i, y_i + h_i)`. -/
theorem strip_anchors_tile_page (g : Globals) (info : pdf_info)
    (width height bpl bpp bpc : Nat) (render_intent : String) (color_space : cups_cspace_t)
    (r : PrepareResult)
    (hprep : prepare_pdf_page g info width height bpl bpp bpc render_intent color_space =
      some r)
    (hH : height < 2 ^ 32) :
    ∃ ys : List Nat,
      strip_anchors r.info r.info.pclm_num_strips 0 r.info.height = some ys ∧
      ys.length = r.info.pclm_num_strips ∧
      r.info.pclm_strip_height.length = r.info.pclm_num_strips ∧
      (∀ i, i < r.info.pclm_num_strips →
        ∃ h y, r.info.pclm_strip_height[i]? = some h ∧ ys[i]? = some y ∧
          0 < h ∧
          h ≤ (if i = 0 then height else ys.getD (i - 1) 0) ∧
          y + h = (if i = 0 then height else ys.getD (i - 1) 0) ∧
          y < (if i = 0 then height else ys.getD (i - 1) 0) ∧
          y = height - (r.info.pclm_strip_height.take (i + 1)).sum) ∧
      (0 < r.info.pclm_num_strips → ys[r.info.pclm_num_strips - 1]? = some 0) ∧
      (∀ y, y < height →
        ∃! i, i < r.info.pclm_num_strips ∧
          ys.getD i 0 ≤ y ∧ y < ys.getD i 0 + r.info.pclm_strip_height.getD i 0) := by
  obtain ⟨hP, e1, e2, e3, e4, e5⟩ := prepare_pdf_page_layout hprep hH
  generalize info.pclm_strip_height_preferred = P at *
  obtain ⟨f1, f2, -, -⟩ := strip_count_facts height P hP
  rw [← e3] at f1 f2
  generalize hN : r.info.pclm_num_strips = N at *
  have hlen : r.info.pclm_strip_height.length = N := by
    rw [e4, List.length_map, List.length_range]
  have hS : ∀ i, i ≤ N → (r.info.pclm_strip_height.take i).sum = min (i * P) height := by
    intro i hi
    rw [e4, sum_take_min, Nat.min_eq_left hi]
  have hsum : ∀ m, (r.info.pclm_strip_height.take m).sum ≤ height := by
    intro m
    rw [e4, sum_take_min]
    exact Nat.min_le_right _ _
  have hget : ∀ i, i < N → r.info.pclm_strip_height[i]? = some (min P (height - i * P)) := by
    intro i hi
    rw [e4, List.getElem?_map, List.getElem?_range hi]
    rfl
  have hanch := strip_anchors_eq r.info height hH hsum N 0 (by omega)
  simp only [List.take_zero, List.sum_nil, Nat.sub_zero] at hanch
  rw [← List.range_eq_range'] at hanch
  rw [e1]
  have hys : ∀ i, i < N →
      ((List.range N).map fun k => height - (r.info.pclm_strip_height.take (k + 1)).sum)[i]? =
        some (height - min ((i + 1) * P) height) := by
    intro i hi
    rw [List.getElem?_map, List.getElem?_range hi]
    simp only [Option.map_some']
    rw [hS (i + 1) (by omega)]
  have hysD : ∀ i, i < N →
      ((List.range N).map fun k => height - (r.info.pclm_strip_height.take (k + 1)).sum).getD
        i 0 = height - min ((i + 1) * P) height := by
    intro i hi
    rw [List.getD_eq_getElem?_getD, hys i hi]
    rfl
  have hprev : ∀ i, i < N →
      (if i = 0 then height else
        ((List.range N).map fun k =>
          height - (r.info.pclm_strip_height.take (k + 1)).sum).getD (i - 1) 0) =
        height - i * P := by
    intro i hi
    have hiP := f2 i hi
    by_cases h0 : i = 0
    · subst h0; simp
    · rw [if_neg h0, hysD (i - 1) (by omega)]
      have : i - 1 + 1 = i := by omega
      rw [this]
      omega
  refine ⟨_, hanch, by simp, hlen, ?_, ?_, ?_⟩
  · intro i hi
    have hiP := f2 i hi
    refine ⟨_, _, hget i hi, hys i hi, by omega, ?_, ?_, ?_, ?_⟩
    · rw [hprev i hi]; omega
    · rw [hprev i hi, Nat.add_mul, Nat.one_mul]; omega
    · rw [hprev i hi, Nat.add_mul, Nat.one_mul]; omega
    · rw [hS (i + 1) (by omega)]
  · intro hpos
    rw [hys (N - 1) (by omega)]
    have : N - 1 + 1 = N := by omega
    rw [this]
    congr 1
    omega
  · intro y hy
    have hz : (height - y - 1) / P < N := by
      rw [Nat.div_lt_iff_lt_mul hP]; omega
    have hdm := Nat.div_add_mod (height - y - 1) P
    have hmod := Nat.mod_lt (height - y - 1) hP
    have hD : ∀ i, i < N → r.info.pclm_strip_height.getD i 0 = min P (height - i * P) := by
      intro i hi
      rw [List.getD_eq_getElem?_getD, hget i hi]
      rfl
    refine ⟨(height - y - 1) / P, ⟨hz, ?_, ?_⟩, ?_⟩
    · rw [hysD _ hz, Nat.add_mul, Nat.one_mul, Nat.mul_comm]
      omega
    · rw [hysD _ hz, hD _ hz, Nat.add_mul, Nat.one_mul, Nat.mul_comm]
      omega
    · rintro j ⟨hj, h1, h2⟩
      rw [hysD _ hj] at h1 h2
      rw [hD _ hj] at h2
      have hjP := f2 j hj
      rw [Nat.add_mul, Nat.one_mul] at h1 h2
      symm
      apply Nat.div_eq_of_lt_le
      · omega
      · rw [Nat.add_mul, Nat.one_mul]
        omega

/-- Witness of C28: 20 rows in strips of 16 and 4 rows are anchored at 4
and 0. -/
theorem strip_anchors_tile_page_witness :
    ∃ r : PrepareResult,
      prepare_pdf_page { Globals.init with cm_disabled := 1 }
        (pdf_state.configured PPD.plain).info 4 20 4 8 8 "" .CUPS_CSPACE_K = some r ∧
      (20 : Nat) < 2 ^ 32 ∧
      strip_anchors r.info r.info.pclm_num_strips 0 r.info.height = some [4, 0] ∧
      ∃ ys : List Nat,
        strip_anchors r.info r.info.pclm_num_strips 0 r.info.height = some ys ∧
        ys.length = r.info.pclm_num_strips ∧
        (0 < r.info.pclm_num_strips → ys[r.info.pclm_num_strips - 1]? = some 0) ∧
        (∀ y, y < 20 →
          ∃! i, i < r.info.pclm_num_strips ∧
            ys.getD i 0 ≤ y ∧ y < ys.getD i 0 + r.info.pclm_strip_height.getD i 0) := by
  obtain ⟨ys, h1, h2, -, -, h5, h6⟩ := strip_anchors_tile_page
    { Globals.init with cm_disabled := 1 } (pdf_state.configured PPD.plain).info 4 20 4 8 8 ""
    .CUPS_CSPACE_K
    ⟨{ colorProfile := none, cm_disabled := 1,
       conversion_function := some .noColorConversion,
       bit_function := some .invertBits },
     { read_ppd_attributes PPD.plain pdf_info.init with
        width := 4, height := 20, line_bytes := 4, bpp := 8, bpc := 8,
        pclm_num_strips := 2, pclm_strip_height := [16, 4],
        pclm_strip_data := [none, none] }, 0⟩
    (by decide) (by decide)
  exact ⟨_, by decide, by decide, by decide, ys, h1, h2, h5, h6⟩

/-! ## The streams `makePclmStrips` returns -/

/-- What a defined run of the loop body of lines 467-496 leaves in strip
`i`: the dictionary with the strip's height, and the strip's buffer sent
through the pipeline of the chosen method. -/
theorem encode_strip_some {compression : CompressionMethod} {dict : List (String × PdfValue)}
    {components : Nat} {color_space : J_COLOR_SPACE} {width : Nat}
    {strip_data : List (Option (List Nat))} {strip_height : List Nat}
    {ret_i s : QPDFObjectHandle} {i : Nat}
    (h : encode_strip compression dict components color_space width strip_data strip_height
      ret_i i = some s) :
    ∃ hgt buf,
      strip_height[i]? = some hgt ∧ strip_data[i]? = some (some buf) ∧
      s = .stream (map_set dict "/Height" (.integer hgt))
        (some ⟨strip_pipeline compression width hgt components color_space, buf⟩)
        (.name (filter_name compression)) .null := by
  unfold encode_strip at h
  cases hh : strip_height[i]? with
  | none => rw [hh] at h; simp at h
  | some hgt =>
    rw [hh] at h
    simp only at h
    cases ret_i with
    | uninitialized => simp [QPDFObjectHandle.replaceDict] at h
    | stream d0 data0 f0 p0 =>
      simp only [QPDFObjectHandle.replaceDict] at h
      cases hd : strip_data[i]? with
      | none => rw [hd] at h; simp at h
      | some holder =>
        rw [hd] at h
        cases holder with
        | none => simp at h
        | some buf =>
          simp only at h
          refine ⟨hgt, buf, rfl, rfl, ?_⟩
          cases compression <;>
            simp [QPDFObjectHandle.replaceStreamData, filter_name, strip_pipeline] at h ⊢ <;>
            exact h.symm

/-- The strips `makePclmStrips` returns for a gray or an RGB page: strip
`i` is a stream whose dictionary declares the page width, the bits per
component, the colour space `name`, and the strip's height, and whose
data is the strip's buffer sent through the pipeline of the chosen
method, with `components` channels in the case of the DCT pipeline. -/
theorem makePclmStrips_strip {num_strips : Nat} {strip_data : List (Option (List Nat))}
    {compression_methods : List CompressionMethod} {width : Nat} {strip_height : List Nat}
    {cs : cups_cspace_t} {bpc : Nat} {strips : List QPDFObjectHandle}
    (h : makePclmStrips num_strips strip_data compression_methods width strip_height cs bpc =
      some strips)
    (hcs : cs ∈ [cups_cspace_t.CUPS_CSPACE_K, .CUPS_CSPACE_SW, .CUPS_CSPACE_RGB,
      .CUPS_CSPACE_SRGB, .CUPS_CSPACE_ADOBERGB]) :
    ∃ m, select_compression compression_methods = some m ∧ strips.length = num_strips ∧
      ∀ i, i < num_strips →
        ∃ hgt buf,
          strip_height[i]? = some hgt ∧ strip_data[i]? = some (some buf) ∧
          strips[i]? = some (.stream
            [("/Type", .name "/XObject"), ("/Subtype", .name "/Image"),
             ("/Width", .integer width), ("/BitsPerComponent", .integer bpc),
             ("/ColorSpace",
               .name (if cs = .CUPS_CSPACE_K ∨ cs = .CUPS_CSPACE_SW then "/DeviceGray"
                 else "/DeviceRGB")),
             ("/Height", .integer hgt)]
            (some ⟨strip_pipeline m width hgt
                (if cs = .CUPS_CSPACE_K ∨ cs = .CUPS_CSPACE_SW then 1 else 3)
                (if cs = .CUPS_CSPACE_K ∨ cs = .CUPS_CSPACE_SW then .JCS_GRAYSCALE
                  else .JCS_RGB), buf⟩)
            (.name (filter_name m)) .null) := by
  have key : ∀ (name : String) (jcs : J_COLOR_SPACE) (comp : Nat),
      (match select_compression compression_methods with
        | none => none
        | some compression =>
          for_each_index
            (fun i =>
              encode_strip compression
                (map_set (map_set (map_set (map_set (map_set [] "/Type" (.name "/XObject"))
                  "/Subtype" (.name "/Image")) "/Width" (.integer width))
                  "/BitsPerComponent" (.integer bpc)) "/ColorSpace" (.name name))
                comp jcs width strip_data strip_height
                ((List.replicate num_strips QPDFObjectHandle.newStream).getD i .uninitialized) i)
            num_strips) = some strips →
      ∃ m, select_compression compression_methods = some m ∧ strips.length = num_strips ∧
        ∀ i, i < num_strips →
          ∃ hgt buf,
            strip_height[i]? = some hgt ∧ strip_data[i]? = some (some buf) ∧
            strips[i]? = some (.stream
              [("/Type", .name "/XObject"), ("/Subtype", .name "/Image"),
               ("/Width", .integer width), ("/BitsPerComponent", .integer bpc),
               ("/ColorSpace", .name name), ("/Height", .integer hgt)]
              (some ⟨strip_pipeline m width hgt comp jcs, buf⟩)
              (.name (filter_name m)) .null) := by
    intro name jcs comp hk
    cases hm : select_compression compression_methods with
    | none => rw [hm] at hk; simp at hk
    | some m =>
      rw [hm] at hk
      simp only at hk
      obtain ⟨hlen, hidx⟩ := for_each_index_some _ _ _ hk
      refine ⟨m, rfl, hlen, ?_⟩
      intro i hi
      have hb := hidx i hi
      have hlt : i < strips.length := by omega
      rw [List.getElem?_eq_getElem hlt] at hb
      obtain ⟨hgt, buf, e1, e2, e3⟩ := encode_strip_some hb
      refine ⟨hgt, buf, e1, e2, ?_⟩
      rw [List.getElem?_eq_getElem hlt, e3]
      rfl
  unfold makePclmStrips at h
  cases cs
  case CUPS_CSPACE_K => simpa using key "/DeviceGray" .JCS_GRAYSCALE 1 h
  case CUPS_CSPACE_SW => simpa using key "/DeviceGray" .JCS_GRAYSCALE 1 h
  case CUPS_CSPACE_RGB => simpa using key "/DeviceRGB" .JCS_RGB 3 h
  case CUPS_CSPACE_SRGB => simpa using key "/DeviceRGB" .JCS_RGB 3 h
  case CUPS_CSPACE_ADOBERGB => simpa using key "/DeviceRGB" .JCS_RGB 3 h
  all_goals exact absurd hcs (by simp)

/-! ## Resource names are pairwise distinct -/

theorem digitChar_toNat (d : Nat) (h : d < 10) :
    (Nat.digitChar d).toNat - '0'.toNat = d ∧ Nat.digitChar d ≠ '-' ∧
      (0 < d → Nat.digitChar d ≠ '0') := by
  interval_cases d <;> decide

theorem digits_value_append (l : List Char) (c : Char) :
    digits_value (l ++ [c]) = digits_value l * 10 + (c.toNat - '0'.toNat) := by
  unfold digits_value
  rw [List.foldl_append]
  rfl

theorem decimal_digits_value (n : Nat) : digits_value (decimal_digits n) = n := by
  induction n using Nat.strong_induction_on with
  | _ n ih =>
    by_cases h : n < 10
    · rw [decimal_digits_lt_ten n h]
      have := (digitChar_toNat n h).1
      simpa [digits_value] using this
    · rw [decimal_digits_ge_ten n h, digits_value_append, ih (n / 10) (by omega),
        (digitChar_toNat (n % 10) (Nat.mod_lt n (by omega))).1]
      omega

theorem decimal_digits_head (n : Nat) :
    ∃ c rest, decimal_digits n = c :: rest ∧ c ≠ '-' ∧ (0 < n → c ≠ '0') := by
  induction n using Nat.strong_induction_on with
  | _ n ih =>
    by_cases h : n < 10
    · rw [decimal_digits_lt_ten n h]
      exact ⟨_, [], rfl, (digitChar_toNat n h).2.1, (digitChar_toNat n h).2.2⟩
    · rw [decimal_digits_ge_ten n h]
      obtain ⟨c, rest, hc, h1, h2⟩ := ih (n / 10) (by omega)
      rw [hc]
      exact ⟨c, rest ++ [Nat.digitChar (n % 10)], rfl, h1, fun _ => h2 (by omega)⟩

theorem dropWhile_zeros (z : Nat) (l : List Char) :
    (List.replicate z '0' ++ l).dropWhile (fun c => c == '0') =
      l.dropWhile (fun c => c == '0') := by
  induction z with
  | zero => rfl
  | succ z ih =>
    rw [List.replicate_succ, List.cons_append, List.dropWhile_cons]
    simp only [beq_self_eq_true, if_true]
    exact ih

/-- Reading a zero padded decimal string back gives the integer it was
made from. -/
theorem fwstring_value_int_to_string (z : Nat) (n : Int) :
    fwstring_value (List.replicate z '0' ++ (int_to_string n).data) = n := by
  unfold fwstring_value
  rw [dropWhile_zeros]
  unfold int_to_string
  rcases lt_trichotomy n 0 with hneg | hzero | hpos
  · rw [if_pos hneg]
    have hd : ("-" ++ String.mk (decimal_digits n.natAbs)).data =
        '-' :: decimal_digits n.natAbs := by
      rw [String.data_append]
      rfl
    rw [hd, List.dropWhile_cons]
    have : (('-' : Char) == '0') = false := by decide
    simp only [this, Bool.false_eq_true, if_false]
    rw [decimal_digits_value]
    omega
  · subst hzero
    rw [if_neg (by omega)]
    have : (String.mk (decimal_digits (0 : Int).natAbs)).data = ['0'] := by
      show decimal_digits 0 = ['0']
      rw [decimal_digits_lt_ten 0 (by omega)]
      rfl
    rw [this]
    rfl
  · rw [if_neg (by omega)]
    obtain ⟨c, rest, hc, h1, h2⟩ := decimal_digits_head n.natAbs
    have hc0 : c ≠ '0' := h2 (by omega)
    show (match (decimal_digits n.natAbs).dropWhile (fun c => c == '0') with
      | [] => (0 : Int)
      | '-' :: rest => -(digits_value rest : Int)
      | c :: rest => (digits_value (c :: rest) : Int)) = n
    have hv := decimal_digits_value n.natAbs
    rw [hc] at hv ⊢
    rw [List.dropWhile_cons]
    have : (c == '0') = false := by simpa using hc0
    simp only [this, Bool.false_eq_true, if_false]
    rw [hv]
    exact Int.natAbs_of_nonneg (le_of_lt hpos)

theorem toInt32_injective (i j : Nat) (hi : i < 2 ^ 32) (hj : j < 2 ^ 32)
    (h : toInt32 i = toInt32 j) : i = j := by
  unfold toInt32 at h
  rw [Nat.mod_eq_of_lt hi, Nat.mod_eq_of_lt hj] at h
  split_ifs at h <;> omega

/-- The resource names of two different strips differ, for every strip
count. -/
theorem image_name_injective (N i j : Nat) (hi : i < 2 ^ 32) (hj : j < 2 ^ 32)
    (h : image_name N i = image_name N j) : i = j := by
  unfold image_name int_to_fwstring at h
  have hd := congrArg String.data h
  simp only [String.data_append] at hd
  have hd2 := List.append_cancel_left hd
  have h1 := fwstring_value_int_to_string
    (if num_digits (toInt32 ((N + UINT_MOD - 1) % UINT_MOD)) - num_digits (toInt32 i) < 0
      then 0
      else num_digits (toInt32 ((N + UINT_MOD - 1) % UINT_MOD)) - num_digits (toInt32 i)).toNat
    (toInt32 i)
  have h2 := fwstring_value_int_to_string
    (if num_digits (toInt32 ((N + UINT_MOD - 1) % UINT_MOD)) - num_digits (toInt32 j) < 0
      then 0
      else num_digits (toInt32 ((N + UINT_MOD - 1) % UINT_MOD)) - num_digits (toInt32 j)).toNat
    (toInt32 j)
  have : toInt32 i = toInt32 j := by
    rw [← h1, ← h2]
    exact congrArg fwstring_value hd2
  exact toInt32_injective i j hi hj this

/-! ## Image streams and image resources of a closed page -/

/-- Adding the strips to an `XObject` dictionary that has none of their
names appends one entry per strip, in strip order. -/
theorem add_images_eq (num_strips : Nat) (strips : List QPDFObjectHandle) :
    ∀ (n i : Nat) (dict : List (String × QPDFObjectHandle)), i + n ≤ 2 ^ 32 →
      (∀ e ∈ dict, ∀ k, i ≤ k → k < i + n → e.1 ≠ image_name num_strips k) →
      add_images num_strips strips n i dict =
        dict ++ (List.range' i n).map
          (fun k => (image_name num_strips k, strips.getD k .uninitialized)) := by
  intro n
  induction n with
  | zero =>
    intro i dict _ _
    simp [add_images]
  | succ n ih =>
    intro i dict hin hfresh
    have hany : dict.any (fun e => e.1 == image_name num_strips i) = false := by
      rw [List.any_eq_false]
      intro e he
      have := hfresh e he i le_rfl (by omega)
      simpa using this
    rw [add_images, replaceKey, hany]
    simp only [Bool.false_eq_true, if_false]
    rw [ih (i + 1) _ (by omega)]
    · rw [List.range'_succ, List.map_cons, List.append_assoc]
      rfl
    · intro e he k hk1 hk2
      rcases List.mem_append.mp he with h | h
      · exact hfresh e h k (by omega) (by omega)
      · rw [List.mem_singleton] at h
        rw [h]
        intro hname
        have := image_name_injective num_strips i k (by omega) (by omega) hname
        omega

/-- The state `finish_page` leaves for an opened page of positive height
in a gray or RGB colour space. -/
theorem finish_page_eq (host : Host) (s : pdf_state) (k : Nat) (pg : PageObject) (r : Int)
    (hopen : page_open s.info) (hpos : 0 < s.info.height)
    (hcs : s.info.color_space ∈ [cups_cspace_t.CUPS_CSPACE_K, .CUPS_CSPACE_SW,
      .CUPS_CSPACE_RGB, .CUPS_CSPACE_SRGB, .CUPS_CSPACE_ADOBERGB])
    (hne : s.info.pclm_compression_method_preferred ≠ [])
    (hpage : s.page = some k) (hpg : s.pdf[k]? = some pg)
    (hres : stoi (strip_dpi s.info.pclm_source_resolution_default) = some r) :
    ∃ strips placed,
      makePclmStrips s.info.pclm_num_strips s.info.pclm_strip_data
        s.info.pclm_compression_method_preferred s.info.width s.info.pclm_strip_height
        s.info.color_space s.info.bpc = some strips ∧
      finish_page host s = .ok { s with
        pdf := s.pdf.set k { pg with
          XObject := add_images s.info.pclm_num_strips strips s.info.pclm_num_strips 0
            pg.XObject
          Contents := some placed }
        page_data := none
        info := { s.info with pclm_strip_data := [] } } := by
  obtain ⟨hlen, hdlen, hbuf, hany, hsum, htot, hN⟩ := page_open_holders hopen
  obtain ⟨strips, hmk, hslen, hinit⟩ := makePclmStrips_initialized s.info.pclm_num_strips
    s.info.pclm_strip_data s.info.pclm_compression_method_preferred s.info.width
    s.info.pclm_strip_height s.info.color_space s.info.bpc hne (by omega) hbuf hcs
  have hall : (strips.take s.info.pclm_num_strips).any (fun h => !h.isInitialized) = false := by
    rw [List.any_eq_false]
    intro h hh
    have := hinit h (List.mem_of_mem_take hh)
    simp [this]
  have hplace0 := place_strips_eq s.info s.info.height hopen.2.1 hsum s.info.pclm_num_strips 0
    (by omega)
  simp only [List.take_zero, List.sum_nil, Nat.sub_zero] at hplace0
  obtain ⟨placed0, hplace⟩ : ∃ p, place_strips s.info s.info.pclm_num_strips 0 s.info.height =
      some p := ⟨_, hplace0⟩
  have hbind : (s.page.bind fun k => s.pdf[k]?.map fun pg => (k, pg)) = some (k, pg) := by
    rw [hpage]
    simp [hpg]
  refine ⟨strips,
    host.double_to_string
        (if toUnsigned r = 0 then none
          else some (roundDouble (72 / ((toUnsigned r : Nat) : ℚ)))) ++ " 0 0 " ++
      host.double_to_string
        (if toUnsigned r = 0 then none
          else some (roundDouble (72 / ((toUnsigned r : Nat) : ℚ)))) ++ " 0 0 cm\n" ++
      placed0, hmk, ?_⟩
  unfold finish_page
  simp only [if_neg (hN hpos), hany, hmk, hall, hbind, hres, hplace]
  rfl

/-- C23: the streams `makePclmStrips` returns carry the channel count and
the colour space derived from the page's declared output colour space:
for `CUPS_CSPACE_K` and `CUPS_CSPACE_SW` every strip's dictionary has
`/ColorSpace /DeviceGray` and the encoder is given 1 channel and
`JCS_GRAYSCALE`; for `CUPS_CSPACE_RGB`, `CUPS_CSPACE_SRGB` and
`CUPS_CSPACE_ADOBERGB` it is `/DeviceRGB`, 3 channels and `JCS_RGB`.  The
channel count and the JPEG colour space reach the encoder through the
`Pl_DCT` pipeline only. -/
theorem makePclmStrips_channels (num_strips : Nat) (strip_data : List (Option (List Nat)))
    (compression_methods : List CompressionMethod) (width : Nat) (strip_height : List Nat)
    (cs : cups_cspace_t) (bpc : Nat) (strips : List QPDFObjectHandle)
    (h : makePclmStrips num_strips strip_data compression_methods width strip_height cs bpc =
      some strips) :
    (cs = .CUPS_CSPACE_K ∨ cs = .CUPS_CSPACE_SW →
      ∃ m, select_compression compression_methods = some m ∧ strips.length = num_strips ∧
        ∀ i, i < num_strips → ∃ hgt buf dict,
          strip_height[i]? = some hgt ∧
          strips[i]? = some (.stream dict
            (some ⟨strip_pipeline m width hgt 1 .JCS_GRAYSCALE, buf⟩)
            (.name (filter_name m)) .null) ∧
          dict.lookup "/ColorSpace" = some (.name "/DeviceGray") ∧
          (m = .DCT_DECODE →
            strip_pipeline m width hgt 1 .JCS_GRAYSCALE =
              .Pl_DCT width hgt 1 .JCS_GRAYSCALE)) ∧
    (cs = .CUPS_CSPACE_RGB ∨ cs = .CUPS_CSPACE_SRGB ∨ cs = .CUPS_CSPACE_ADOBERGB →
      ∃ m, select_compression compression_methods = some m ∧ strips.length = num_strips ∧
        ∀ i, i < num_strips → ∃ hgt buf dict,
          strip_height[i]? = some hgt ∧
          strips[i]? = some (.stream dict
            (some ⟨strip_pipeline m width hgt 3 .JCS_RGB, buf⟩)
            (.name (filter_name m)) .null) ∧
          dict.lookup "/ColorSpace" = some (.name "/DeviceRGB") ∧
          (m = .DCT_DECODE →
            strip_pipeline m width hgt 3 .JCS_RGB = .Pl_DCT width hgt 3 .JCS_RGB)) := by
  constructor
  · intro hcs
    have hmem : cs ∈ [cups_cspace_t.CUPS_CSPACE_K, .CUPS_CSPACE_SW, .CUPS_CSPACE_RGB,
        .CUPS_CSPACE_SRGB, .CUPS_CSPACE_ADOBERGB] := by
      rcases hcs with h1 | h1 <;> rw [h1] <;> decide
    obtain ⟨m, hm, hlen, hall⟩ := makePclmStrips_strip h hmem
    refine ⟨m, hm, hlen, ?_⟩
    intro i hi
    obtain ⟨hgt, buf, e1, -, e3⟩ := hall i hi
    rw [if_pos hcs, if_pos hcs, if_pos hcs] at e3
    exact ⟨hgt, buf, _, e1, e3, rfl, fun hd => by rw [hd]; rfl⟩
  · intro hcs
    have hmem : cs ∈ [cups_cspace_t.CUPS_CSPACE_K, .CUPS_CSPACE_SW, .CUPS_CSPACE_RGB,
        .CUPS_CSPACE_SRGB, .CUPS_CSPACE_ADOBERGB] := by
      rcases hcs with h1 | h1 | h1 <;> rw [h1] <;> decide
    have hnot : ¬ (cs = .CUPS_CSPACE_K ∨ cs = .CUPS_CSPACE_SW) := by
      rcases hcs with h1 | h1 | h1 <;> rw [h1] <;> decide
    obtain ⟨m, hm, hlen, hall⟩ := makePclmStrips_strip h hmem
    refine ⟨m, hm, hlen, ?_⟩
    intro i hi
    obtain ⟨hgt, buf, e1, -, e3⟩ := hall i hi
    rw [if_neg hnot, if_neg hnot, if_neg hnot] at e3
    exact ⟨hgt, buf, _, e1, e3, rfl, fun hd => by rw [hd]; rfl⟩

/-- Witness of C23: one RGB strip of one pixel, encoded with the DCT
method. -/
theorem makePclmStrips_channels_witness :
    makePclmStrips 1 [some [1, 2, 3]] [.DCT_DECODE] 1 [1] .CUPS_CSPACE_RGB 8 =
      some [.stream
        [("/Type", .name "/XObject"), ("/Subtype", .name "/Image"), ("/Width", .integer 1),
         ("/BitsPerComponent", .integer 8), ("/ColorSpace", .name "/DeviceRGB"),
         ("/Height", .integer 1)]
        (some ⟨.Pl_DCT 1 1 3 .JCS_RGB, [1, 2, 3]⟩) (.name "/DCTDecode") .null] ∧
    ∃ m, select_compression [.DCT_DECODE] = some m ∧
      ∀ i, i < 1 → ∃ hgt buf dict,
        [1][i]? = some hgt ∧
        [QPDFObjectHandle.stream
          [("/Type", .name "/XObject"), ("/Subtype", .name "/Image"), ("/Width", .integer 1),
           ("/BitsPerComponent", .integer 8), ("/ColorSpace", .name "/DeviceRGB"),
           ("/Height", .integer 1)]
          (some ⟨.Pl_DCT 1 1 3 .JCS_RGB, [1, 2, 3]⟩) (.name "/DCTDecode") .null][i]? =
          some (.stream dict (some ⟨strip_pipeline m 1 hgt 3 .JCS_RGB, buf⟩)
            (.name (filter_name m)) .null) ∧
        dict.lookup "/ColorSpace" = some (.name "/DeviceRGB") ∧
        (m = .DCT_DECODE → strip_pipeline m 1 hgt 3 .JCS_RGB = .Pl_DCT 1 hgt 3 .JCS_RGB) := by
  have h0 : makePclmStrips 1 [some [1, 2, 3]] [.DCT_DECODE] 1 [1] .CUPS_CSPACE_RGB 8 =
      some [.stream
        [("/Type", .name "/XObject"), ("/Subtype", .name "/Image"), ("/Width", .integer 1),
         ("/BitsPerComponent", .integer 8), ("/ColorSpace", .name "/DeviceRGB"),
         ("/Height", .integer 1)]
        (some ⟨.Pl_DCT 1 1 3 .JCS_RGB, [1, 2, 3]⟩) (.name "/DCTDecode") .null] := by
    decide
  obtain ⟨m, hm, -, hall⟩ := (makePclmStrips_channels 1 [some [1, 2, 3]] [.DCT_DECODE] 1 [1]
    .CUPS_CSPACE_RGB 8 _ h0).2 (Or.inl rfl)
  exact ⟨h0, m, hm, hall⟩

/-- C22: closing an opened page of positive height (so with `N >= 1`
strips) in a gray or RGB colour space, whose page object has no image
resource yet: `finish_page` returns, `makePclmStrips` has produced exactly
`N` encoded streams in strip order, stream `i` declaring `/Width` = page
width and `/Height` = `pclm_strip_height[i]` and holding the encoding of
strip `i`'s buffer, and the page's `XObject` dictionary has exactly `N`
entries, entry `i` being stream `i` under the name of strip `i`, all
names different. -/
theorem finish_page_streams_and_resources (host : Host) (s : pdf_state) (k : Nat)
    (pg : PageObject) (r : Int) (hopen : page_open s.info) (hpos : 0 < s.info.height)
    (hcs : s.info.color_space ∈ [cups_cspace_t.CUPS_CSPACE_K, .CUPS_CSPACE_SW,
      .CUPS_CSPACE_RGB, .CUPS_CSPACE_SRGB, .CUPS_CSPACE_ADOBERGB])
    (hne : s.info.pclm_compression_method_preferred ≠ [])
    (hpage : s.page = some k) (hpg : s.pdf[k]? = some pg)
    (hres : stoi (strip_dpi s.info.pclm_source_resolution_default) = some r)
    (hfresh : pg.XObject = []) :
    ∃ s1 pg1 strips m,
      finish_page host s = .ok s1 ∧ s1.pdf[k]? = some pg1 ∧
      makePclmStrips s.info.pclm_num_strips s.info.pclm_strip_data
        s.info.pclm_compression_method_preferred s.info.width s.info.pclm_strip_height
        s.info.color_space s.info.bpc = some strips ∧
      select_compression s.info.pclm_compression_method_preferred = some m ∧
      1 ≤ s.info.pclm_num_strips ∧
      strips.length = s.info.pclm_num_strips ∧
      pg1.XObject.length = s.info.pclm_num_strips ∧
      (pg1.XObject.map Prod.fst).Nodup ∧
      ∀ i, i < s.info.pclm_num_strips →
        ∃ hgt buf dict pipeline,
          s.info.pclm_strip_height[i]? = some hgt ∧
          s.info.pclm_strip_data[i]? = some (some buf) ∧
          strips[i]? = some (.stream dict (some ⟨pipeline, buf⟩) (.name (filter_name m))
            .null) ∧
          dict.lookup "/Width" = some (.integer s.info.width) ∧
          dict.lookup "/Height" = some (.integer hgt) ∧
          pg1.XObject[i]? = some (image_name s.info.pclm_num_strips i,
            .stream dict (some ⟨pipeline, buf⟩) (.name (filter_name m)) .null) := by
  obtain ⟨strips, placed, hmk, hfin⟩ :=
    finish_page_eq host s k pg r hopen hpos hcs hne hpage hpg hres
  obtain ⟨m, hm, hlen, hall⟩ := makePclmStrips_strip hmk hcs
  obtain ⟨-, -, -, -, -, -, hN⟩ := page_open_holders hopen
  have hNlt : s.info.pclm_num_strips < 2 ^ 32 := by
    obtain ⟨hP, hH, -, hNeq, -, -⟩ := hopen
    obtain ⟨-, -, f3, -⟩ := strip_count_facts s.info.height
      s.info.pclm_strip_height_preferred hP
    rw [← hNeq] at f3
    omega
  have hk : k < s.pdf.length := by
    by_contra hcon
    rw [List.getElem?_eq_none (by omega)] at hpg
    simp at hpg
  have hget : ∀ pg1 : PageObject, (s.pdf.set k pg1)[k]? = some pg1 := by
    intro pg1
    simp only [List.getElem?_set_self, hk, List.getElem?_eq_getElem]
  have hx : add_images s.info.pclm_num_strips strips s.info.pclm_num_strips 0 pg.XObject =
      (List.range s.info.pclm_num_strips).map
        (fun j => (image_name s.info.pclm_num_strips j, strips.getD j .uninitialized)) := by
    rw [add_images_eq s.info.pclm_num_strips strips s.info.pclm_num_strips 0 pg.XObject
      (by omega) (by rw [hfresh]; intro e he; exact absurd he (List.not_mem_nil e)),
      hfresh, List.nil_append, List.range_eq_range']
  refine ⟨_, _, strips, m, hfin, hget _, hmk, hm, Nat.one_le_iff_ne_zero.mpr (hN hpos), hlen,
    ?_, ?_, ?_⟩
  · show (add_images s.info.pclm_num_strips strips s.info.pclm_num_strips 0
      pg.XObject).length = _
    rw [hx, List.length_map, List.length_range]
  · show ((add_images s.info.pclm_num_strips strips s.info.pclm_num_strips 0
      pg.XObject).map Prod.fst).Nodup
    rw [hx, List.map_map]
    apply List.Nodup.map_on _ (List.nodup_range _)
    intro a ha b hb hab
    rw [List.mem_range] at ha hb
    exact image_name_injective s.info.pclm_num_strips a b (by omega) (by omega) hab
  · intro i hi
    obtain ⟨hgt, buf, e1, e2, e3⟩ := hall i hi
    refine ⟨hgt, buf, _, _, e1, e2, e3, rfl, rfl, ?_⟩
    show (add_images s.info.pclm_num_strips strips s.info.pclm_num_strips 0 pg.XObject)[i]? = _
    rw [hx, List.getElem?_map, List.getElem?_range hi]
    simp only [Option.map_some', List.getD_eq_getElem?_getD, e3, Option.getD_some]

/-- The page of 32 rows of 100 gray pixels at 1 dpi, opened at the start
of `main`. -/
theorem add_pdf_page_gray_100x32 :
    add_pdf_page Host.little_endian { Globals.init with cm_disabled := 1 }
        (pdf_state.configured PPD.plain) 1 100 32 8 8 100 "" .CUPS_CSPACE_K 1 1 =
      .ok ({ colorProfile := none, cm_disabled := 1,
             conversion_function := some .noColorConversion,
             bit_function := some .invertBits }, pdf_state.gray_100x32) := by
  have hw : pdf_units 100 1 = some 7200 := by
    have h := pdf_units_of_mul 1 100 (by decide) (by decide)
    simpa using h
  have hh : pdf_units 32 1 = some 2304 := by
    have h := pdf_units_of_mul 1 32 (by decide) (by decide)
    simpa using h
  have bw : box_extent (some 7200) = some 7200 := by
    have h := box_extent_natCast 7200 (by decide)
    simpa using h
  have bh : box_extent (some 2304) = some 2304 := by
    have h := box_extent_natCast 2304 (by decide)
    simpa using h
  exact @add_pdf_page_ok Host.little_endian { Globals.init with cm_disabled := 1 }
    (pdf_state.configured PPD.plain) (pdf_state.configured PPD.plain) 1 100 32 8 8 100 ""
    .CUPS_CSPACE_K 1 1
    ⟨{ colorProfile := none, cm_disabled := 1,
       conversion_function := some .noColorConversion,
       bit_function := some .invertBits },
     { read_ppd_attributes PPD.plain pdf_info.init with
        width := 100, height := 32, line_bytes := 100, bpp := 8, bpc := 8,
        pclm_num_strips := 2, pclm_strip_height := [16, 16],
        pclm_strip_data := [none, none] }, 0⟩
    pdf_state.gray_100x32.info 7200 2304 7200 2304
    (finish_page_no_strips _ _ (by decide)) (by decide) (by decide) (by decide)
    (by rw [reserve_strips_eq _ rfl rfl]; rfl)
    hw hh bw bh

/-- The example page of 100 by 32 pixels is an open page. -/
theorem page_open_gray_100x32 : page_open pdf_state.gray_100x32.info := by
  refine ⟨by decide, by decide, by decide, by decide, by decide, ?_⟩
  show [some (List.replicate 1600 (0 : Nat)), some (List.replicate 1600 0)].map
      (Option.map List.length) = [16, 16].map (fun h => some (h * 100))
  simp only [List.map_cons, List.map_nil, Option.map_some', List.length_replicate]

/-- Witness of C22: the page of 100 by 32 gray pixels of 8 bits with
strips of 16 rows: 2 strips of heights 16 and 16, 2 encoded streams and 2
image resources. -/
theorem finish_page_streams_and_resources_witness :
    page_open pdf_state.gray_100x32.info ∧
    pdf_state.gray_100x32.info.pclm_num_strips = 2 ∧
    pdf_state.gray_100x32.info.pclm_strip_height = [16, 16] ∧
    ∃ s1 pg1 strips,
      finish_page Host.little_endian pdf_state.gray_100x32 = .ok s1 ∧
      s1.pdf[0]? = some pg1 ∧ s1.pdf.length = 1 ∧
      makePclmStrips 2 pdf_state.gray_100x32.info.pclm_strip_data
        pdf_state.gray_100x32.info.pclm_compression_method_preferred 100 [16, 16]
        .CUPS_CSPACE_K 8 = some strips ∧
      strips.length = 2 ∧ pg1.XObject.length = 2 ∧ (pg1.XObject.map Prod.fst).Nodup := by
  have hopen : page_open pdf_state.gray_100x32.info := page_open_gray_100x32
  obtain ⟨s1, pg1, strips, m, h1, h2, h3, -, -, h6, h7, h8, -⟩ :=
    finish_page_streams_and_resources Host.little_endian pdf_state.gray_100x32 0
      { MediaBox := (0, 0, 7200, 2304), XObject := [], Contents := none } 600
      hopen (by decide) (by decide) (by decide) rfl rfl (by decide) rfl
  have hl : s1.pdf.length = 1 := by
    have hk := finish_page_keeps_strip_count Host.little_endian _ _ h1
    unfold finish_page at h1
    revert h1
    simp only
    split_ifs
    · intro h1
      simp only [Outcome.ok.injEq] at h1
      rw [← h1]
      rfl
    · intro h1
      simp only [Outcome.ok.injEq] at h1
      rw [← h1]
      rfl
    · split
      · intro h; exact absurd h (by simp)
      · split_ifs
        · intro h; exact absurd h (by simp)
        · split
          · intro h; exact absurd h (by simp)
          · split
            · intro h; exact absurd h (by simp)
            · split
              · intro h; exact absurd h (by simp)
              · intro h1
                simp only [Outcome.ok.injEq] at h1
                rw [← h1]
                simp only [List.length_set]
                rfl
  exact ⟨hopen, rfl, rfl, s1, pg1, strips, h1, h2, hl, h3, h6, h7, h8⟩

/-- Rounding gives the multiple `K` of the unit in the last place that is
strictly within half a unit of the argument. -/
theorem roundDouble_of_near_strict (z : ℚ) (E K : Int) (hlo : (2 : ℚ) ^ E ≤ z)
    (hhi : z < (2 : ℚ) ^ (E + 1)) (hnear : |z / (2 : ℚ) ^ (E - 52) - K| < 1 / 2) :
    roundDouble z = (K : ℚ) * (2 : ℚ) ^ (E - 52) := by
  have hz : 0 < z := lt_of_lt_of_le (two_zpow_pos E) hlo
  have hlog := log_two_eq z E hlo hhi
  unfold roundDouble
  rw [if_neg (ne_of_gt hz), abs_of_pos hz, hlog]
  simp only [if_neg (not_lt.mpr (le_of_lt hz)), one_mul]
  generalize z / (2 : ℚ) ^ (E - 52) = s at hnear
  have hf1 : (⌊s⌋ : ℚ) ≤ s := Int.floor_le s
  have hf2 : s < ⌊s⌋ + 1 := Int.lt_floor_add_one s
  obtain ⟨hn1, hn2⟩ := abs_lt.mp hnear
  have hfK : ⌊s⌋ ≤ K := by
    have : (⌊s⌋ : ℚ) < (K : ℚ) + 1 := by linarith
    have : ⌊s⌋ < K + 1 := by exact_mod_cast this
    omega
  have hKf : K - 1 ≤ ⌊s⌋ := by
    have : (K : ℚ) - 1 < (⌊s⌋ : ℚ) + 1 := by linarith
    have : K - 1 < ⌊s⌋ + 1 := by exact_mod_cast this
    omega
  congr 1
  norm_cast
  rcases (by omega : ⌊s⌋ = K ∨ ⌊s⌋ = K - 1) with hf | hf
  · have hfq : (⌊s⌋ : ℚ) = K := by exact_mod_cast hf
    split_ifs with h1 h2 h3
    · exact hf
    · rw [hfq] at h2; linarith
    · exact hf
    · rw [hfq] at h1 h2; exfalso; linarith
  · have hfq : (⌊s⌋ : ℚ) = K - 1 := by rw [hf]; push_cast; ring
    split_ifs with h1 h2 h3
    · rw [hfq] at h1; linarith
    · omega
    · rw [hfq] at h1 h2; exfalso; linarith
    · omega

/-- The `double` quotient `1.0 / 49`. -/
theorem roundDouble_one_div_49 :
    roundDouble ((1 : ℚ) / 49) = (5882252574524729 : Int) * (2 : ℚ) ^ ((-6 : Int) - 52) := by
  apply roundDouble_of_near_strict
  · norm_num
  · norm_num
  · rw [abs_lt]
    norm_num

/-- The `double` product `49 * (1.0 / 49)` is the largest `double` below 1. -/
theorem roundDouble_49_mul :
    roundDouble ((49 : ℚ) * ((5882252574524729 : Int) * (2 : ℚ) ^ ((-6 : Int) - 52))) =
      (9007199254740991 : Int) * (2 : ℚ) ^ ((-1 : Int) - 52) := by
  apply roundDouble_of_near_strict
  · norm_num
  · norm_num
  · rw [abs_lt]
    norm_num

/-- Rows of 49 bytes with 49 channels per pixel, converted to one channel:
`modify_pdf_color` stores 0 bytes per row. -/
theorem modify_pdf_color_49 (g : Globals) (info : pdf_info) (fn : convertFunction)
    (hbpp : info.bpp = 49) (hbpc : info.bpc = 1) (hlb : info.line_bytes = 49) :
    modify_pdf_color g info 8 8 fn =
      some ({ g with conversion_function := some fn },
            { info with line_bytes := 0, bpp := 8, bpc := 8 }) := by
  have hdu : doubleToUnsigned ((9007199254740991 : Int) * (2 : ℚ) ^ ((-1 : Int) - 52)) =
      some 0 := by
    unfold doubleToUnsigned
    have hv : ((9007199254740991 : Int) : ℚ) * (2 : ℚ) ^ ((-1 : Int) - 52) =
        9007199254740991 / 9007199254740992 := by norm_num
    rw [hv, if_pos ⟨by norm_num, by norm_num⟩, if_neg (by norm_num)]
    have : ⌊(9007199254740991 / 9007199254740992 : ℚ)⌋ = 0 := by
      rw [Int.floor_eq_iff]
      constructor <;> norm_num
    rw [this]
    rfl
  have e1 : (((49 / 1 : Nat) : Nat) : ℚ) = 49 := by norm_num
  have e2 : ((Int.tdiv 8 8 : Int) : ℚ) = 1 := by
    rw [show Int.tdiv 8 8 = 1 from by decide]; norm_num
  have e3 : toUnsigned 8 = 8 := by decide
  have e4 : (49 : ℚ) ≠ 0 := by norm_num
  have e5 : ((49 : Nat) : ℚ) = 49 := by norm_num
  unfold modify_pdf_color
  simp only [hbpp, hbpc, hlb, e1, e2, e3, e5, roundDouble_one_div_49, roundDouble_49_mul, hdu,
    if_neg e4, if_neg (show ¬ (1 : Nat) = 0 from by decide),
    if_neg (show ¬ (8 : Int) = 0 from by decide)]

/-- The body of the loop of `convert_raster` is the read, the byte order
correction of lines 732-745, and the rest of the body on the corrected
row. -/
theorem convert_raster_loop_eq_tail (host : Host) (g : Globals) (width height bpl : Nat)
    (fuel cur_line : Nat) (PixelBuffer : List Nat) (rows : List (List Nat)) (info : pdf_info)
    (calls : List Nat) (reads : Nat) :
    convert_raster_loop host g width height bpl fuel cur_line PixelBuffer rows info calls reads =
      convert_raster_tail host g width height bpl fuel cur_line
        (cupsRasterReadPixels rows PixelBuffer bpl).2 info calls
        (reads + (rows.length - (cupsRasterReadPixels rows PixelBuffer bpl).2.length))
        (byte_order host info (cupsRasterReadPixels rows PixelBuffer bpl).1) := by
  cases fuel <;> (rw [convert_raster_loop]; rfl)

/-- What the swap loop of lines 738-743 does to a buffer it stays inside. -/
theorem swap_pairs_spec : ∀ (l r : List Nat), swap_pairs l = some r →
    r.length = l.length ∧ swap_pairs r = some l ∧
    ∀ i, 2 * i + 1 < l.length → r[2 * i]? = l[2 * i + 1]? ∧ r[2 * i + 1]? = l[2 * i]?
  | [], r, h => by
    simp only [swap_pairs, Option.some.injEq] at h
    subst h
    exact ⟨rfl, rfl, fun i hi => absurd hi (by simp)⟩
  | [_], r, h => by simp [swap_pairs] at h
  | a :: b :: rest, r, h => by
    simp only [swap_pairs, Option.map_eq_some'] at h
    obtain ⟨r1, hr1, rfl⟩ := h
    obtain ⟨h1, h2, h3⟩ := swap_pairs_spec rest r1 hr1
    refine ⟨by simp [h1], by simp [swap_pairs, h2], ?_⟩
    intro i hi
    cases i with
    | zero => simp
    | succ k =>
      have hk : 2 * k + 1 < rest.length := by
        simp only [List.length_cons] at hi
        omega
      obtain ⟨e1, e2⟩ := h3 k hk
      have i1 : 2 * (k + 1) = (2 * k) + 1 + 1 := by ring
      rw [i1]
      simp only [List.getElem?_cons_succ]
      exact ⟨e1, e2⟩

/-- A `convertPdf_*` function leaves the bits per colour of the page record
as they are or sets them to 8. -/
theorem convertPdf_call_bpc {fn : pdfConvertFunction} {g : Globals} {info : pdf_info}
    {r : Globals × pdf_info} (h : fn.call g info = some r) :
    r.2.bpc = info.bpc ∨ r.2.bpc = 8 := by
  cases fn
  case NoConversion =>
    simp only [pdfConvertFunction.call, convertPdf_NoConversion, Option.some.injEq] at h
    subst h; exact Or.inl rfl
  case InvertColors =>
    simp only [pdfConvertFunction.call, convertPdf_InvertColors, Option.some.injEq] at h
    subst h; exact Or.inl rfl
  all_goals
    simp only [pdfConvertFunction.call, convertPdf_Cmyk8ToWhite8, convertPdf_Rgb8ToWhite8,
      convertPdf_Cmyk8ToRgb8, convertPdf_White8ToRgb8, convertPdf_Rgb8ToCmyk8,
      convertPdf_White8ToCmyk8, Option.map_eq_some'] at h
    obtain ⟨a, ha, rfl⟩ := h
    obtain ⟨lb, rfl⟩ := modify_pdf_color_eq_some ha
    exact Or.inr (show toUnsigned 8 = 8 from by decide)

/-- The bits per colour of a prepared page are those of the raster, or 8
after a colour conversion; without a profile they are those of the
raster. -/
theorem prepare_pdf_page_bpc {g : Globals} {info : pdf_info} {width height bpl bpp bpc : Nat}
    {render_intent : String} {color_space : cups_cspace_t} {r : PrepareResult}
    (h : prepare_pdf_page g info width height bpl bpp bpc render_intent color_space = some r) :
    (r.info.bpc = bpc ∨ r.info.bpc = 8) ∧ (g.colorProfile = none → r.info.bpc = bpc) := by
  unfold prepare_pdf_page at h
  split at h
  · exact absurd h (by simp)
  · rename_i p hp
    have hpb : p.bpc = bpc := by
      unfold register_page at hp
      split at hp
      · exact absurd hp (by simp)
      · simp only [Option.some.injEq] at hp
        rw [← hp]
    obtain ⟨-, -, -, -, s5, -⟩ := select_conversion_frame g p color_space
    simp only at h
    split_ifs at h
    · simp only [Option.map_eq_some'] at h
      obtain ⟨a, ha, rfl⟩ := h
      constructor
      · rcases convertPdf_call_bpc ha with e | e
        · exact Or.inl (e.trans (s5.trans hpb))
        · exact Or.inr e
      · intro hg
        rw [select_conversion_none p color_space hg] at ha
        simp only at ha
        split_ifs at ha
        · simp only [pdfConvertFunction.call, convertPdf_InvertColors, Option.some.injEq] at ha
          subst ha; exact hpb
        · simp only [pdfConvertFunction.call, convertPdf_NoConversion, Option.some.injEq] at ha
          subst ha; exact hpb
    · simp only [Option.some.injEq] at h
      subst h
      exact ⟨Or.inl (s5.trans hpb), fun _ => s5.trans hpb⟩

/-- For a 64-bit, 16-bit-per-colour page, `modify_pdf_color(info, 8, 8, fn)`
gives a quarter of the row length and declares the page as 8-bit. -/
theorem modify_pdf_color_quarter_of_16 (g : Globals) (info : pdf_info) (fn : convertFunction)
    (hbpp : info.bpp = 64) (hbpc : info.bpc = 16) (hlb : info.line_bytes < 2 ^ 32) :
    modify_pdf_color g info 8 8 fn =
      some ({ g with conversion_function := some fn },
            { info with line_bytes := info.line_bytes / 4, bpp := 8, bpc := 8 }) := by
  have hratio : roundDouble ((1 : ℚ) / 4) = 1 / 4 := by
    have := roundDouble_exact 1 (-2) (by decide)
    have h4 : ((1 : Nat) : ℚ) * (2 : ℚ) ^ (-2 : Int) = 1 / 4 := by norm_num
    rw [h4] at this
    exact this
  have hprod : roundDouble ((info.line_bytes : ℚ) * (1 / 4)) = (info.line_bytes : ℚ) / 4 := by
    have := roundDouble_exact info.line_bytes (-2) (by omega)
    have h4 : (info.line_bytes : ℚ) * (2 : ℚ) ^ (-2 : Int) = (info.line_bytes : ℚ) * (1 / 4) := by
      norm_num
    rw [h4] at this
    rw [this]
    ring
  have hfloor : ⌊(info.line_bytes : ℚ) / 4⌋ = ((info.line_bytes / 4 : Nat) : Int) := by
    have := Rat.floor_natCast_div_natCast info.line_bytes 4
    simpa using this
  have hnn : (0 : ℚ) ≤ (info.line_bytes : ℚ) / 4 :=
    div_nonneg (by exact_mod_cast Nat.zero_le _) (by norm_num)
  have hlt : (info.line_bytes : ℚ) / 4 < 2 ^ 32 := by
    have : ((info.line_bytes : Nat) : ℚ) < ((2 ^ 32 : Nat) : ℚ) := by exact_mod_cast hlb
    have h32 : ((2 ^ 32 : Nat) : ℚ) = 2 ^ 32 := by norm_num
    rw [h32] at this
    linarith
  have hdu : doubleToUnsigned ((info.line_bytes : ℚ) / 4) = some (info.line_bytes / 4) := by
    unfold doubleToUnsigned
    rw [if_pos ⟨by linarith, hlt⟩, if_neg (not_lt.mpr hnn), hfloor, Int.toNat_ofNat]
  have e1 : (((64 / 16 : Nat) : Nat) : ℚ) = 4 := by norm_num
  have e2 : ((Int.tdiv 8 8 : Int) : ℚ) = 1 := by
    rw [show Int.tdiv 8 8 = 1 from by decide]; norm_num
  have e3 : toUnsigned 8 = 8 := by decide
  have e4 : (4 : ℚ) ≠ 0 := by norm_num
  unfold modify_pdf_color
  simp only [hbpp, hbpc, e1, e2, e3, hratio, hprod, hdu, if_neg e4,
    if_neg (show ¬ (16 : Nat) = 0 from by decide), if_neg (show ¬ (8 : Int) = 0 from by decide)]

/-- C21 (counterexample): a CMYK raster page with 16 bits per colour (64
bits per pixel, 8 bytes per row) prepared while a gray profile is active.
`convertPdf_Cmyk8ToWhite8` is selected and `modify_pdf_color` sets
`info->bpc` to 8, so on a little-endian host the byte order correction
leaves the row as read, although the source bits per colour are 16; the
swap loop would have exchanged the pairs. -/
theorem source_bpc_16_row_not_swapped_under_profile :
    Host.little_endian.big_endian = false ∧
    ∃ r, prepare_pdf_page { Globals.init with colorProfile := some .cmsSigGrayData }
        pdf_info.init 1 1 8 64 16 "" .CUPS_CSPACE_CMYK = some r ∧
      r.info.bpc = 8 ∧
      byte_order Host.little_endian r.info [1, 2, 3, 4, 5, 6, 7, 8] =
        some [1, 2, 3, 4, 5, 6, 7, 8] ∧
      swap_pairs [1, 2, 3, 4, 5, 6, 7, 8] = some [2, 1, 4, 3, 6, 5, 8, 7] := by
  obtain ⟨p, hp, -, -, p3, p4, p5, -⟩ :=
    register_page_defined pdf_info.init 1 1 8 64 16 "" .CUPS_CSPACE_CMYK (by decide)
  have hsel := @select_conversion_gray { Globals.init with colorProfile := some .cmsSigGrayData }
    p .CUPS_CSPACE_CMYK rfl
  rw [if_pos rfl] at hsel
  have hq := modify_pdf_color_quarter_of_16
    { Globals.init with colorProfile := some .cmsSigGrayData }
    { p with color_space := .CUPS_CSPACE_K } .cmykToWhite p4 p5 (by simp [p3])
  refine ⟨rfl, ?_⟩
  rw [prepare_pdf_page_eq hp, hsel]
  simp only [if_true, pdfConvertFunction.call, convertPdf_Cmyk8ToWhite8, hq, Option.map_some']
  refine ⟨_, rfl, rfl, ?_, by decide⟩
  simp [byte_order]

/-- C21 (amended): on a little-endian host the loop body of `convert_raster`
hands the row through the byte order correction to the bit and colour
conversion stage; the correction swaps each adjacent byte pair exactly when
the bits per colour of the page record, `info->bpc`, are 16, and leaves the
row byte for byte as read otherwise, in particular for 8-bit data.  On a row
of even length the swap stays inside the buffer, keeps the length,
exchanges bytes `2i` and `2i+1`, and is an involution.  The bits per colour
of the page record are those of the source when no profile is active; under
a profile they are those of the source or 8 (after `modify_pdf_color`), so
a swap happens only when the source has 16 bits per colour, and 8-bit
sources are never swapped. -/
theorem convert_raster_swaps_on_page_bpc (host : Host) (g : Globals)
    (width height bpl : Nat) (fuel cur_line : Nat) (PixelBuffer : List Nat)
    (rows : List (List Nat)) (info : pdf_info) (calls : List Nat) (reads : Nat)
    (hle : host.big_endian = false) :
    convert_raster_loop host g width height bpl fuel cur_line PixelBuffer rows info calls reads =
      convert_raster_tail host g width height bpl fuel cur_line
        (cupsRasterReadPixels rows PixelBuffer bpl).2 info calls
        (reads + (rows.length - (cupsRasterReadPixels rows PixelBuffer bpl).2.length))
        (byte_order host info (cupsRasterReadPixels rows PixelBuffer bpl).1) ∧
    (info.bpc = 16 → byte_order host info (cupsRasterReadPixels rows PixelBuffer bpl).1 =
      swap_pairs (cupsRasterReadPixels rows PixelBuffer bpl).1) ∧
    (info.bpc ≠ 16 → byte_order host info (cupsRasterReadPixels rows PixelBuffer bpl).1 =
      some (cupsRasterReadPixels rows PixelBuffer bpl).1) ∧
    (∀ buf : List Nat, Even buf.length →
      ∃ r, swap_pairs buf = some r ∧ r.length = buf.length ∧ swap_pairs r = some buf ∧
        ∀ i, 2 * i + 1 < buf.length → r[2 * i]? = buf[2 * i + 1]? ∧ r[2 * i + 1]? = buf[2 * i]?) ∧
    (∀ (g0 : Globals) (info0 : pdf_info) (w h bpl0 bpp bpc : Nat) (render_intent : String)
      (color_space : cups_cspace_t) (r : PrepareResult),
      prepare_pdf_page g0 info0 w h bpl0 bpp bpc render_intent color_space = some r →
        (g0.colorProfile = none → r.info.bpc = bpc) ∧
        (r.info.bpc = 16 → bpc = 16) ∧ (bpc = 8 → r.info.bpc = 8)) := by
  refine ⟨convert_raster_loop_eq_tail host g width height bpl fuel cur_line PixelBuffer rows
    info calls reads, ?_, ?_, ?_, ?_⟩
  · intro h16
    simp [byte_order, hle, h16]
  · intro h16
    simp [byte_order, h16]
  · intro buf hev
    obtain ⟨r, hr, -⟩ := swap_pairs_even buf hev
    obtain ⟨h1, h2, h3⟩ := swap_pairs_spec buf r hr
    exact ⟨r, hr, h1, h2, h3⟩
  · intro g0 info0 w h bpl0 bpp bpc render_intent color_space r hprep
    obtain ⟨hor, hnone⟩ := prepare_pdf_page_bpc hprep
    refine ⟨hnone, ?_, ?_⟩
    · intro h16
      rcases hor with e | e
      · rw [← e]; exact h16
      · rw [e] at h16; exact absurd h16 (by decide)
    · intro h8
      rcases hor with e | e
      · rw [e]; exact h8
      · exact e

/-- Witness of C21: a row of two 16-bit samples on a little-endian host. -/
theorem convert_raster_swaps_on_page_bpc_witness :
    Host.little_endian.big_endian = false ∧
    byte_order Host.little_endian { pdf_info.init with bpp := 16, bpc := 16, line_bytes := 4 }
      (cupsRasterReadPixels [[1, 2, 3, 4]] (Buffer_alloc 4) 4).1 = some [2, 1, 4, 3] ∧
    byte_order Host.little_endian { pdf_info.init with bpp := 8, bpc := 8, line_bytes := 4 }
      (cupsRasterReadPixels [[1, 2, 3, 4]] (Buffer_alloc 4) 4).1 = some [1, 2, 3, 4] := by
  have h16 := (convert_raster_swaps_on_page_bpc Host.little_endian Globals.init 2 1 4 0 0
    (Buffer_alloc 4) [[1, 2, 3, 4]]
    { pdf_info.init with bpp := 16, bpc := 16, line_bytes := 4 } [] 0 rfl).2.1 rfl
  have h8 := (convert_raster_swaps_on_page_bpc Host.little_endian Globals.init 4 1 4 0 0
    (Buffer_alloc 4) [[1, 2, 3, 4]]
    { pdf_info.init with bpp := 8, bpc := 8, line_bytes := 4 } [] 0 rfl).2.2.1 (by decide)
  refine ⟨rfl, ?_, ?_⟩
  · rw [h16]; decide
  · rw [h8]; decide

/-- A natural number below `2 ^ 53`, scaled down by the factor
`1 - 2 ^ (-54)`, rounds back to the number. -/
theorem roundDouble_scaled_natCast (n : Nat) (hn : 0 < n) (h53 : n < 2 ^ 53) :
    roundDouble ((n : ℚ) * (1 - 1 / 2 ^ 54)) = n := by
  have h1 : 2 ^ Nat.log 2 n ≤ n := Nat.pow_log_le_self 2 (by omega)
  have h2 : n < 2 ^ (Nat.log 2 n + 1) := Nat.lt_pow_succ_log_self (by decide) n
  generalize Nat.log 2 n = e at h1 h2
  have he : e < 53 := (Nat.pow_lt_pow_iff_right (by decide : 1 < 2)).mp (lt_of_le_of_lt h1 h53)
  have hP : (0 : ℚ) < (2 : ℚ) ^ e := pow_pos (by norm_num) e
  have h2q : (n : ℚ) < 2 * (2 : ℚ) ^ e := by
    have : ((n : Nat) : ℚ) < ((2 ^ (e + 1) : Nat) : ℚ) := by exact_mod_cast h2
    rw [pow_succ] at this
    push_cast at this
    linarith
  have h53q : (n : ℚ) < 2 ^ 53 := by
    have : ((n : Nat) : ℚ) < ((2 ^ 53 : Nat) : ℚ) := by exact_mod_cast h53
    push_cast at this
    exact this
  have hnq : (0 : ℚ) < (n : ℚ) := by exact_mod_cast hn
  rcases eq_or_lt_of_le h1 with heq | hlt
  · -- `n` is a power of two: a tie, which goes to the even neighbour `n`
    have hnP : (n : ℚ) = (2 : ℚ) ^ e := by
      have : ((2 ^ e : Nat) : ℚ) = ((n : Nat) : ℚ) := by exact_mod_cast heq
      push_cast at this
      exact this.symm
    have u1 : (2 : ℚ) ^ ((e : Int) - 1) = (2 : ℚ) ^ e / 2 := by
      rw [zpow_sub₀ (by norm_num), zpow_natCast]; norm_num
    have u2 : (2 : ℚ) ^ ((e : Int) - 1 + 1) = (2 : ℚ) ^ e := by
      rw [sub_add_cancel, zpow_natCast]
    have u3 : (2 : ℚ) ^ ((e : Int) - 1 - 52) = (2 : ℚ) ^ e / 2 ^ 53 := by
      rw [show (e : Int) - 1 - 52 = (e : Int) - 53 from by ring, zpow_sub₀ (by norm_num),
        zpow_natCast]
      norm_num
    have hq : (2 : ℚ) ^ e * (1 - 1 / 2 ^ 54) / ((2 : ℚ) ^ e / 2 ^ 53) = 2 ^ 53 - 1 / 2 := by
      field_simp
      ring
    have := roundDouble_of_near ((n : ℚ) * (1 - 1 / 2 ^ 54)) ((e : Int) - 1) ((2 ^ 53 : Nat) : Int)
      (by rw [u1, hnP]; linarith) (by rw [u2, hnP]; linarith)
      (by rw [u3, hnP, hq]; push_cast; rw [abs_le]; constructor <;> norm_num)
      ⟨2 ^ 52, by norm_num⟩
    rw [this, u3, hnP]
    push_cast
    field_simp
    norm_num
    ring
  · -- otherwise the scaled value is strictly within half a unit of `n`
    have hge : (2 : ℚ) ^ e + 1 ≤ (n : ℚ) := by
      have : ((2 ^ e + 1 : Nat) : ℚ) ≤ ((n : Nat) : ℚ) := by exact_mod_cast hlt
      push_cast at this
      exact this
    have u1 : (2 : ℚ) ^ ((e : Int) + 1) = 2 * (2 : ℚ) ^ e := by
      rw [zpow_add₀ (by norm_num), zpow_natCast]; norm_num; ring
    have u2 : (2 : ℚ) ^ ((e : Int) - 52) = (2 : ℚ) ^ e / 2 ^ 52 := by
      rw [zpow_sub₀ (by norm_num), zpow_natCast]
      norm_num
    have hk : ((2 : ℚ) ^ (52 - e)) * (2 : ℚ) ^ e = 2 ^ 52 := by
      rw [← pow_add]
      congr 1
      omega
    have hkq : ((2 : ℚ) ^ (52 - e)) = 2 ^ 52 / (2 : ℚ) ^ e := by
      rw [eq_div_iff (ne_of_gt hP)]
      exact hk
    have hdiff : (n : ℚ) * (1 - 1 / 2 ^ 54) / ((2 : ℚ) ^ e / 2 ^ 52) -
        (n : ℚ) * (2 ^ 52 / (2 : ℚ) ^ e) = -((n : ℚ) / (4 * (2 : ℚ) ^ e)) := by
      field_simp
      ring
    have hsmall : (n : ℚ) / (4 * (2 : ℚ) ^ e) < 1 / 2 := by
      rw [div_lt_iff₀ (by positivity)]
      linarith
    have hpos : (0 : ℚ) < (n : ℚ) / (4 * (2 : ℚ) ^ e) := by positivity
    have := roundDouble_of_near_strict ((n : ℚ) * (1 - 1 / 2 ^ 54)) (e : Int)
      ((n * 2 ^ (52 - e) : Nat) : Int)
      (by rw [zpow_natCast]; linarith) (by rw [u1]; linarith)
      (by
        rw [u2]
        push_cast
        rw [hkq, hdiff, abs_lt]
        constructor <;> linarith)
    rw [this, u2]
    push_cast
    rw [hkq]
    field_simp

/-- The `double` quotient `4.0 / 3`. -/
theorem roundDouble_four_thirds :
    roundDouble ((4 : ℚ) / 3) = (6004799503160661 : Int) * (2 : ℚ) ^ ((0 : Int) - 52) := by
  apply roundDouble_of_near_strict
  · norm_num
  · norm_num
  · rw [abs_lt]
    norm_num

/-- The example of C30: for a page of 24 bits per pixel and 8 bits per
colour with rows of `3 w` bytes, `modify_pdf_color(info, 32, 8, fn)` gives
rows of exactly `4 w` bytes: the quotient `4.0 / 3` is rounded down and the
product rounds back up to `4 w`. -/
theorem modify_pdf_color_rgb8_to_cmyk8 (g : Globals) (info : pdf_info) (fn : convertFunction)
    (w : Nat) (hbpp : info.bpp = 24) (hbpc : info.bpc = 8) (hlb : info.line_bytes = 3 * w)
    (hfit : 4 * w < 2 ^ 32) :
    modify_pdf_color g info 32 8 fn =
      some ({ g with conversion_function := some fn },
            { info with line_bytes := 4 * w, bpp := 32, bpc := 8 }) := by
  have hprod : roundDouble (((3 * w : Nat) : ℚ) *
      ((6004799503160661 : Int) * (2 : ℚ) ^ ((0 : Int) - 52))) = ((4 * w : Nat) : ℚ) := by
    have hz : ((3 * w : Nat) : ℚ) * ((6004799503160661 : Int) * (2 : ℚ) ^ ((0 : Int) - 52)) =
        ((4 * w : Nat) : ℚ) * (1 - 1 / 2 ^ 54) := by
      push_cast
      norm_num
      ring
    rw [hz]
    rcases Nat.eq_zero_or_pos w with h0 | hpos
    · subst h0
      simp [roundDouble_zero]
    · exact roundDouble_scaled_natCast (4 * w) (by omega) (by omega)
  have hdu : doubleToUnsigned ((4 * w : Nat) : ℚ) = some (4 * w) := by
    unfold doubleToUnsigned
    have hnn : (0 : ℚ) ≤ ((4 * w : Nat) : ℚ) := by exact_mod_cast Nat.zero_le _
    have hlt : ((4 * w : Nat) : ℚ) < 2 ^ 32 := by
      have : ((4 * w : Nat) : ℚ) < ((2 ^ 32 : Nat) : ℚ) := by exact_mod_cast hfit
      have h32 : ((2 ^ 32 : Nat) : ℚ) = 2 ^ 32 := by norm_num
      rw [h32] at this
      exact this
    rw [if_pos ⟨by linarith, hlt⟩, if_neg (not_lt.mpr hnn), Int.floor_natCast, Int.toNat_ofNat]
  have e1 : (((24 / 8 : Nat) : Nat) : ℚ) = 3 := by norm_num
  have e2 : ((Int.tdiv 32 8 : Int) : ℚ) = 4 := by
    rw [show Int.tdiv 32 8 = 4 from by decide]; norm_num
  have e3 : toUnsigned 8 = 8 := by decide
  have e5 : toUnsigned 32 = 32 := by decide
  have e4 : (3 : ℚ) ≠ 0 := by norm_num
  unfold modify_pdf_color
  simp only [hbpp, hbpc, hlb, e1, e2, e3, e5, roundDouble_four_thirds, hprod, hdu, if_neg e4,
    if_neg (show ¬ (8 : Nat) = 0 from by decide), if_neg (show ¬ (8 : Int) = 0 from by decide)]

/-- C30 (failing input): a page with 49 one-bit channels per pixel and 49
bytes per row satisfies the preconditions (old `bpc` 1 > 0, old `bpp` 49 ≥
old `bpc`), and so the claim gives `floor(49 * (8 div 8) / (49 div 1)) = 1`
byte per row after `modify_pdf_color(info, 8, 8, fn)`; the code computes the
`double` product `49 * (1.0 / 49)`, which is the largest `double` below 1,
and stores 0.  `bpp`, `bpc` and the conversion function are set as claimed,
and width, height and colour space are unchanged.  On the example of the
claim, an RGB page of 8 bits per colour with rows of 300 bytes, the code
gives 400 bytes per row as claimed. -/
theorem modify_pdf_color_rounds_below_floor :
    0 < pdf_info.wide_pixel.bpc ∧ pdf_info.wide_pixel.bpc ≤ pdf_info.wide_pixel.bpp ∧
    pdf_info.wide_pixel.line_bytes * (Int.tdiv 8 8).toNat /
      (pdf_info.wide_pixel.bpp / pdf_info.wide_pixel.bpc) = 1 ∧
    modify_pdf_color Globals.init pdf_info.wide_pixel 8 8 .cmykToWhite =
      some ({ Globals.init with conversion_function := some .cmykToWhite },
            { pdf_info.wide_pixel with line_bytes := 0, bpp := 8, bpc := 8 }) ∧
    modify_pdf_color Globals.init
        { pdf_info.init with width := 100, height := 1, line_bytes := 300, bpp := 24, bpc := 8 }
        32 8 .rgbToCmyk =
      some ({ Globals.init with conversion_function := some .rgbToCmyk },
            { pdf_info.init with
              width := 100, height := 1, line_bytes := 400, bpp := 32, bpc := 8 }) :=
  ⟨by decide, by decide, by decide,
    modify_pdf_color_49 Globals.init pdf_info.wide_pixel .cmykToWhite rfl rfl rfl,
    modify_pdf_color_rgb8_to_cmyk8 Globals.init
      { pdf_info.init with width := 100, height := 1, line_bytes := 300, bpp := 24, bpc := 8 }
      .rgbToCmyk 100 rfl rfl rfl (by decide)⟩

end Rastertopclm
